import Mathlib

/-!
EOS `Analysis`: registration of priors, evaluation of prior and posterior, lookup by name,
optimization, goodness of fit and cloning; and two loop functions of `CharmLoops`.

A shallow embedding of `Implementation<Analysis>` from `eos/utils/analysis.cc` and of
`CharmLoops::h` and `CharmLoops::B0` from `src/rare-b-decays/charm-loops.cc`.

* `double` is an arbitrary carrier `R`; only the operations the code applies to it
  (`0.0`, `+`, `-`, `*`, `>=`) are required of `R`, so every statement holds for any
  arithmetic; what a theorem needs beyond that (a linear order, `-(-x) = x`) it names.
* The functions of the GSL (the simplex minimizer, the chi-square distribution) are
  parameters: the statements hold for every behaviour of them.
* An `unsigned` that can wrap is a natural number reduced modulo 2^32.
* `std::vector` is `List`, `std::set<std::string>` is `Finset String`.
* A `Parameters` object is identified by a natural number, a `Parameter` handle by the
  pair of that number and the parameter's name.
* A thrown `InternalError` is the `error` case of `Except`; the state in which the
  exception leaves the object is returned next to it.
* The order in which the operands of `log_prior() + log_likelihood()` are evaluated, which
  C++ leaves unspecified, is a parameter `order`: a statement with a variable `order`
  holds for both orders.
-/

set_option autoImplicit false

namespace eos

/-! ## Collaborating types -/

/-- Modelled from the spec: the exception class `InternalError` (declared in
`eos/utils/exception.hh`), reduced to the message it carries. -/
structure InternalError where
  message : String
  deriving DecidableEq, Repr

/-- Modelled from the spec: a `Parameter` handle (declared in `eos/utils/parameters.hh`):
"a named scalar value", owned by one shared parameter space.  `space` identifies the
`Parameters` object the handle points into, `name` is what `Parameter::name()` returns. -/
structure Parameter where
  space : Nat
  name : String
  deriving DecidableEq, Repr

/-- Modelled from the spec: `ParameterDescription` (declared in
`eos/utils/parameters.hh`); its members in the order given by the comment in
`analysis.cc`: "Parameter, minimum, maximum, nuisance, discrete". -/
structure ParameterDescription (R : Type) where
  parameter : Parameter
  min : R
  max : R
  nuisance : Bool
  discrete : Bool
  deriving DecidableEq, Repr

/-- Observable effects of the collaborators, recorded in the order in which they happen. -/
inductive Event where
  | prior_evaluated
  | likelihood_evaluated
  | parameter_written (parameter : Parameter)
  | likelihood_bootstrapped (datasets : Nat)
  deriving DecidableEq, Repr

/-- Everything outside of `Implementation<Analysis>` that its member functions read or
write: the value of each parameter of each `Parameters` object, and the record of the
evaluations of the collaborators so far. -/
structure Heap (R : Type) where
  values : Nat → String → R
  trace : List Event

/-- Appends one event to the record. -/
def Heap.record {R : Type} (h : Heap R) (e : Event) : Heap R :=
  { h with trace := h.trace ++ [e] }

/-- Modelled from the spec: the assignment `parameter = value` of a `double` to a
`Parameter` handle: the value of that name in the `Parameters` object the handle points
into becomes `value`, every other value stays, and the write is recorded. -/
def Heap.write {R : Type} (h : Heap R) (parameter : Parameter) (value : R) : Heap R :=
  { values := fun space name =>
      if space = parameter.space ∧ name = parameter.name then value else h.values space name
    trace := h.trace ++ [Event.parameter_written parameter] }

/-- Modelled from the spec: `LogPrior` (declared in `eos/utils/log_prior.hh`): "density
over a subset of parameters in a ParameterSpace", exposing "evaluate → log-density at
current parameter values; the set of parameter descriptions it governs; and a clone
operation that rebinds itself to a different ParameterSpace instance".  `parameters` is
the `Parameters` object the prior is bound to, `descriptions` is the range
`begin() .. end()`, `density` maps the values of that object to the log-density. -/
structure LogPrior (R : Type) where
  parameters : Nat
  descriptions : List (ParameterDescription R)
  density : (String → R) → R

/-- Modelled from the spec: `LogPrior::operator()`, the log-density at the values
currently stored in the `Parameters` object the prior is bound to. -/
def LogPrior.evaluate {R : Type} (p : LogPrior R) (h : Heap R) : R :=
  p.density (h.values p.parameters)

/-- Modelled from the spec: `LogPrior::clone(parameters)`, the same density over the
same names, bound to the given `Parameters` object. -/
def LogPrior.clone {R : Type} (p : LogPrior R) (parameters : Nat) : LogPrior R :=
  { parameters := parameters
    descriptions := p.descriptions.map
      (fun d => { d with parameter := { d.parameter with space := parameters } })
    density := p.density }

/-- Names of the parameters a prior governs, in the prior's own order. -/
def LogPrior.names {R : Type} (p : LogPrior R) : List String :=
  p.descriptions.map (fun d => d.parameter.name)

/-- Modelled from the spec: `LogLikelihood` (declared in `eos/utils/log_likelihood.hh`):
"evaluate → log-likelihood at current parameter values", "bootstrap(n) → empirical
p-value from n simulated datasets", "reports number of observations", and "exposes its
own ParameterSpace, which Analysis reuses".  `bootstrap` maps the number of datasets and
the current parameter values to the pair `bootstrap_p_value` returns, whose first
component is the empirical p-value. -/
structure LogLikelihood (R : Type) where
  parameters : Nat
  density : (String → R) → R
  observations : Nat
  bootstrap : Nat → (String → R) → R × R

/-- Modelled from the spec: `LogLikelihood::operator()`. -/
def LogLikelihood.evaluate {R : Type} (l : LogLikelihood R) (h : Heap R) : R :=
  l.density (h.values l.parameters)

/-- Modelled from the spec: `LogLikelihood::number_of_observations()`, "a non-negative
integer", returned as an `unsigned`: a value below 2^32. -/
def LogLikelihood.number_of_observations {R : Type} (l : LogLikelihood R) : Nat :=
  l.observations % 4294967296

/-- Modelled from the spec: `LogLikelihood::bootstrap_p_value(datasets)` at the current
parameter values, and the heap with the call recorded. -/
def LogLikelihood.bootstrap_p_value {R : Type} (l : LogLikelihood R) (datasets : Nat)
    (h : Heap R) : (R × R) × Heap R :=
  (l.bootstrap datasets (h.values l.parameters),
    h.record (Event.likelihood_bootstrapped datasets))

/-- Modelled from the spec: `LogLikelihood::clone()`, a "deep copy with an independent
ParameterSpace": the copy is bound to the new `Parameters` object `fresh`, which starts
with the values of the object of the original. -/
def LogLikelihood.clone {R : Type} (l : LogLikelihood R) (fresh : Nat) (h : Heap R) :
    LogLikelihood R × Heap R :=
  ({ l with parameters := fresh },
    { h with values := fun space name =>
        if space = fresh then h.values l.parameters name else h.values space name })

/-- The two functions of the GSL that `goodness_of_fit` calls, `gsl_cdf_chisq_Q(x, nu)`
and `gsl_cdf_chisq_Qinv(Q, nu)`; the conversion of the `unsigned` argument `nu` to
`double` is part of them. -/
structure ChiSquare (R : Type) where
  gsl_cdf_chisq_Q : R → Nat → R
  gsl_cdf_chisq_Qinv : R → Nat → R

/-- Result of `std::set<std::string>::insert`: the set afterwards, and whether the
element was inserted (`result.second`). -/
def set_insert (s : Finset String) (x : String) : Finset String × Bool :=
  (insert x s, decide (x ∉ s))

/-! ## `Implementation<Analysis>` -/

/-- Data members of `Implementation<Analysis>`. -/
structure Implementation (R : Type) where
  log_likelihood : LogLikelihood R
  parameters : Nat
  priors : List (LogPrior R)
  parameter_descriptions : List (ParameterDescription R)
  parameter_names : Finset String

/-- Constructor `Implementation(const LogLikelihood &)`. -/
def Implementation.init {R : Type} (log_likelihood : LogLikelihood R) : Implementation R :=
  { log_likelihood := log_likelihood
    parameters := log_likelihood.parameters
    priors := []
    parameter_descriptions := []
    parameter_names := ∅ }

/-- State of the `for` loop of `add_parameter` when it is left: whether it ran to its
end (`completed = false` is the early `return false`), the two containers of the
analysis, and the descriptions of the prior that was passed in, which the loop writes
through `d->nuisance = nuisance`. -/
structure AddLoop (R : Type) where
  completed : Bool
  parameter_names : Finset String
  parameter_descriptions : List (ParameterDescription R)
  prior_descriptions : List (ParameterDescription R)

/-- The `for` loop of `add_parameter` over the descriptions `d .. d_end` of the prior. -/
def add_parameter_loop {R : Type} (nuisance : Bool) :
    List (ParameterDescription R) → Finset String → List (ParameterDescription R) → AddLoop R
  | [], names, descriptions =>
      { completed := true, parameter_names := names,
        parameter_descriptions := descriptions, prior_descriptions := [] }
  | d :: rest, names, descriptions =>
      let result := set_insert names d.parameter.name
      if result.2 = false then
        { completed := false, parameter_names := result.1,
          parameter_descriptions := descriptions, prior_descriptions := d :: rest }
      else
        let d1 : ParameterDescription R := { d with nuisance := nuisance }
        let r := add_parameter_loop nuisance rest result.1 (descriptions ++ [d1])
        { r with prior_descriptions := d1 :: r.prior_descriptions }

/-- What a call of `add_parameter` leaves behind: the returned boolean, the analysis,
and the prior object that was passed in. -/
structure AddResult (R : Type) where
  value : Bool
  imp : Implementation R
  prior : LogPrior R

/-- Member function `Implementation<Analysis>::add_parameter(prior, nuisance)`. -/
def Implementation.add_parameter {R : Type} (imp : Implementation R) (prior : LogPrior R)
    (nuisance : Bool) : AddResult R :=
  let prior_clone := prior.clone imp.parameters
  let r := add_parameter_loop nuisance prior.descriptions imp.parameter_names
    imp.parameter_descriptions
  let prior1 : LogPrior R := { prior with descriptions := r.prior_descriptions }
  if r.completed = false then
    { value := false
      imp := { imp with parameter_names := r.parameter_names
                        parameter_descriptions := r.parameter_descriptions }
      prior := prior1 }
  else
    { value := true
      imp := { imp with parameter_names := r.parameter_names
                        parameter_descriptions := r.parameter_descriptions
                        priors := imp.priors ++ [prior_clone] }
      prior := prior1 }

/-- Names of the parameters in `parameter_descriptions`, in order. -/
def Implementation.names {R : Type} (imp : Implementation R) : List String :=
  imp.parameter_descriptions.map (fun d => d.parameter.name)

/-- What a member function that may throw leaves behind: the returned value or the
exception, the analysis, and the heap. -/
structure Outcome (R : Type) (α : Type) where
  result : Except InternalError α
  imp : Implementation R
  heap : Heap R

/-- The exception thrown by `log_prior()`. -/
def undefined_prior_error : InternalError :=
  ⟨"Analysis::log_prior(): prior is undefined"⟩

/-- The exception thrown by `index(name)`. -/
def no_such_parameter_error (name : String) : InternalError :=
  ⟨"Implementation<Analysis>::definition: no such parameter \x27" ++ name ++ "\x27"⟩

/-- The `for` loop of `log_prior()`: `result += (**p)()` for `p` from `priors.cbegin()`
to `priors.cend()`. -/
def log_prior_loop {R : Type} [Add R] : List (LogPrior R) → R → Heap R → R × Heap R
  | [], result, h => (result, h)
  | p :: rest, result, h =>
      log_prior_loop rest (result + p.evaluate h) (h.record Event.prior_evaluated)

/-- Member function `Implementation<Analysis>::log_prior()`. -/
def Implementation.log_prior {R : Type} [Zero R] [Add R] (imp : Implementation R)
    (h : Heap R) : Outcome R R :=
  if imp.priors.isEmpty then
    { result := Except.error undefined_prior_error, imp := imp, heap := h }
  else
    let r := log_prior_loop imp.priors 0 h
    { result := Except.ok r.1, imp := imp, heap := r.2 }

/-- The call `_imp->log_likelihood()`: the value of the likelihood at the current
parameter values, and the heap with the evaluation recorded. -/
def Implementation.call_log_likelihood {R : Type} (imp : Implementation R) (h : Heap R) :
    R × Heap R :=
  (imp.log_likelihood.evaluate h, h.record Event.likelihood_evaluated)

/-- The `for` loop of `index(name)`; `result` is the counter, an `unsigned` that stays
below the size of the vector and is taken as a natural number. -/
def index_loop {R : Type} (name : String) : List (ParameterDescription R) → Nat → Option Nat
  | [], _ => none
  | d :: rest, result =>
      if name = d.parameter.name then some result else index_loop name rest (result + 1)

/-- Member function `Implementation<Analysis>::index(name)`: leaving the loop without a
`return` reaches the `throw`. -/
def Implementation.index {R : Type} (imp : Implementation R) (name : String) (h : Heap R) :
    Outcome R Nat :=
  match index_loop name imp.parameter_descriptions 0 with
  | some result => { result := Except.ok result, imp := imp, heap := h }
  | none => { result := Except.error (no_such_parameter_error name), imp := imp, heap := h }

/-- Member function `Implementation<Analysis>::nuisance(name)`: an exception of
`index(name)` is not caught and leaves `nuisance` as well. -/
def Implementation.nuisance {R : Type} (imp : Implementation R) (name : String)
    (h : Heap R) : Outcome R Bool :=
  let index := imp.index name h
  match index.result with
  | Except.error e => { result := Except.error e, imp := index.imp, heap := index.heap }
  | Except.ok i =>
      if hge : i ≥ index.imp.parameter_descriptions.length then
        { result := Except.ok false, imp := index.imp, heap := index.heap }
      else
        { result := Except.ok
            (index.imp.parameter_descriptions.get ⟨i, Nat.lt_of_not_ge hge⟩).nuisance
          imp := index.imp, heap := index.heap }

/-- The inner `for` loop of `log_prior(name)` over the descriptions of the prior `p`:
`prior = *p` at every description that has the name. -/
def log_prior_by_name_inner {R : Type} (name : String) (p : LogPrior R) :
    List (ParameterDescription R) → Option (LogPrior R) → Option (LogPrior R)
  | [], prior => prior
  | i :: rest, prior =>
      log_prior_by_name_inner name p rest (if i.parameter.name = name then some p else prior)

/-- The outer `for` loop of `log_prior(name)` over `priors`. -/
def log_prior_by_name_loop {R : Type} (name : String) :
    List (LogPrior R) → Option (LogPrior R) → Option (LogPrior R)
  | [], prior => prior
  | p :: rest, prior =>
      log_prior_by_name_loop name rest (log_prior_by_name_inner name p p.descriptions prior)

/-- Member function `Implementation<Analysis>::log_prior(name)`; the null pointer is
`none`. -/
def Implementation.log_prior_by_name {R : Type} (imp : Implementation R) (name : String) :
    Option (LogPrior R) :=
  log_prior_by_name_loop name imp.priors none

/-- The loops `parameter_descriptions[i].parameter = values[i]` of `goodness_of_fit` and
of `negative_log_posterior`, which run with a vector of values as long as
`parameter_descriptions`. -/
def write_parameters {R : Type} :
    List (ParameterDescription R) → List R → Heap R → Heap R
  | d :: descriptions, value :: values, h =>
      write_parameters descriptions values (h.write d.parameter value)
  | _, _, h => h

/-- The order in which the two operands of a binary `+` are evaluated.  C++ leaves it
unspecified, so it is a parameter of every function that evaluates
`log_prior() + log_likelihood()`. -/
inductive OperandOrder where
  | left_first
  | right_first
  deriving DecidableEq, Repr

/-- The expression `log_prior() + log_likelihood()` of `negative_log_posterior` and of
`Analysis::log_posterior`, its operands evaluated in the given order.  An exception of
`log_prior()` leaves the expression: with the left operand first the likelihood is then
not called, with the right operand first it has been called already. -/
def Implementation.log_prior_plus_log_likelihood {R : Type} [Zero R] [Add R]
    (order : OperandOrder) (imp : Implementation R) (h : Heap R) : Outcome R R :=
  match order with
  | OperandOrder.left_first =>
      let prior := imp.log_prior h
      match prior.result with
      | Except.error e => { result := Except.error e, imp := prior.imp, heap := prior.heap }
      | Except.ok x =>
          let likelihood := prior.imp.call_log_likelihood prior.heap
          { result := Except.ok (x + likelihood.1), imp := prior.imp, heap := likelihood.2 }
  | OperandOrder.right_first =>
      let likelihood := imp.call_log_likelihood h
      let prior := imp.log_prior likelihood.2
      match prior.result with
      | Except.error e => { result := Except.error e, imp := prior.imp, heap := prior.heap }
      | Except.ok x =>
          { result := Except.ok (x + likelihood.1), imp := prior.imp, heap := prior.heap }

/-- The events that `log_prior() + log_likelihood()` records when no exception is thrown,
for the given number of registered priors. -/
def evaluation_events (order : OperandOrder) (priors : Nat) : List Event :=
  match order with
  | OperandOrder.left_first =>
      List.replicate priors Event.prior_evaluated ++ [Event.likelihood_evaluated]
  | OperandOrder.right_first =>
      Event.likelihood_evaluated :: List.replicate priors Event.prior_evaluated

/-- Static member function `Implementation<Analysis>::negative_log_posterior(pars, data)`
with `data` pointing to `imp`:
`return -(analysis->log_prior() + analysis->log_likelihood())` after the writes. -/
def Implementation.negative_log_posterior {R : Type} [Zero R] [Add R] [Neg R]
    (order : OperandOrder) (imp : Implementation R) (pars : List R) (h : Heap R) :
    Outcome R R :=
  let sum := imp.log_prior_plus_log_likelihood order
    (write_parameters imp.parameter_descriptions pars h)
  match sum.result with
  | Except.error e => { result := Except.error e, imp := sum.imp, heap := sum.heap }
  | Except.ok x => { result := Except.ok (-x), imp := sum.imp, heap := sum.heap }

/-- The exception thrown by `goodness_of_fit` for a vector of the wrong length. -/
def goodness_of_fit_dimension_error (size : Nat) : InternalError :=
  ⟨"Analysis::goodness_of_fit: starting point doesn\x27t have the correct dimension "
    ++ toString size⟩

/-- The exception thrown by `optimize` for a vector of the wrong length. -/
def optimize_dimension_error (size : Nat) : InternalError :=
  ⟨"Analysis::optimize: starting point doesn\x27t have the correct dimension "
    ++ toString size⟩

/-- The value of `unsigned dof = log_likelihood.number_of_observations() -
parameter_descriptions.size()` in `goodness_of_fit`: the difference is reduced modulo
2^32 when it is stored in the `unsigned`. -/
def Implementation.degrees_of_freedom {R : Type} (imp : Implementation R) : Nat :=
  (((imp.log_likelihood.number_of_observations : Int)
    - (imp.parameter_descriptions.length : Int)) % 4294967296).toNat

/-- Member function `Implementation<Analysis>::goodness_of_fit(parameter_values,
simulated_datasets)`; the log messages are left out. -/
def Implementation.goodness_of_fit {R : Type} (gsl : ChiSquare R) (imp : Implementation R)
    (parameter_values : List R) (simulated_datasets : Nat) (h : Heap R) :
    Outcome R (R × R) :=
  if imp.parameter_descriptions.length ≠ parameter_values.length then
    { result := Except.error (goodness_of_fit_dimension_error imp.parameter_descriptions.length)
      imp := imp, heap := h }
  else
    let h1 := write_parameters imp.parameter_descriptions parameter_values h
    let likelihood := imp.call_log_likelihood h1
    let sim_result := imp.log_likelihood.bootstrap_p_value simulated_datasets likelihood.2
    let dof := imp.degrees_of_freedom
    let chi_squared := gsl.gsl_cdf_chisq_Qinv sim_result.1.1
      imp.log_likelihood.number_of_observations
    let p_analytical := gsl.gsl_cdf_chisq_Q chi_squared dof
    { result := Except.ok (sim_result.1.1, p_analytical), imp := imp, heap := sim_result.2 }

/-- The members of `Analysis::OptimizationOptions`. -/
structure OptimizationOptions (R : Type) where
  initial_step_size : R
  maximum_iterations : Nat
  maximum_simplex_size : R

/-- Status code `GSL_SUCCESS` of the GSL. -/
def GSL_SUCCESS : Int := 0

/-- Status code `GSL_CONTINUE` of the GSL. -/
def GSL_CONTINUE : Int := -2

/-- The simplex minimizer of the GSL, `gsl_multimin_fminimizer_nmsimplex2rand`, of which
only the interface is used: `S` is the state behind the pointer `minim`.  `set` is
`gsl_multimin_fminimizer_set(minim, &posterior, x, ss)`, which receives the function to
minimize, `iterate` is `gsl_multimin_fminimizer_iterate(minim)` and returns the status,
`size` is `gsl_multimin_fminimizer_size(minim)`, `test_size` is `gsl_multimin_test_size`,
`fval` and `x` are the members `minim->fval` and `minim->x`.  The calls that evaluate the
function work on the heap. -/
structure Minimizer (R : Type) (S : Type) where
  set : (List R → Heap R → Outcome R R) → List R → List R → Heap R → S × Heap R
  iterate : S → Heap R → Int × S × Heap R
  size : S → R
  test_size : R → R → Int
  fval : S → R
  x : S → List R

/-- The local variables of `optimize` that its `do ... while` loop changes, and the
heap. -/
structure SimplexRun (R : Type) (S : Type) where
  iter : Nat
  status : Int
  simplex_size : R
  minim : S
  heap : Heap R

/-- The `do ... while` loop of `optimize`, entered with the current values of `iter`,
`simplex_size` and `minim`. -/
def optimize_loop {R : Type} {S : Type} (gsl : Minimizer R S) (options : OptimizationOptions R)
    (iter : Nat) (simplex_size : R) (minim : S) (h : Heap R) : SimplexRun R S :=
  let step := gsl.iterate minim h
  if step.1 ≠ 0 then
    { iter := iter + 1, status := step.1, simplex_size := simplex_size,
      minim := step.2.1, heap := step.2.2 }
  else
    let simplex_size1 := gsl.size step.2.1
    let status := gsl.test_size simplex_size1 options.maximum_simplex_size
    if hc : status = GSL_CONTINUE ∧ iter + 1 < options.maximum_iterations then
      optimize_loop gsl options (iter + 1) simplex_size1 step.2.1 step.2.2
    else
      { iter := iter + 1, status := status, simplex_size := simplex_size1,
        minim := step.2.1, heap := step.2.2 }
termination_by options.maximum_iterations - iter
decreasing_by
  have := hc.2
  omega

/-- The loop `parameters_at_mode[i] = gsl_vector_get(minim->x, i)` over the copy
`parameters_at_mode` of `initial_guess`; `minim->x` has the length of `initial_guess`. -/
def read_parameters_at_mode {R : Type} : List R → List R → List R
  | _ :: parameters_at_mode, value :: x => value :: read_parameters_at_mode parameters_at_mode x
  | parameters_at_mode, _ => parameters_at_mode

/-- The part of `optimize` from `gsl_multimin_fminimizer_set` to the end of the loop,
started in the heap that the evaluation at the initial guess left. -/
def Implementation.run_minimizer {R : Type} {S : Type} [Zero R] [Add R] [Neg R] [Sub R]
    [Mul R] (order : OperandOrder) (gsl : Minimizer R S) (imp : Implementation R)
    (initial_guess : List R) (options : OptimizationOptions R) (h : Heap R) :
    SimplexRun R S :=
  let x := initial_guess
  let ss := imp.parameter_descriptions.map
    (fun d => (d.max - d.min) * options.initial_step_size)
  let minim := gsl.set (imp.negative_log_posterior order) x ss h
  optimize_loop gsl options 0 0 minim.1 minim.2

/-- The minimizer as `optimize` finds it behind `minim` when it has left its loop:
`run_minimizer` started in the heap that `posterior.f(x, this)` left. -/
def Implementation.minimizer_result {R : Type} {S : Type} [Zero R] [Add R] [Neg R] [Sub R]
    [Mul R] (order : OperandOrder) (gsl : Minimizer R S) (imp : Implementation R)
    (initial_guess : List R) (options : OptimizationOptions R) (h : Heap R) :
    SimplexRun R S :=
  imp.run_minimizer order gsl initial_guess options
    (imp.negative_log_posterior order initial_guess h).heap

/-- Member function `Implementation<Analysis>::optimize(initial_guess, options)`; the
log messages and the allocation and release of the GSL objects are left out. -/
def Implementation.optimize {R : Type} {S : Type} [Zero R] [Add R] [Neg R] [Sub R] [Mul R]
    [LE R] [DecidableRel (fun x y : R => x ≤ y)] (order : OperandOrder)
    (gsl : Minimizer R S) (imp : Implementation R) (initial_guess : List R)
    (options : OptimizationOptions R) (h : Heap R) : Outcome R (List R × R) :=
  if imp.parameter_descriptions.length ≠ initial_guess.length then
    { result := Except.error (optimize_dimension_error imp.parameter_descriptions.length)
      imp := imp, heap := h }
  else
    let first := imp.negative_log_posterior order initial_guess h
    match first.result with
    | Except.error e => { result := Except.error e, imp := first.imp, heap := first.heap }
    | Except.ok initial_minimum =>
        let run := first.imp.run_minimizer order gsl initial_guess options first.heap
        let mode := gsl.fval run.minim
        let parameters_at_mode := read_parameters_at_mode initial_guess (gsl.x run.minim)
        if mode ≥ initial_minimum then
          { result := Except.ok (initial_guess, -initial_minimum), imp := first.imp,
            heap := run.heap }
        else
          { result := Except.ok (parameters_at_mode, -mode), imp := first.imp,
            heap := run.heap }

/-! ## `Analysis` -/

/-- The class `Analysis` holds its `Implementation<Analysis>` as `_imp`. -/
abbrev Analysis (R : Type) : Type := Implementation R

/-- Member function `Analysis::add(prior, nuisance)`. -/
def Analysis.add {R : Type} (a : Analysis R) (prior : LogPrior R) (nuisance : Bool) :
    AddResult R :=
  Implementation.add_parameter a prior nuisance

/-- Member function `Analysis::log_prior()`. -/
def Analysis.log_prior {R : Type} [Zero R] [Add R] (a : Analysis R) (h : Heap R) :
    Outcome R R :=
  Implementation.log_prior a h

/-- Member function `Analysis::log_posterior()`:
`return _imp->log_prior() + _imp->log_likelihood()`. -/
def Analysis.log_posterior {R : Type} [Zero R] [Add R] (order : OperandOrder)
    (a : Analysis R) (h : Heap R) : Outcome R R :=
  Implementation.log_prior_plus_log_likelihood order a h

/-- Member function `Analysis::nuisance(par_name)`. -/
def Analysis.nuisance {R : Type} (a : Analysis R) (par_name : String) (h : Heap R) :
    Outcome R Bool :=
  Implementation.nuisance a par_name h

/-- Member function `Analysis::log_prior(name)`. -/
def Analysis.log_prior_by_name {R : Type} (a : Analysis R) (name : String) :
    Option (LogPrior R) :=
  Implementation.log_prior_by_name a name

/-- Member function `Analysis::goodness_of_fit(parameter_values, simulated_datasets)`. -/
def Analysis.goodness_of_fit {R : Type} (gsl : ChiSquare R) (a : Analysis R)
    (parameter_values : List R) (simulated_datasets : Nat) (h : Heap R) :
    Outcome R (R × R) :=
  Implementation.goodness_of_fit gsl a parameter_values simulated_datasets h

/-- Member function `Analysis::optimize(initial_guess, options)`. -/
def Analysis.optimize {R : Type} {S : Type} [Zero R] [Add R] [Neg R] [Sub R] [Mul R]
    [LE R] [DecidableRel (fun x y : R => x ≤ y)] (order : OperandOrder)
    (gsl : Minimizer R S) (a : Analysis R) (initial_guess : List R)
    (options : OptimizationOptions R) (h : Heap R) : Outcome R (List R × R) :=
  Implementation.optimize order gsl a initial_guess options h

/-- The analysis after a sequence of `add` calls, each given by its prior and its
nuisance flag. -/
def Analysis.add_all {R : Type} (a : Analysis R) : List (LogPrior R × Bool) → Analysis R
  | [] => a
  | c :: rest => Analysis.add_all (Analysis.add a c.1 c.2).imp rest

/-- A freshly constructed `Analysis`. -/
def Analysis.init {R : Type} (log_likelihood : LogLikelihood R) : Analysis R :=
  Implementation.init log_likelihood

/-- The `for` loop of `Implementation<Analysis>::clone()` over `priors`:
`result->add((*i)->clone(result->parameters()))`, where `add` receives its default
argument for `nuisance`. -/
def clone_loop {R : Type} (default_nuisance : Bool) :
    List (LogPrior R) → Analysis R → Analysis R
  | [], result => result
  | i :: rest, result =>
      clone_loop default_nuisance rest
        (Analysis.add result (i.clone result.parameters) default_nuisance).imp

/-- What a call of `clone()` leaves behind: the analysis it was called on, the new
analysis, and the heap. -/
structure CloneResult (R : Type) where
  original : Implementation R
  result : Analysis R
  heap : Heap R

/-- Member function `Implementation<Analysis>::clone()`.  `default_nuisance` is the
default argument of `Analysis::add`, declared in `analysis.hh`; `fresh` is the
`Parameters` object that the clone of the likelihood creates. -/
def Implementation.clone {R : Type} (default_nuisance : Bool) (fresh : Nat)
    (imp : Implementation R) (h : Heap R) : CloneResult R :=
  let llh := imp.log_likelihood.clone fresh h
  let result := Analysis.init llh.1
  { original := imp, result := clone_loop default_nuisance imp.priors result, heap := llh.2 }

/-- Member function `Analysis::clone()`. -/
def Analysis.clone {R : Type} (default_nuisance : Bool) (fresh : Nat) (a : Analysis R)
    (h : Heap R) : CloneResult R :=
  Implementation.clone default_nuisance fresh a h

/-- The properties every analysis built by `add` calls has: `parameter_names` is the set
of the names in `parameter_descriptions`, no name occurs twice there, every name a
registered prior governs is in `parameter_names`, and two registered priors share no
name. -/
structure Implementation.Consistent {R : Type} (imp : Implementation R) : Prop where
  names_eq : imp.parameter_names = imp.names.toFinset
  names_nodup : imp.names.Nodup
  governed : ∀ p ∈ imp.priors, ∀ n ∈ p.names, n ∈ imp.parameter_names
  decoupled : imp.priors.Pairwise (fun p q => List.Disjoint p.names q.names)

end eos

/-! ## `CharmLoops`

The loop functions of `src/rare-b-decays/charm-loops.cc`, in the namespace `wf`, over a
linearly ordered field `R` in place of `double` (the reals, the rationals): a literal
such as `1e-4` is the number it denotes.  `std::complex<double>` is the pair of its real
and imaginary part.  Where `h` divides by one of its arguments, a divisor 0 gives a
`double` that is no real number, and no result in the embedding. -/

namespace wf

/-- The class template `std::complex`, with the parts given to its constructor. -/
structure complex (R : Type) where
  re : R
  im : R
  deriving DecidableEq, Repr

/-- The functions `std::log`, `std::sqrt` and `std::atan` and the constant `M_PI` of
`<cmath>`, which are parameters. -/
structure Cmath (R : Type) where
  log : R → R
  sqrt : R → R
  atan : R → R
  M_PI : R

/-- The operator `T * std::complex<T>`: both parts are multiplied by the scalar. -/
def complex.scale {R : Type} [Mul R] (x : R) (c : complex R) : complex R :=
  { re := x * c.re, im := x * c.im }

/-- The operator `T + std::complex<T>`: the scalar is added to the real part. -/
def complex.shift {R : Type} [Add R] (x : R) (c : complex R) : complex R :=
  { re := x + c.re, im := c.im }

/-- The exception thrown by `CharmLoops::B0`. -/
def B0_error : eos.InternalError :=
  ⟨"Implementation<BToKstarDilepton<LargeRecoil>>::B0: m_q == 0 & s == 0"⟩

/-- Member function `CharmLoops::h(mu, s)`, the function for a massless quark. -/
def CharmLoops.h_massless {R : Type} [LinearOrderedField R] (m : Cmath R) (mu s : R) :
    complex R :=
  complex.scale (4 / 9) { re := 2 / 3 + 2 * m.log mu - m.log s, im := m.M_PI }

/-- The quotient of two values of type `double` where it is a real number: for the
divisor 0 the `double` is an infinity or NaN, and there is none. -/
def quotient {R : Type} [LinearOrderedField R] (x y : R) : Option R :=
  if y = 0 then none else some (x / y)

/-- Member function `CharmLoops::h(mu, s, m_q)`.  The quotients by the arguments `s` and
`mu` are taken with `quotient`: where `4.0 * m_q * m_q / s` or `m_q / mu` is no real
number, the result is none either, and the function returns `none`. -/
def CharmLoops.h {R : Type} [LinearOrderedField R] (m : Cmath R) (mu s m_q : R) :
    Option (complex R) :=
  if m_q < 1 / 10000 then
    some (CharmLoops.h_massless m mu s)
  else
    (quotient (4 * m_q * m_q) s).bind fun z =>
      if z < 1 / 10000000000 then
        (quotient m_q mu).bind fun ratio =>
          some { re := (-4) / 9 * (2 * m.log ratio + 1), im := 0 }
      else
        let sqrt1z := m.sqrt (abs (z - 1))
        (quotient m_q mu).bind fun ratio =>
          let a := 2 * m.log ratio - 2 / 3 - z
          let b := (2 + z) * sqrt1z
          let rc_ic : R × R :=
            if z > 1 then
              (m.atan (1 / sqrt1z), 0)
            else
              (m.log ((1 + sqrt1z) / m.sqrt z), (-m.M_PI) / 2)
          some (complex.scale ((-4) / 9)
            (complex.shift a (complex.scale b { re := rc_ic.1, im := rc_ic.2 })))

/-- Member function `CharmLoops::B0(s, m_q)`. -/
def CharmLoops.B0 {R : Type} [LinearOrderedField R] (m : Cmath R) (s m_q : R) :
    Except eos.InternalError (complex R) :=
  if 0 = m_q ∧ 0 = s then
    Except.error B0_error
  else if 0 = s then
    Except.ok { re := -2, im := 0 }
  else
    let z := 4 * m_q * m_q / s
    if z > 1 then
      Except.ok { re := (-2) * m.sqrt (z - 1) * m.atan (1 / m.sqrt (z - 1)), im := 0 }
    else
      Except.ok
        { re := m.sqrt (1 - z) * m.log ((1 - m.sqrt (1 - z)) / (1 + m.sqrt (1 - z)))
          im := m.sqrt (1 - z) * m.M_PI }

/-- Stand-ins for the functions of `<cmath>` over the rationals: `log x` is `x - 1`,
`sqrt` and `atan` are the identity, and 3 stands for `M_PI`. -/
def example_cmath : Cmath Rat :=
  { log := fun x => x - 1, sqrt := fun x => x, atan := fun x => x, M_PI := 3 }

end wf

namespace eos

/-! ## Example objects -/

/-- A flat prior over one parameter with the given bounds: its log-density is 0. -/
def flat_prior (space : Nat) (name : String) (min max : Int) : LogPrior Int :=
  { parameters := space
    descriptions := [{ parameter := { space := space, name := name }, min := min, max := max,
                       nuisance := false, discrete := false }]
    density := fun _ => 0 }

/-- A prior over two parameters with bounds 0 and 1 whose log-density is the sum of the
two values. -/
def pair_prior (space : Nat) (first second : String) : LogPrior Int :=
  { parameters := space
    descriptions := [{ parameter := { space := space, name := first }, min := 0, max := 1,
                       nuisance := false, discrete := false },
                     { parameter := { space := space, name := second }, min := 0, max := 1,
                       nuisance := false, discrete := false }]
    density := fun v => v first + v second }

/-- A likelihood over the `Parameters` object 0 with two observations whose value is the
value of "A"; its bootstrap returns the value of "A" plus the number of datasets. -/
def example_likelihood : LogLikelihood Int :=
  { parameters := 0, density := fun v => v "A", observations := 2,
    bootstrap := fun datasets v => (v "A" + datasets, 0) }

/-- A heap in which every parameter has the value 0 and nothing was evaluated yet. -/
def example_heap : Heap Int :=
  { values := fun _ _ => 0, trace := [] }

/-- The analysis obtained from a fresh one by registering a flat prior over "B". -/
def analysis_with_B : Analysis Int :=
  (Analysis.add (Analysis.init example_likelihood) (flat_prior 1 "B" 0 1) false).imp

/-- A prior that governs no parameter. -/
def empty_prior : LogPrior Int :=
  { parameters := 1, descriptions := [], density := fun _ => 0 }

/-- A minimizer whose state is the pair of the best vertex and the value there: `set`
evaluates the function at the starting point, every step moves to the origin, where it
reports the value 0 less the first step size, and the size test asks for no further
step. -/
def example_minimizer : Minimizer Int (List Int × Int) :=
  { set := fun f x _ h => ((x, match (f x h).result with
                                | Except.ok v => v
                                | Except.error _ => 0), (f x h).heap)
    iterate := fun s h => (0, (s.1.map (fun _ => 0), s.2 - 1), h)
    size := fun _ => 0
    test_size := fun _ _ => GSL_SUCCESS
    fval := fun s => s.2
    x := fun s => s.1 }

/-- A minimizer that stays at its starting point: `set` evaluates the function there,
every step reports an error status. -/
def stalling_minimizer : Minimizer Int (List Int × Int) :=
  { set := fun f x _ h => ((x, match (f x h).result with
                                | Except.ok v => v
                                | Except.error _ => 0), (f x h).heap)
    iterate := fun s h => (1, s, h)
    size := fun _ => 0
    test_size := fun _ _ => GSL_CONTINUE
    fval := fun s => s.2
    x := fun s => s.1 }

/-- Options with the step size 1, at most 1000 iterations and the simplex size 1. -/
def example_options : OptimizationOptions Int :=
  { initial_step_size := 1, maximum_iterations := 1000, maximum_simplex_size := 1 }

/-- Stand-ins for the two chi-square functions: the sum and the difference of the two
arguments. -/
def example_chi_square : ChiSquare Int :=
  { gsl_cdf_chisq_Q := fun x nu => x + nu, gsl_cdf_chisq_Qinv := fun q nu => q - nu }

/-- The analysis with flat priors over "A" and over "B". -/
def analysis_with_A_B : Analysis Int :=
  Analysis.add_all (Analysis.init example_likelihood)
    [(flat_prior 0 "A" 0 1, false), (flat_prior 0 "B" 0 1, false)]

/-- A prior over one parameter whose log-density is the value of that parameter. -/
def value_prior (space : Nat) (name : String) : LogPrior Int :=
  { parameters := space
    descriptions := [{ parameter := { space := space, name := name }, min := 0, max := 1,
                       nuisance := false, discrete := false }]
    density := fun v => v name }

/-- A likelihood over the `Parameters` object 0 with one observation. -/
def small_likelihood : LogLikelihood Int :=
  { parameters := 0, density := fun v => v "A", observations := 1,
    bootstrap := fun datasets v => (v "A" + datasets, 0) }

/-- The analysis of `small_likelihood`, which has one observation, with flat priors over
"A" and over "B": it has more parameters than observations. -/
def underdetermined_analysis : Analysis Int :=
  Analysis.add_all (Analysis.init small_likelihood)
    [(flat_prior 0 "A" 0 1, false), (flat_prior 0 "B" 0 1, false)]

/-- A heap in which every parameter has the value 5 and nothing was evaluated yet. -/
def other_heap : Heap Int :=
  { values := fun _ _ => 5, trace := [] }

/-- A heap in which "A" and "B" of the `Parameters` object 0 have the value 5 and every
other parameter has the value 0. -/
def prepared_heap : Heap Int :=
  { values := fun space name => if space = 0 ∧ (name = "A" ∨ name = "B") then 5 else 0
    trace := [] }

/-- The analysis after a refused registration: a prior over "B" is registered, then a
prior over "A" and "B" is refused. -/
def analysis_after_refusal : Analysis Int :=
  (Analysis.add analysis_with_B (pair_prior 1 "A" "B") false).imp

/-! ## A carrier with a NaN -/

/-- The integers and `nan`, for the values of `double` among which there is a NaN: an
operation with `nan` gives `nan`, and every comparison with `nan` is false. -/
inductive NanInt where
  | nan
  | num (value : Int)
  deriving DecidableEq, Repr

/-- The comparison `x <= y` of two values, false when one of them is `nan`. -/
def NanInt.le : NanInt → NanInt → Bool
  | NanInt.num x, NanInt.num y => decide (x ≤ y)
  | _, _ => false

/-- The comparison `x < y` of two values, false when one of them is `nan`. -/
def NanInt.lt : NanInt → NanInt → Bool
  | NanInt.num x, NanInt.num y => decide (x < y)
  | _, _ => false

/-- The sum of two values. -/
def NanInt.add : NanInt → NanInt → NanInt
  | NanInt.num x, NanInt.num y => NanInt.num (x + y)
  | _, _ => NanInt.nan

/-- The difference of two values. -/
def NanInt.sub : NanInt → NanInt → NanInt
  | NanInt.num x, NanInt.num y => NanInt.num (x - y)
  | _, _ => NanInt.nan

/-- The product of two values. -/
def NanInt.mul : NanInt → NanInt → NanInt
  | NanInt.num x, NanInt.num y => NanInt.num (x * y)
  | _, _ => NanInt.nan

/-- The negation of a value. -/
def NanInt.neg : NanInt → NanInt
  | NanInt.num x => NanInt.num (-x)
  | NanInt.nan => NanInt.nan

instance : Zero NanInt := ⟨NanInt.num 0⟩

instance : Add NanInt := ⟨NanInt.add⟩

instance : Sub NanInt := ⟨NanInt.sub⟩

instance : Mul NanInt := ⟨NanInt.mul⟩

instance : Neg NanInt := ⟨NanInt.neg⟩

instance : LE NanInt := ⟨fun x y => NanInt.le x y = true⟩

instance : LT NanInt := ⟨fun x y => NanInt.lt x y = true⟩

instance : DecidableRel (fun x y : NanInt => x ≤ y) :=
  fun x y => inferInstanceAs (Decidable (NanInt.le x y = true))

instance : DecidableRel (fun x y : NanInt => x < y) :=
  fun x y => inferInstanceAs (Decidable (NanInt.lt x y = true))

/-- A likelihood over the `Parameters` object 0 whose value is 0 where "A" is 0 and NaN
everywhere else. -/
def nan_likelihood : LogLikelihood NanInt :=
  { parameters := 0
    density := fun v => if v "A" = NanInt.num 0 then NanInt.num 0 else NanInt.nan
    observations := 1
    bootstrap := fun _ _ => (NanInt.num 0, NanInt.num 0) }

/-- A flat prior over "A" of the `Parameters` object 0 with the bounds 0 and 1. -/
def nan_flat_prior : LogPrior NanInt :=
  { parameters := 0
    descriptions := [{ parameter := { space := 0, name := "A" }, min := NanInt.num 0,
                       max := NanInt.num 1, nuisance := false, discrete := false }]
    density := fun _ => NanInt.num 0 }

/-- The analysis of `nan_likelihood` with the flat prior over "A". -/
def nan_analysis : Analysis NanInt :=
  (Analysis.add (Analysis.init nan_likelihood) nan_flat_prior false).imp

/-- A heap in which every parameter has the value 0 and nothing was evaluated yet. -/
def nan_heap : Heap NanInt :=
  { values := fun _ _ => NanInt.num 0, trace := [] }

/-- Options with the step size 1, at most 1000 iterations and the simplex size 1. -/
def nan_options : OptimizationOptions NanInt :=
  { initial_step_size := NanInt.num 1, maximum_iterations := 1000
    maximum_simplex_size := NanInt.num 1 }

/-- The value of the function to minimize that a minimizer stores: the value returned,
and NaN for an exception. -/
def stored_value (r : Outcome NanInt NanInt) : NanInt :=
  match r.result with
  | Except.ok v => v
  | Except.error _ => NanInt.nan

/-- A minimizer whose state is the function to minimize, the best vertex and the value
there: `set` evaluates the function at the starting point, every step moves to the vertex
(1) and evaluates the function there, and the size test asks for no further step. -/
def wandering_minimizer : Minimizer NanInt
    ((List NanInt → Heap NanInt → Outcome NanInt NanInt) × List NanInt × NanInt) :=
  { set := fun f x _ h => ((f, x, stored_value (f x h)), (f x h).heap)
    iterate := fun s h =>
      (0, (s.1, [NanInt.num 1], stored_value (s.1 [NanInt.num 1] h)),
        (s.1 [NanInt.num 1] h).heap)
    size := fun _ => NanInt.num 0
    test_size := fun _ _ => GSL_SUCCESS
    fval := fun s => s.2.2
    x := fun s => s.2.1 }

/-! ## Lemmas on the registration loop -/

theorem add_parameter_loop_completed_iff {R : Type} (nuisance : Bool)
    (ds : List (ParameterDescription R)) (names : Finset String)
    (descriptions : List (ParameterDescription R)) :
    (add_parameter_loop nuisance ds names descriptions).completed = true ↔
      (∀ d ∈ ds, d.parameter.name ∉ names) ∧ (ds.map (fun d => d.parameter.name)).Nodup := by
  induction ds generalizing names descriptions with
  | nil => simp [add_parameter_loop]
  | cons d rest ih =>
    by_cases hd : d.parameter.name ∈ names
    · simp [add_parameter_loop, set_insert, hd]
    · simp only [add_parameter_loop, set_insert, hd, not_false_eq_true, decide_True,
        Bool.true_eq_false, if_false, ih, Finset.mem_insert, not_or, List.mem_cons,
        forall_eq_or_imp, List.map_cons, List.nodup_cons, List.mem_map, not_exists, not_and,
        true_and]
      constructor
      · rintro ⟨h1, h2⟩
        exact ⟨fun a ha => (h1 a ha).2, fun a ha heq => (h1 a ha).1 heq, h2⟩
      · rintro ⟨h1, h2, h3⟩
        exact ⟨fun a ha => ⟨fun heq => h2 a ha heq, h1 a ha⟩, h3⟩

theorem add_parameter_loop_completed_out {R : Type} (nuisance : Bool)
    (ds : List (ParameterDescription R)) (names : Finset String)
    (descriptions : List (ParameterDescription R))
    (h : (add_parameter_loop nuisance ds names descriptions).completed = true) :
    (add_parameter_loop nuisance ds names descriptions).parameter_descriptions =
        descriptions ++ ds.map (fun d => { d with nuisance := nuisance }) ∧
      (add_parameter_loop nuisance ds names descriptions).prior_descriptions =
        ds.map (fun d => { d with nuisance := nuisance }) ∧
      (add_parameter_loop nuisance ds names descriptions).parameter_names =
        names ∪ (ds.map (fun d => d.parameter.name)).toFinset := by
  induction ds generalizing names descriptions with
  | nil => simp [add_parameter_loop]
  | cons d rest ih =>
    by_cases hd : d.parameter.name ∈ names
    · simp [add_parameter_loop, set_insert, hd] at h
    · simp only [add_parameter_loop, set_insert, hd, not_false_eq_true, decide_True,
        Bool.true_eq_false, if_false] at h ⊢
      obtain ⟨h1, h2, h3⟩ := ih _ _ h
      refine ⟨?_, ?_, ?_⟩
      · rw [h1]; simp
      · rw [h2]; simp
      · rw [h3]; ext x; simp [or_comm, or_assoc, or_left_comm]

theorem add_parameter_value {R : Type} (imp : Implementation R) (prior : LogPrior R)
    (nuisance : Bool) :
    (imp.add_parameter prior nuisance).value =
      (add_parameter_loop nuisance prior.descriptions imp.parameter_names
        imp.parameter_descriptions).completed := by
  unfold Implementation.add_parameter
  cases hc : (add_parameter_loop nuisance prior.descriptions imp.parameter_names
    imp.parameter_descriptions).completed <;> simp [hc]

theorem add_parameter_true_iff {R : Type} (imp : Implementation R) (prior : LogPrior R)
    (nuisance : Bool) :
    (imp.add_parameter prior nuisance).value = true ↔
      (∀ n ∈ prior.names, n ∉ imp.parameter_names) ∧ prior.names.Nodup := by
  rw [add_parameter_value, add_parameter_loop_completed_iff]
  simp [LogPrior.names]

theorem add_parameter_names_eq {R : Type} (imp : Implementation R) (prior : LogPrior R)
    (nuisance : Bool) :
    (imp.add_parameter prior nuisance).imp.parameter_names =
      (add_parameter_loop nuisance prior.descriptions imp.parameter_names
        imp.parameter_descriptions).parameter_names := by
  unfold Implementation.add_parameter
  cases hc : (add_parameter_loop nuisance prior.descriptions imp.parameter_names
    imp.parameter_descriptions).completed <;> simp [hc]

theorem add_parameter_descriptions_eq {R : Type} (imp : Implementation R)
    (prior : LogPrior R) (nuisance : Bool) :
    (imp.add_parameter prior nuisance).imp.parameter_descriptions =
      (add_parameter_loop nuisance prior.descriptions imp.parameter_names
        imp.parameter_descriptions).parameter_descriptions := by
  unfold Implementation.add_parameter
  cases hc : (add_parameter_loop nuisance prior.descriptions imp.parameter_names
    imp.parameter_descriptions).completed <;> simp [hc]

theorem add_parameter_prior_eq {R : Type} (imp : Implementation R) (prior : LogPrior R)
    (nuisance : Bool) :
    (imp.add_parameter prior nuisance).prior.descriptions =
      (add_parameter_loop nuisance prior.descriptions imp.parameter_names
        imp.parameter_descriptions).prior_descriptions := by
  unfold Implementation.add_parameter
  cases hc : (add_parameter_loop nuisance prior.descriptions imp.parameter_names
    imp.parameter_descriptions).completed <;> simp [hc]

theorem add_parameter_priors_eq {R : Type} (imp : Implementation R) (prior : LogPrior R)
    (nuisance : Bool) :
    (imp.add_parameter prior nuisance).imp.priors =
      if (imp.add_parameter prior nuisance).value = true
      then imp.priors ++ [prior.clone imp.parameters] else imp.priors := by
  unfold Implementation.add_parameter
  cases hc : (add_parameter_loop nuisance prior.descriptions imp.parameter_names
    imp.parameter_descriptions).completed <;> simp [hc]

theorem add_parameter_success {R : Type} (imp : Implementation R) (prior : LogPrior R)
    (nuisance : Bool) (h : (imp.add_parameter prior nuisance).value = true) :
    (imp.add_parameter prior nuisance).imp.parameter_descriptions =
        imp.parameter_descriptions ++
          prior.descriptions.map (fun d => { d with nuisance := nuisance }) ∧
      (imp.add_parameter prior nuisance).prior.descriptions =
        prior.descriptions.map (fun d => { d with nuisance := nuisance }) ∧
      (imp.add_parameter prior nuisance).imp.parameter_names =
        imp.parameter_names ∪ prior.names.toFinset ∧
      (imp.add_parameter prior nuisance).imp.priors =
        imp.priors ++ [prior.clone imp.parameters] := by
  have hp := add_parameter_priors_eq imp prior nuisance
  rw [if_pos h] at hp
  rw [add_parameter_value] at h
  obtain ⟨h1, h2, h3⟩ := add_parameter_loop_completed_out _ _ _ _ h
  rw [add_parameter_descriptions_eq, add_parameter_prior_eq, add_parameter_names_eq]
  exact ⟨h1, h2, h3, hp⟩

theorem add_parameter_loop_invariant {R : Type} (nuisance : Bool)
    (ds : List (ParameterDescription R)) (names : Finset String)
    (descriptions : List (ParameterDescription R))
    (h1 : names = (descriptions.map (fun d => d.parameter.name)).toFinset)
    (h2 : (descriptions.map (fun d => d.parameter.name)).Nodup) :
    (add_parameter_loop nuisance ds names descriptions).parameter_names =
        ((add_parameter_loop nuisance ds names descriptions).parameter_descriptions.map
          (fun d => d.parameter.name)).toFinset ∧
      ((add_parameter_loop nuisance ds names descriptions).parameter_descriptions.map
          (fun d => d.parameter.name)).Nodup := by
  induction ds generalizing names descriptions with
  | nil => exact ⟨h1, h2⟩
  | cons d rest ih =>
    by_cases hd : d.parameter.name ∈ names
    · simp only [add_parameter_loop, set_insert, hd, not_true_eq_false, decide_False,
        if_true, Finset.insert_eq_of_mem]
      exact ⟨h1, h2⟩
    · simp only [add_parameter_loop, set_insert, hd, not_false_eq_true, decide_True,
        Bool.true_eq_false, if_false]
      apply ih
      · rw [h1]; ext x; simp [or_comm]
      · rw [h1] at hd
        simp only [List.mem_toFinset] at hd
        simp only [List.map_append, List.map_cons, List.map_nil]
        rw [List.nodup_append]
        refine ⟨h2, List.nodup_singleton _, ?_⟩
        intro x hx hx2
        rw [List.mem_singleton] at hx2
        exact hd (hx2 ▸ hx)

theorem add_parameter_loop_grows {R : Type} (nuisance : Bool)
    (ds : List (ParameterDescription R)) (names : Finset String)
    (descriptions : List (ParameterDescription R)) :
    names ⊆ (add_parameter_loop nuisance ds names descriptions).parameter_names ∧
      descriptions.length ≤
        (add_parameter_loop nuisance ds names descriptions).parameter_descriptions.length := by
  induction ds generalizing names descriptions with
  | nil => simp [add_parameter_loop]
  | cons d rest ih =>
    by_cases hd : d.parameter.name ∈ names
    · simp [add_parameter_loop, set_insert, hd]
    · simp only [add_parameter_loop, set_insert, hd, not_false_eq_true, decide_True,
        Bool.true_eq_false, if_false]
      obtain ⟨h1, h2⟩ := ih (insert d.parameter.name names)
        (descriptions ++ [{ d with nuisance := nuisance }])
      refine ⟨(Finset.subset_insert _ _).trans h1, ?_⟩
      simp only [List.length_append, List.length_singleton] at h2
      omega

theorem clone_names {R : Type} (p : LogPrior R) (parameters : Nat) :
    (p.clone parameters).names = p.names := by
  simp [LogPrior.clone, LogPrior.names, List.map_map, Function.comp_def]

theorem init_consistent {R : Type} (l : LogLikelihood R) :
    (Implementation.init l).Consistent := by
  constructor <;> simp [Implementation.init, Implementation.names]

theorem add_parameter_consistent {R : Type} (imp : Implementation R) (prior : LogPrior R)
    (nuisance : Bool) (h : imp.Consistent) :
    (imp.add_parameter prior nuisance).imp.Consistent := by
  have hinv := add_parameter_loop_invariant nuisance prior.descriptions imp.parameter_names
    imp.parameter_descriptions h.names_eq h.names_nodup
  have hgrow := add_parameter_loop_grows nuisance prior.descriptions imp.parameter_names
    imp.parameter_descriptions
  rw [← add_parameter_names_eq, ← add_parameter_descriptions_eq] at hinv
  rw [← add_parameter_names_eq] at hgrow
  have hpriors := add_parameter_priors_eq imp prior nuisance
  refine ⟨hinv.1, hinv.2, ?_, ?_⟩
  · by_cases hv : (imp.add_parameter prior nuisance).value = true
    · rw [if_pos hv] at hpriors
      have hn := (add_parameter_success imp prior nuisance hv).2.2.1
      intro p hp n hnp
      rw [hpriors, List.mem_append, List.mem_singleton] at hp
      rw [hn, Finset.mem_union, List.mem_toFinset]
      rcases hp with hp | hp
      · exact Or.inl (h.governed p hp n hnp)
      · rw [hp, clone_names] at hnp
        exact Or.inr hnp
    · rw [if_neg hv] at hpriors
      intro p hp n hnp
      rw [hpriors] at hp
      exact hgrow.1 (h.governed p hp n hnp)
  · by_cases hv : (imp.add_parameter prior nuisance).value = true
    · rw [if_pos hv] at hpriors
      rw [hpriors, List.pairwise_append]
      refine ⟨h.decoupled, List.pairwise_singleton _ _, ?_⟩
      intro p hp q hq n hnp hnq
      rw [List.mem_singleton] at hq
      rw [hq, clone_names] at hnq
      exact ((add_parameter_true_iff imp prior nuisance).1 hv).1 n hnq (h.governed p hp n hnp)
    · rw [if_neg hv] at hpriors
      rw [hpriors]
      exact h.decoupled

theorem add_all_consistent {R : Type} (a : Analysis R) (calls : List (LogPrior R × Bool))
    (h : Implementation.Consistent a) :
    Implementation.Consistent (Analysis.add_all a calls) := by
  induction calls generalizing a with
  | nil => exact h
  | cons c rest ih => exact ih _ (add_parameter_consistent a c.1 c.2 h)

theorem add_all_sizes {R : Type} (a : Analysis R) (calls : List (LogPrior R × Bool))
    (hne : ∀ c ∈ calls, c.1.descriptions ≠ [])
    (h : a.priors.length ≤ a.parameter_descriptions.length) :
    (Analysis.add_all a calls).priors.length ≤
      (Analysis.add_all a calls).parameter_descriptions.length := by
  induction calls generalizing a with
  | nil => exact h
  | cons c rest ih =>
    apply ih _ (fun c1 hc1 => hne c1 (List.mem_cons_of_mem _ hc1))
    have hc := hne c (List.mem_cons_self _ _)
    have hpriors := add_parameter_priors_eq a c.1 c.2
    show (Implementation.add_parameter a c.1 c.2).imp.priors.length ≤
      (Implementation.add_parameter a c.1 c.2).imp.parameter_descriptions.length
    by_cases hv : (Implementation.add_parameter a c.1 c.2).value = true
    · rw [if_pos hv] at hpriors
      rw [hpriors, (add_parameter_success a c.1 c.2 hv).1]
      have : 0 < c.1.descriptions.length := List.length_pos.2 hc
      simp only [List.length_append, List.length_singleton, List.length_map]
      omega
    · rw [if_neg hv] at hpriors
      rw [hpriors, add_parameter_descriptions_eq]
      exact h.trans (add_parameter_loop_grows _ _ _ _).2

/-! ## Registration -/

/-- Claim C1: when the names a prior governs are pairwise distinct and none of them is in
`parameter_names`, `add` returns true, `parameter_descriptions` becomes the old vector
followed by the descriptions of the prior, in the prior's order and carrying the nuisance
flag (these are the descriptions the prior holds after the call), and `priors` becomes
the old vector followed by the clone of the prior.  Registering a prior over "A" and then
one over "B" on a fresh analysis succeeds twice and leaves the names "A", "B". -/
theorem add_registers_new_prior {R : Type} :
    (∀ (a : Analysis R) (prior : LogPrior R) (nuisance : Bool),
      prior.names.Nodup → (∀ n ∈ prior.names, n ∉ a.parameter_names) →
      (Analysis.add a prior nuisance).value = true ∧
      (Analysis.add a prior nuisance).imp.parameter_descriptions =
        a.parameter_descriptions ++
          prior.descriptions.map (fun d => { d with nuisance := nuisance }) ∧
      (Analysis.add a prior nuisance).imp.parameter_descriptions =
        a.parameter_descriptions ++ (Analysis.add a prior nuisance).prior.descriptions ∧
      (Analysis.add a prior nuisance).imp.priors = a.priors ++ [prior.clone a.parameters]) ∧
    (∀ (l : LogLikelihood R) (pA pB : LogPrior R) (fA fB : Bool),
      pA.names = ["A"] → pB.names = ["B"] →
      (Analysis.add (Analysis.init l) pA fA).value = true ∧
      (Analysis.add (Analysis.add (Analysis.init l) pA fA).imp pB fB).value = true ∧
      (Analysis.add (Analysis.add (Analysis.init l) pA fA).imp pB fB).imp.names =
        ["A", "B"]) := by
  have general : ∀ (a : Analysis R) (prior : LogPrior R) (nuisance : Bool),
      prior.names.Nodup → (∀ n ∈ prior.names, n ∉ a.parameter_names) →
      (Analysis.add a prior nuisance).value = true ∧
      (Analysis.add a prior nuisance).imp.parameter_descriptions =
        a.parameter_descriptions ++
          prior.descriptions.map (fun d => { d with nuisance := nuisance }) ∧
      (Analysis.add a prior nuisance).imp.parameter_descriptions =
        a.parameter_descriptions ++ (Analysis.add a prior nuisance).prior.descriptions ∧
      (Analysis.add a prior nuisance).imp.priors = a.priors ++ [prior.clone a.parameters] := by
    intro a prior nuisance hd hn
    have hv : (Implementation.add_parameter a prior nuisance).value = true :=
      (add_parameter_true_iff a prior nuisance).2 ⟨hn, hd⟩
    obtain ⟨h1, h2, _, h4⟩ := add_parameter_success a prior nuisance hv
    refine ⟨hv, h1, ?_, h4⟩
    show (Implementation.add_parameter a prior nuisance).imp.parameter_descriptions = _
    rw [h1]
    show _ = _ ++ (Implementation.add_parameter a prior nuisance).prior.descriptions
    rw [h2]
  refine ⟨general, ?_⟩
  intro l pA pB fA fB hA hB
  obtain ⟨v1, d1, _, _⟩ := general (Analysis.init l) pA fA (by rw [hA]; simp)
    (by simp [Analysis.init, Implementation.init])
  have hnames1 : (Analysis.add (Analysis.init l) pA fA).imp.parameter_names = {"A"} := by
    have := (add_parameter_success (Analysis.init l) pA fA v1).2.2.1
    rw [hA] at this
    simpa [Analysis.add, Analysis.init, Implementation.init] using this
  obtain ⟨v2, d2, _, _⟩ := general (Analysis.add (Analysis.init l) pA fA).imp pB fB
    (by rw [hB]; simp) (by rw [hB, hnames1]; decide)
  refine ⟨v1, v2, ?_⟩
  have eA : pA.descriptions.map (fun d => d.parameter.name) = ["A"] := hA
  have eB : pB.descriptions.map (fun d => d.parameter.name) = ["B"] := hB
  unfold Implementation.names
  rw [d2, d1]
  simp [Analysis.init, Implementation.init, List.map_map, Function.comp_def, eA, eB]

/-- Witness of C1 at a flat prior over "A" added to a fresh analysis. -/
theorem add_registers_new_prior_witness :
    (flat_prior 1 "A" 0 1).names.Nodup ∧
    (∀ n ∈ (flat_prior 1 "A" 0 1).names,
      n ∉ (Analysis.init example_likelihood).parameter_names) ∧
    (Analysis.add (Analysis.init example_likelihood) (flat_prior 1 "A" 0 1) true).value
      = true ∧
    (Analysis.add (Analysis.init example_likelihood)
      (flat_prior 1 "A" 0 1) true).imp.priors =
      (Analysis.init example_likelihood).priors ++
        [(flat_prior 1 "A" 0 1).clone (Analysis.init example_likelihood).parameters] :=
  have hd : (flat_prior 1 "A" 0 1).names.Nodup := by decide
  have hn : ∀ n ∈ (flat_prior 1 "A" 0 1).names,
      n ∉ (Analysis.init example_likelihood).parameter_names := by decide
  have h := add_registers_new_prior.1 (Analysis.init example_likelihood)
    (flat_prior 1 "A" 0 1) true hd hn
  ⟨hd, hn, h.1, h.2.2.2⟩

/-- Claim C2, evaluated at the failing input: on the analysis that holds a prior over
"B", `add` of a prior over "A" and "B" returns false, yet "A" has been inserted into
`parameter_names` and its description has been appended to `parameter_descriptions`,
while `priors` still holds one prior. -/
theorem add_failure_keeps_partial_registration :
    (Analysis.add analysis_with_B (pair_prior 1 "A" "B") false).value = false ∧
    Implementation.names analysis_with_B = ["B"] ∧
    Implementation.names (Analysis.add analysis_with_B (pair_prior 1 "A" "B") false).imp
      = ["B", "A"] ∧
    analysis_with_B.parameter_names = {"B"} ∧
    (Analysis.add analysis_with_B (pair_prior 1 "A" "B") false).imp.parameter_names
      = {"A", "B"} ∧
    (Analysis.add analysis_with_B (pair_prior 1 "A" "B") false).imp.priors.length = 1 := by
  decide

/-- Claim C3: `add` is a total function (it has no exceptional outcome), and it returns
true exactly when no name the prior governs is in `parameter_names` before the call and no
name occurs twice among the descriptions of the prior; in every other case it returns
false. -/
theorem add_true_iff_all_names_new {R : Type} (a : Analysis R) (prior : LogPrior R)
    (nuisance : Bool) :
    ((Analysis.add a prior nuisance).value = true ↔
      (∀ n ∈ prior.names, n ∉ a.parameter_names) ∧ prior.names.Nodup) ∧
    ((Analysis.add a prior nuisance).value = false ↔
      ¬ ((∀ n ∈ prior.names, n ∉ a.parameter_names) ∧ prior.names.Nodup)) := by
  have h := add_parameter_true_iff a prior nuisance
  refine ⟨h, ?_⟩
  rw [← h]
  show (Implementation.add_parameter a prior nuisance).value = false ↔ _
  cases (Implementation.add_parameter a prior nuisance).value <;> simp

/-- Claim C4: when `add` returns false, `priors` is the vector it was before the call. -/
theorem add_false_priors_unchanged {R : Type} (a : Analysis R) (prior : LogPrior R)
    (nuisance : Bool) (h : (Analysis.add a prior nuisance).value = false) :
    (Analysis.add a prior nuisance).imp.priors = a.priors := by
  have hp := add_parameter_priors_eq a prior nuisance
  have hv : ¬ (Implementation.add_parameter a prior nuisance).value = true := by
    intro ht
    have hf : (Implementation.add_parameter a prior nuisance).value = false := h
    rw [ht] at hf
    exact Bool.noConfusion hf
  rw [if_neg hv] at hp
  exact hp

/-- Witness of C4: the prior over "A" and "B" is refused by the analysis that holds "B". -/
theorem add_false_priors_unchanged_witness :
    (Analysis.add analysis_with_B (pair_prior 1 "A" "B") false).value = false ∧
    (Analysis.add analysis_with_B (pair_prior 1 "A" "B") false).imp.priors =
      analysis_with_B.priors :=
  have h : (Analysis.add analysis_with_B (pair_prior 1 "A" "B") false).value = false := by
    decide
  ⟨h, add_false_priors_unchanged analysis_with_B (pair_prior 1 "A" "B") false h⟩

/-! ## Invariants of the registered state -/

/-- Claim C5: after any sequence of `add` calls on a fresh analysis, whatever each call
returned, `parameter_names` is the set of the names in `parameter_descriptions`, and no
name occurs twice in `parameter_descriptions`. -/
theorem names_match_descriptions {R : Type} (l : LogLikelihood R)
    (calls : List (LogPrior R × Bool)) :
    (Analysis.add_all (Analysis.init l) calls).parameter_names =
        (Implementation.names (Analysis.add_all (Analysis.init l) calls)).toFinset ∧
      (∀ n : String, n ∈ (Analysis.add_all (Analysis.init l) calls).parameter_names ↔
        ∃ d ∈ (Analysis.add_all (Analysis.init l) calls).parameter_descriptions,
          d.parameter.name = n) ∧
      (Implementation.names (Analysis.add_all (Analysis.init l) calls)).Nodup := by
  have h := add_all_consistent (Analysis.init l) calls (init_consistent l)
  refine ⟨h.names_eq, ?_, h.names_nodup⟩
  intro n
  rw [h.names_eq]
  simp [Implementation.names]

/-- Claim C6: after any sequence of `add` calls on a fresh analysis, the lists of names
governed by two priors at different positions of `priors` have no name in common: a name
governed by the prior at position `i` is not governed by the prior at position `j ≠ i`. -/
theorem registered_priors_decoupled {R : Type} (l : LogLikelihood R)
    (calls : List (LogPrior R × Bool)) :
    (Analysis.add_all (Analysis.init l) calls).priors.Pairwise
        (fun p q => List.Disjoint p.names q.names) ∧
      ∀ (i j : Nat) (p q : LogPrior R) (n : String), i ≠ j →
        (Analysis.add_all (Analysis.init l) calls).priors[i]? = some p →
        (Analysis.add_all (Analysis.init l) calls).priors[j]? = some q →
        n ∈ p.names → n ∉ q.names := by
  have hd := (add_all_consistent (Analysis.init l) calls (init_consistent l)).decoupled
  refine ⟨hd, ?_⟩
  have key : ∀ (i j : Nat) (p q : LogPrior R), i < j →
      (Analysis.add_all (Analysis.init l) calls).priors[i]? = some p →
      (Analysis.add_all (Analysis.init l) calls).priors[j]? = some q →
      List.Disjoint p.names q.names := by
    intro i j p q hij hp hq
    obtain ⟨hi, hpi⟩ := List.getElem?_eq_some_iff.1 hp
    obtain ⟨hj, hqj⟩ := List.getElem?_eq_some_iff.1 hq
    rw [← hpi, ← hqj]
    exact List.pairwise_iff_getElem.1 hd i j hi hj hij
  intro i j p q n hne hp hq hnp hnq
  rcases Nat.lt_or_gt_of_ne hne with hlt | hgt
  · exact key i j p q hlt hp hq hnp hnq
  · exact key j i q p hgt hq hp hnq hnp

/-- Claim C7 as stated fails: after `add` of a prior that governs no parameter to a fresh
analysis, `priors` has one element and `parameter_descriptions` has none. -/
theorem priors_size_exceeds_descriptions_size :
    ¬ ((Analysis.add_all (Analysis.init example_likelihood) [(empty_prior, false)]).priors.length
      ≤ (Analysis.add_all (Analysis.init example_likelihood)
          [(empty_prior, false)]).parameter_descriptions.length) := by
  decide

/-- Claim C7, amended: after any sequence of `add` calls on a fresh analysis in which
every prior governs at least one parameter, whatever each call returned, `priors` has at
most as many elements as `parameter_descriptions`. -/
theorem priors_size_le_descriptions_size {R : Type} (l : LogLikelihood R)
    (calls : List (LogPrior R × Bool)) (hne : ∀ c ∈ calls, c.1.descriptions ≠ []) :
    (Analysis.add_all (Analysis.init l) calls).priors.length ≤
      (Analysis.add_all (Analysis.init l) calls).parameter_descriptions.length :=
  add_all_sizes (Analysis.init l) calls hne (by simp [Analysis.init, Implementation.init])

/-- Witness of the amended C7: a prior over "A", then a refused prior over "A" and "B",
then a prior over "B". -/
theorem priors_size_le_descriptions_size_witness :
    (Analysis.add_all (Analysis.init example_likelihood)
      [(flat_prior 1 "A" 0 1, false), (pair_prior 1 "A" "B", true),
        (flat_prior 1 "B" 0 1, true)]).priors.length ≤
    (Analysis.add_all (Analysis.init example_likelihood)
      [(flat_prior 1 "A" 0 1, false), (pair_prior 1 "A" "B", true),
        (flat_prior 1 "B" 0 1, true)]).parameter_descriptions.length :=
  priors_size_le_descriptions_size example_likelihood
    [(flat_prior 1 "A" 0 1, false), (pair_prior 1 "A" "B", true), (flat_prior 1 "B" 0 1, true)]
    (by decide)

/-! ## Evaluation of prior and posterior -/

theorem log_prior_loop_eq {R : Type} [Add R] (ps : List (LogPrior R)) (x : R) (h : Heap R) :
    (log_prior_loop ps x h).1 = (ps.map (fun p => p.evaluate h)).foldl (fun s y => s + y) x ∧
      (log_prior_loop ps x h).2.values = h.values ∧
      (log_prior_loop ps x h).2.trace =
        h.trace ++ List.replicate ps.length Event.prior_evaluated := by
  induction ps generalizing x h with
  | nil => simp [log_prior_loop]
  | cons p rest ih =>
    obtain ⟨h1, h2, h3⟩ := ih (x + p.evaluate h) (h.record Event.prior_evaluated)
    refine ⟨?_, ?_, ?_⟩
    · simp only [log_prior_loop, List.map_cons, List.foldl_cons]
      rw [h1]
      rfl
    · simp only [log_prior_loop]
      rw [h2]
      rfl
    · simp only [log_prior_loop]
      rw [h3]
      simp [Heap.record, List.replicate_succ]

theorem foldl_add_zero {R : Type} [Zero R] [Add R] (h00 : (0 : R) + 0 = 0) (xs : List R)
    (hx : ∀ x ∈ xs, x = 0) : xs.foldl (fun s y => s + y) 0 = 0 := by
  induction xs with
  | nil => rfl
  | cons x rest ih =>
    have hx0 : x = 0 := hx x (List.mem_cons_self _ _)
    simp only [List.foldl_cons]
    rw [hx0, h00]
    exact ih (fun y hy => hx y (List.mem_cons_of_mem _ hy))

theorem log_prior_of_priors {R : Type} [Zero R] [Add R] (a : Implementation R) (h : Heap R) :
    (a.priors = [] → a.log_prior h =
        { result := Except.error undefined_prior_error, imp := a, heap := h }) ∧
      (a.priors ≠ [] → a.log_prior h =
        { result := Except.ok (log_prior_loop a.priors 0 h).1, imp := a,
          heap := (log_prior_loop a.priors 0 h).2 }) := by
  constructor
  · intro he
    simp [Implementation.log_prior, he]
  · intro hne
    have : a.priors.isEmpty = false := by
      cases hp : a.priors with
      | nil => exact absurd hp hne
      | cons _ _ => rfl
    simp [Implementation.log_prior, this]

/-- Claim C8: `log_prior()` throws the undefined-prior error exactly when `priors` is
empty; otherwise it returns the sum that starts at 0 and adds, in the order of `priors`,
the log-density of each prior at the current parameter values.  It leaves the analysis and
the parameter values as they were.  When 0 + 0 is 0 and every registered prior evaluates
to 0, the result is 0. -/
theorem log_prior_sums_registered_priors {R : Type} [Zero R] [Add R] (a : Analysis R)
    (h : Heap R) :
    ((Analysis.log_prior a h).result = Except.error undefined_prior_error ↔ a.priors = []) ∧
    (a.priors ≠ [] → (Analysis.log_prior a h).result =
      Except.ok ((a.priors.map (fun p => p.evaluate h)).foldl (fun s y => s + y) 0)) ∧
    (Analysis.log_prior a h).imp = a ∧
    (Analysis.log_prior a h).heap.values = h.values ∧
    ((0 : R) + 0 = 0 → a.priors ≠ [] → (∀ p ∈ a.priors, p.evaluate h = 0) →
      (Analysis.log_prior a h).result = Except.ok 0) := by
  obtain ⟨hempty, hsome⟩ := log_prior_of_priors a h
  obtain ⟨l1, l2, _⟩ := log_prior_loop_eq a.priors 0 h
  have hok : a.priors ≠ [] → (Analysis.log_prior a h).result =
      Except.ok ((a.priors.map (fun p => p.evaluate h)).foldl (fun s y => s + y) 0) := by
    intro hne
    show (Implementation.log_prior a h).result = _
    rw [hsome hne, ← l1]
  refine ⟨?_, hok, ?_, ?_, ?_⟩
  · constructor
    · intro herr
      by_contra hne
      rw [hok hne] at herr
      exact Except.noConfusion herr
    · intro he
      show (Implementation.log_prior a h).result = _
      rw [hempty he]
  · show (Implementation.log_prior a h).imp = a
    by_cases he : a.priors = []
    · rw [hempty he]
    · rw [hsome he]
  · show (Implementation.log_prior a h).heap.values = h.values
    by_cases he : a.priors = []
    · rw [hempty he]
    · rw [hsome he]
      exact l2
  · intro h00 hne hflat
    rw [hok hne, foldl_add_zero h00]
    intro x hx
    obtain ⟨p, hp, hpx⟩ := List.mem_map.1 hx
    rw [← hpx]
    exact hflat p hp

theorem flat_priors_registered :
    (Analysis.add_all (Analysis.init example_likelihood)
      [(flat_prior 1 "A" 0 1, false), (flat_prior 1 "B" 0 1, false)]).priors ≠ [] :=
  List.ne_nil_of_length_pos (by decide)

/-- Witness of C8: for flat priors over "A" and over "B", `log_prior()` returns 0. -/
theorem log_prior_sums_registered_priors_witness :
    (Analysis.log_prior (Analysis.add_all (Analysis.init example_likelihood)
      [(flat_prior 1 "A" 0 1, false), (flat_prior 1 "B" 0 1, false)]) example_heap).result
      = Except.ok 0 :=
  (log_prior_sums_registered_priors (Analysis.add_all (Analysis.init example_likelihood)
      [(flat_prior 1 "A" 0 1, false), (flat_prior 1 "B" 0 1, false)]) example_heap).2.2.2.2
    (by decide) flat_priors_registered (by decide)

theorem log_prior_loop_record {R : Type} [Add R] (ps : List (LogPrior R)) (x : R)
    (h : Heap R) (e : Event) :
    (log_prior_loop ps x (h.record e)).1 = (log_prior_loop ps x h).1 := by
  rw [(log_prior_loop_eq ps x (h.record e)).1, (log_prior_loop_eq ps x h).1]
  rfl

theorem log_prior_plus_log_likelihood_of_empty {R : Type} [Zero R] [Add R]
    (order : OperandOrder) (a : Implementation R) (h : Heap R) (he : a.priors = []) :
    a.log_prior_plus_log_likelihood order h =
      { result := Except.error undefined_prior_error, imp := a,
        heap := match order with
          | OperandOrder.left_first => h
          | OperandOrder.right_first => h.record Event.likelihood_evaluated } := by
  cases order
  · unfold Implementation.log_prior_plus_log_likelihood
    simp only []
    rw [(log_prior_of_priors a h).1 he]
  · unfold Implementation.log_prior_plus_log_likelihood
    simp only []
    rw [(log_prior_of_priors a _).1 he]
    rfl

theorem log_prior_plus_log_likelihood_of_priors {R : Type} [Zero R] [Add R]
    (order : OperandOrder) (a : Implementation R) (h : Heap R) (hne : a.priors ≠ []) :
    a.log_prior_plus_log_likelihood order h =
      { result := Except.ok ((log_prior_loop a.priors 0 h).1 + a.log_likelihood.evaluate h)
        imp := a
        heap := { values := h.values
                  trace := h.trace ++ evaluation_events order a.priors.length } } := by
  cases order
  · obtain ⟨_, l2, l3⟩ := log_prior_loop_eq a.priors 0 h
    unfold Implementation.log_prior_plus_log_likelihood
    simp only []
    rw [(log_prior_of_priors a h).2 hne]
    simp [Implementation.call_log_likelihood, LogLikelihood.evaluate, Heap.record,
      evaluation_events, l2, l3]
  · obtain ⟨_, l2, l3⟩ :=
      log_prior_loop_eq a.priors 0 (h.record Event.likelihood_evaluated)
    have l1 := log_prior_loop_record a.priors 0 h Event.likelihood_evaluated
    unfold Implementation.log_prior_plus_log_likelihood
    simp only []
    rw [(log_prior_of_priors a _).2 hne]
    simp only [Implementation.call_log_likelihood]
    rw [l1]
    have hheap : (log_prior_loop a.priors 0 (h.record Event.likelihood_evaluated)).2 =
        { values := h.values
          trace := h.trace ++ evaluation_events OperandOrder.right_first a.priors.length } := by
      have heta : ∀ g : Heap R, g = { values := g.values, trace := g.trace } := fun _ => rfl
      rw [heta (log_prior_loop a.priors 0 (h.record Event.likelihood_evaluated)).2, l2, l3]
      simp [Heap.record, evaluation_events]
    rw [hheap]

/-- Claim C9, refuted as stated: on a fresh analysis, which has no prior, with the right
operand of `log_prior() + log_likelihood()` evaluated first, which C++ allows,
`log_posterior()` throws the undefined-prior error after the likelihood was evaluated. -/
theorem log_posterior_may_evaluate_likelihood_before_throwing :
    (Analysis.init example_likelihood).priors = [] ∧
    (Analysis.log_posterior OperandOrder.right_first (Analysis.init example_likelihood)
      example_heap).result = Except.error undefined_prior_error ∧
    (Analysis.log_posterior OperandOrder.right_first (Analysis.init example_likelihood)
      example_heap).heap.trace = [Event.likelihood_evaluated] ∧
    Event.likelihood_evaluated ∈
      (Analysis.log_posterior OperandOrder.right_first (Analysis.init example_likelihood)
        example_heap).heap.trace.drop example_heap.trace.length := by
  refine ⟨rfl, by rfl, by rfl, ?_⟩
  have ht : (Analysis.log_posterior OperandOrder.right_first
      (Analysis.init example_likelihood) example_heap).heap.trace =
      [Event.likelihood_evaluated] := by rfl
  rw [ht]
  decide

/-- Claim C9, amended: in either order of evaluation of the two operands: with at least
one registered prior, `log_posterior()` returns the value of `log_prior()` plus the value
of the likelihood at the current parameter values, having evaluated every prior and the
likelihood once; with no registered prior it throws the undefined-prior error.  With no
registered prior and the left operand evaluated first, nothing has been evaluated, the
likelihood in particular; with the right operand evaluated first, the likelihood has been
evaluated once, and nothing else. -/
theorem log_posterior_is_prior_plus_likelihood {R : Type} [Zero R] [Add R]
    (order : OperandOrder) (a : Analysis R) (h : Heap R) :
    (a.priors ≠ [] → ∃ x : R, (Analysis.log_prior a h).result = Except.ok x ∧
      (Analysis.log_posterior order a h).result =
        Except.ok (x + a.log_likelihood.evaluate h) ∧
      (Analysis.log_posterior order a h).heap.trace =
        h.trace ++ evaluation_events order a.priors.length) ∧
    (a.priors = [] →
      (Analysis.log_posterior order a h).result = Except.error undefined_prior_error ∧
      (Analysis.log_posterior OperandOrder.left_first a h).heap.trace = h.trace ∧
      Event.likelihood_evaluated ∉
        (Analysis.log_posterior OperandOrder.left_first a h).heap.trace.drop
          h.trace.length ∧
      (Analysis.log_posterior OperandOrder.right_first a h).heap.trace =
        h.trace ++ [Event.likelihood_evaluated]) ∧
    (Analysis.log_posterior order a h).heap.values = h.values ∧
    (Analysis.log_posterior order a h).imp = a := by
  have hempty := fun (o : OperandOrder) (he : a.priors = []) =>
    log_prior_plus_log_likelihood_of_empty o a h he
  have hsome := log_prior_plus_log_likelihood_of_priors order a h
  refine ⟨?_, ?_, ?_, ?_⟩
  · intro hne
    refine ⟨(log_prior_loop a.priors 0 h).1, ?_, ?_, ?_⟩
    · show (Implementation.log_prior a h).result = _
      rw [(log_prior_of_priors a h).2 hne]
    · unfold Analysis.log_posterior
      rw [hsome hne]
    · unfold Analysis.log_posterior
      rw [hsome hne]
  · intro he
    unfold Analysis.log_posterior
    rw [hempty order he, hempty OperandOrder.left_first he,
      hempty OperandOrder.right_first he]
    simp [Heap.record]
  · unfold Analysis.log_posterior
    by_cases he : a.priors = []
    · rw [hempty order he]
      cases order <;> rfl
    · rw [hsome he]
  · unfold Analysis.log_posterior
    by_cases he : a.priors = []
    · rw [hempty order he]
    · rw [hsome he]

/-- Witness of C9: on a fresh analysis `log_posterior()` throws, and with the left
operand first nothing was evaluated; with a flat prior over "A" it returns the value of
the likelihood, here 0, in either order. -/
theorem log_posterior_is_prior_plus_likelihood_witness :
    (Analysis.log_posterior OperandOrder.right_first (Analysis.init example_likelihood)
      example_heap).result = Except.error undefined_prior_error ∧
    (Analysis.log_posterior OperandOrder.left_first (Analysis.init example_likelihood)
      example_heap).heap.trace = example_heap.trace ∧
    ∃ x : Int, (Analysis.log_prior (Analysis.add_all (Analysis.init example_likelihood)
      [(flat_prior 1 "A" 0 1, false)]) example_heap).result = Except.ok x ∧
      (Analysis.log_posterior OperandOrder.right_first
        (Analysis.add_all (Analysis.init example_likelihood)
          [(flat_prior 1 "A" 0 1, false)]) example_heap).result =
        Except.ok (x + (Analysis.add_all (Analysis.init example_likelihood)
          [(flat_prior 1 "A" 0 1, false)]).log_likelihood.evaluate example_heap) ∧
      (Analysis.log_posterior OperandOrder.right_first
        (Analysis.add_all (Analysis.init example_likelihood)
          [(flat_prior 1 "A" 0 1, false)]) example_heap).heap.trace =
        example_heap.trace ++ evaluation_events OperandOrder.right_first
          (Analysis.add_all (Analysis.init example_likelihood)
            [(flat_prior 1 "A" 0 1, false)]).priors.length :=
  have h1 := (log_posterior_is_prior_plus_likelihood OperandOrder.right_first
    (Analysis.init example_likelihood) example_heap).2.1 rfl
  have h2 := (log_posterior_is_prior_plus_likelihood OperandOrder.right_first
    (Analysis.add_all (Analysis.init example_likelihood) [(flat_prior 1 "A" 0 1, false)])
    example_heap).1 (List.ne_nil_of_length_pos (by decide))
  ⟨h1.1, h1.2.1, h2⟩

/-! ## Lookup by name -/

theorem index_loop_none_iff {R : Type} (name : String) (ds : List (ParameterDescription R))
    (k : Nat) :
    index_loop name ds k = none ↔ ∀ d ∈ ds, d.parameter.name ≠ name := by
  induction ds generalizing k with
  | nil => simp [index_loop]
  | cons d rest ih =>
    by_cases hd : name = d.parameter.name
    · simp [index_loop, hd]
    · have hd2 : ¬ d.parameter.name = name := fun e => hd e.symm
      simp [index_loop, hd, hd2, ih]

theorem index_loop_some {R : Type} (name : String) (ds : List (ParameterDescription R))
    (k r : Nat) (h : index_loop name ds k = some r) :
    k ≤ r ∧ (ds.map (fun d => d.parameter.name))[r - k]? = some name ∧
      ∀ j, j < r - k → (ds.map (fun d => d.parameter.name))[j]? ≠ some name := by
  induction ds generalizing k with
  | nil => simp [index_loop] at h
  | cons d rest ih =>
    by_cases hd : name = d.parameter.name
    · simp only [index_loop, hd, if_true, Option.some.injEq] at h
      subst h
      simp [hd]
    · simp only [index_loop, hd, if_false] at h
      obtain ⟨h1, h2, h3⟩ := ih (k + 1) h
      have hr : r - k = (r - (k + 1)) + 1 := by omega
      refine ⟨by omega, ?_, ?_⟩
      · rw [hr, List.map_cons, List.getElem?_cons_succ]
        exact h2
      · intro j hj
        cases j with
        | zero =>
          simp only [List.map_cons, List.getElem?_cons_zero, ne_eq, Option.some.injEq]
          exact fun e => hd e.symm
        | succ i =>
          rw [List.map_cons, List.getElem?_cons_succ]
          exact h3 i (by omega)

/-- Claim C10: `index(name)` throws the no-such-parameter error exactly when no element of
`parameter_descriptions` has the name; otherwise it returns a position below the size of
the vector at which the name stands and before which it does not occur.  It leaves the
analysis and the heap as they were. -/
theorem index_returns_first_position {R : Type} (a : Implementation R) (name : String)
    (h : Heap R) :
    ((a.index name h).result = Except.error (no_such_parameter_error name) ↔
      ∀ d ∈ a.parameter_descriptions, d.parameter.name ≠ name) ∧
    ((∃ d ∈ a.parameter_descriptions, d.parameter.name = name) →
      ∃ i : Nat, (a.index name h).result = Except.ok i ∧
        i < a.parameter_descriptions.length ∧
        a.names[i]? = some name ∧
        ∀ j, j < i → a.names[j]? ≠ some name) ∧
    (a.index name h).imp = a ∧
    (a.index name h).heap = h := by
  unfold Implementation.index
  cases hl : index_loop name a.parameter_descriptions 0 with
  | none =>
    have hn := (index_loop_none_iff name a.parameter_descriptions 0).1 hl
    refine ⟨⟨fun _ => hn, fun _ => rfl⟩, ?_, rfl, rfl⟩
    rintro ⟨d, hd, hdn⟩
    exact absurd hdn (hn d hd)
  | some r =>
    obtain ⟨_, h2, h3⟩ := index_loop_some name a.parameter_descriptions 0 r hl
    rw [Nat.sub_zero] at h2 h3
    refine ⟨⟨?_, ?_⟩, ?_, rfl, rfl⟩
    · intro herr
      exact Except.noConfusion herr
    · intro hall
      have := (index_loop_none_iff name a.parameter_descriptions 0).2 hall
      rw [hl] at this
      exact Option.noConfusion this
    · intro _
      refine ⟨r, rfl, ?_, h2, h3⟩
      have hlt := (List.getElem?_eq_some_iff.1 h2).1
      simpa using hlt

/-- Witness of C10: in the analysis with the names "B", "A" the name "A" has index 1. -/
theorem index_returns_first_position_witness :
    ∃ i : Nat,
      (Implementation.index (Analysis.add analysis_with_B (flat_prior 1 "A" 0 1) false).imp
        "A" example_heap).result = Except.ok i ∧
      i < (Analysis.add analysis_with_B
        (flat_prior 1 "A" 0 1) false).imp.parameter_descriptions.length ∧
      (Implementation.names
        (Analysis.add analysis_with_B (flat_prior 1 "A" 0 1) false).imp)[i]? = some "A" ∧
      ∀ j, j < i → (Implementation.names
        (Analysis.add analysis_with_B (flat_prior 1 "A" 0 1) false).imp)[j]? ≠ some "A" :=
  (index_returns_first_position (Analysis.add analysis_with_B (flat_prior 1 "A" 0 1) false).imp
    "A" example_heap).2.1
    ⟨{ parameter := { space := 1, name := "A" }, min := 0, max := 1, nuisance := false,
       discrete := false }, by decide, rfl⟩

/-! ## Nuisance flags -/

theorem add_parameter_loop_appends {R : Type} (nuisance : Bool)
    (ds : List (ParameterDescription R)) (names : Finset String)
    (descriptions : List (ParameterDescription R)) :
    ∃ extra, (add_parameter_loop nuisance ds names descriptions).parameter_descriptions =
      descriptions ++ extra := by
  induction ds generalizing names descriptions with
  | nil => exact ⟨[], by simp [add_parameter_loop]⟩
  | cons d rest ih =>
    by_cases hd : d.parameter.name ∈ names
    · exact ⟨[], by simp [add_parameter_loop, set_insert, hd]⟩
    · simp only [add_parameter_loop, set_insert, hd, not_false_eq_true, decide_True,
        Bool.true_eq_false, if_false]
      obtain ⟨extra, he⟩ := ih (insert d.parameter.name names)
        (descriptions ++ [{ d with nuisance := nuisance }])
      exact ⟨[{ d with nuisance := nuisance }] ++ extra, by rw [he, List.append_assoc]⟩

theorem add_all_appends {R : Type} (a : Analysis R) (calls : List (LogPrior R × Bool)) :
    ∃ extra, (Analysis.add_all a calls).parameter_descriptions =
      a.parameter_descriptions ++ extra := by
  induction calls generalizing a with
  | nil => exact ⟨[], by simp [Analysis.add_all]⟩
  | cons c rest ih =>
    obtain ⟨e2, h2⟩ := ih (Analysis.add a c.1 c.2).imp
    obtain ⟨e1, h1⟩ := add_parameter_loop_appends c.2 c.1.descriptions a.parameter_names
      a.parameter_descriptions
    rw [← add_parameter_descriptions_eq] at h1
    refine ⟨e1 ++ e2, ?_⟩
    show (Analysis.add_all (Analysis.add a c.1 c.2).imp rest).parameter_descriptions = _
    rw [h2]
    show (Implementation.add_parameter a c.1 c.2).imp.parameter_descriptions ++ e2 = _
    rw [h1, List.append_assoc]

theorem nuisance_of_index {R : Type} (imp : Implementation R) (name : String) (h : Heap R)
    (i : Nat) (hi : index_loop name imp.parameter_descriptions 0 = some i) :
    ∃ d, imp.parameter_descriptions[i]? = some d ∧ d.parameter.name = name ∧
      (imp.index name h).result = Except.ok i ∧
      (imp.nuisance name h).result = Except.ok d.nuisance := by
  obtain ⟨_, h2, _⟩ := index_loop_some name imp.parameter_descriptions 0 i hi
  rw [Nat.sub_zero, List.getElem?_map] at h2
  cases hd : imp.parameter_descriptions[i]? with
  | none => rw [hd] at h2; exact Option.noConfusion h2
  | some d =>
    rw [hd] at h2
    have hlt : i < imp.parameter_descriptions.length := (List.getElem?_eq_some_iff.1 hd).1
    have hget : imp.parameter_descriptions.get ⟨i, hlt⟩ = d :=
      (List.getElem?_eq_some_iff.1 hd).2
    have hidx : imp.index name h = { result := Except.ok i, imp := imp, heap := h } := by
      unfold Implementation.index
      rw [hi]
    refine ⟨d, rfl, by simpa using h2, by rw [hidx], ?_⟩
    have key : ∀ (ds : List (ParameterDescription R)) (_ : ds = imp.parameter_descriptions)
        (hh : i < ds.length), ds.get ⟨i, hh⟩ = d := by
      intro ds hds hh
      subst hds
      exact hget
    unfold Implementation.nuisance
    simp only [hidx]
    rw [dif_neg (Nat.not_le.2 hlt)]
    exact congrArg (fun x : ParameterDescription R =>
      (Except.ok x.nuisance : Except InternalError Bool)) (key (imp.index name h).imp.parameter_descriptions (by rw [hidx]) _)

theorem nuisance_of_unknown {R : Type} (imp : Implementation R) (name : String) (h : Heap R)
    (hn : ∀ d ∈ imp.parameter_descriptions, d.parameter.name ≠ name) :
    (imp.nuisance name h).result = Except.error (no_such_parameter_error name) := by
  have hi := (index_loop_none_iff name imp.parameter_descriptions 0).2 hn
  have hidx : imp.index name h =
      { result := Except.error (no_such_parameter_error name), imp := imp, heap := h } := by
    unfold Implementation.index
    rw [hi]
  unfold Implementation.nuisance
  simp only [hidx]

/-- Claim C11, evaluated at the failing input: on the analysis that holds only "B",
`nuisance("A")` does not return false, it leaves with the exception that `index("A")`
throws. -/
theorem nuisance_of_unknown_name_throws :
    (∀ d ∈ analysis_with_B.parameter_descriptions, d.parameter.name ≠ "A") ∧
    (Analysis.nuisance analysis_with_B "A" example_heap).result =
      Except.error (no_such_parameter_error "A") ∧
    (Analysis.nuisance analysis_with_B "A" example_heap).result ≠ Except.ok false := by
  have hn : ∀ d ∈ analysis_with_B.parameter_descriptions, d.parameter.name ≠ "A" := by
    decide
  have he := nuisance_of_unknown analysis_with_B "A" example_heap hn
  refine ⟨hn, he, ?_⟩
  show (Implementation.nuisance analysis_with_B "A" example_heap).result ≠ _
  rw [he]
  exact fun hc => Except.noConfusion hc

/-- Claim C12: after a successful `add(prior, flag)` on an analysis built by `add` calls,
and after any further `add` calls, `nuisance(name)` returns `flag` for every name the
prior governs; the value it returns is the nuisance flag of the description at position
`index(name)` of `parameter_descriptions`. -/
theorem nuisance_returns_registered_flag {R : Type} (l : LogLikelihood R)
    (before after : List (LogPrior R × Bool)) (prior : LogPrior R) (flag : Bool)
    (name : String) (h : Heap R)
    (hadd : (Analysis.add (Analysis.add_all (Analysis.init l) before) prior flag).value = true)
    (hname : name ∈ prior.names) :
    (Analysis.nuisance (Analysis.add_all
      (Analysis.add (Analysis.add_all (Analysis.init l) before) prior flag).imp after)
      name h).result = Except.ok flag ∧
    ∃ i d, (Implementation.index (Analysis.add_all
        (Analysis.add (Analysis.add_all (Analysis.init l) before) prior flag).imp after)
        name h).result = Except.ok i ∧
      (Analysis.add_all
        (Analysis.add (Analysis.add_all (Analysis.init l) before) prior flag).imp
        after).parameter_descriptions[i]? = some d ∧
      d.parameter.name = name ∧ d.nuisance = flag := by
  have hc0 := add_all_consistent (Analysis.init l) before (init_consistent l)
  have hc1 : Implementation.Consistent
      (Analysis.add (Analysis.add_all (Analysis.init l) before) prior flag).imp :=
    add_parameter_consistent _ prior flag hc0
  have hc2 := add_all_consistent _ after hc1
  obtain ⟨hd, _, _, _⟩ := add_parameter_success _ prior flag hadd
  obtain ⟨extra, he⟩ := add_all_appends
    (Analysis.add (Analysis.add_all (Analysis.init l) before) prior flag).imp after
  have hnew := ((add_parameter_true_iff _ prior flag).1 hadd).1 name hname
  rw [hc0.names_eq, List.mem_toFinset] at hnew
  have hnodup := hc2.names_nodup
  unfold Implementation.names at hnodup hnew
  have hd1 : (Analysis.add (Analysis.add_all (Analysis.init l) before)
      prior flag).imp.parameter_descriptions = _ := hd
  rw [he, hd1] at hnodup
  simp only [List.map_append, List.map_map] at hnodup
  have hmapped : name ∈ (prior.descriptions.map
      (fun d => ({ d with nuisance := flag } : ParameterDescription R))).map
      (fun d => d.parameter.name) := by
    simpa [LogPrior.names, List.map_map, Function.comp_def] using hname
  have hflag : ∀ d ∈ (Analysis.add_all
      (Analysis.add (Analysis.add_all (Analysis.init l) before) prior flag).imp
      after).parameter_descriptions, d.parameter.name = name → d.nuisance = flag := by
    intro d hdm hdn
    rw [he, hd1, List.mem_append, List.mem_append] at hdm
    rcases hdm with (hdm | hdm) | hdm
    · exact absurd (List.mem_map.2 ⟨d, hdm, hdn⟩) hnew
    · obtain ⟨d0, _, hd0⟩ := List.mem_map.1 hdm
      rw [← hd0]
    · exfalso
      have hdis := (List.nodup_append.1 hnodup).2.2
      refine hdis (a := name) ?_ (List.mem_map.2 ⟨d, hdm, hdn⟩)
      rw [List.mem_append]
      right
      simpa [List.map_map, Function.comp_def] using hmapped
  have hex : ¬ ∀ d ∈ (Analysis.add_all
      (Analysis.add (Analysis.add_all (Analysis.init l) before) prior flag).imp
      after).parameter_descriptions, d.parameter.name ≠ name := by
    intro hall
    obtain ⟨d0, hd0, hd0n⟩ := List.mem_map.1 hmapped
    refine hall d0 ?_ hd0n
    rw [he, hd1]
    exact List.mem_append_left _ (List.mem_append_right _ hd0)
  cases hi : index_loop name (Analysis.add_all
      (Analysis.add (Analysis.add_all (Analysis.init l) before) prior flag).imp
      after).parameter_descriptions 0 with
  | none => exact absurd ((index_loop_none_iff _ _ _).1 hi) hex
  | some i =>
    obtain ⟨d, hdi, hdn, hidx, hnu⟩ := nuisance_of_index _ name h i hi
    have hdf := hflag d (List.getElem?_mem hdi) hdn
    refine ⟨?_, i, d, hidx, hdi, hdn, hdf⟩
    show (Implementation.nuisance _ name h).result = _
    rw [hnu, hdf]

/-- Witness of C12: "B" is registered with the flag true, then "A" with the flag false. -/
theorem nuisance_returns_registered_flag_witness :
    (Analysis.nuisance (Analysis.add_all
      (Analysis.add (Analysis.add_all (Analysis.init example_likelihood) [])
        (flat_prior 1 "B" 0 1) true).imp [(flat_prior 1 "A" 0 1, false)])
      "B" example_heap).result = Except.ok true :=
  (nuisance_returns_registered_flag example_likelihood [] [(flat_prior 1 "A" 0 1, false)]
    (flat_prior 1 "B" 0 1) true "B" example_heap (by decide) (by decide)).1

/-! ## Lookup of a prior by name -/

theorem log_prior_by_name_inner_eq {R : Type} (name : String) (p : LogPrior R)
    (ds : List (ParameterDescription R)) (prior : Option (LogPrior R)) :
    log_prior_by_name_inner name p ds prior =
      if name ∈ ds.map (fun d => d.parameter.name) then some p else prior := by
  induction ds generalizing prior with
  | nil => simp [log_prior_by_name_inner]
  | cons d rest ih =>
    simp only [log_prior_by_name_inner, ih, List.map_cons, List.mem_cons]
    by_cases h1 : name ∈ rest.map (fun d => d.parameter.name)
    · simp [h1]
    · by_cases h2 : d.parameter.name = name
      · simp [h1, h2]
      · have h3 : ¬ name = d.parameter.name := fun e => h2 e.symm
        simp [h1, h2, h3]

theorem log_prior_by_name_loop_none {R : Type} (name : String) (ps : List (LogPrior R))
    (prior : Option (LogPrior R)) (h : ∀ q ∈ ps, name ∉ q.names) :
    log_prior_by_name_loop name ps prior = prior := by
  induction ps generalizing prior with
  | nil => rfl
  | cons p rest ih =>
    have hp : name ∉ p.descriptions.map (fun d => d.parameter.name) :=
      h p (List.mem_cons_self _ _)
    simp only [log_prior_by_name_loop, log_prior_by_name_inner_eq, hp, if_false]
    exact ih prior (fun q hq => h q (List.mem_cons_of_mem _ hq))

theorem log_prior_by_name_loop_find {R : Type} (name : String) (ps : List (LogPrior R))
    (hd : ps.Pairwise (fun p q => List.Disjoint p.names q.names)) :
    log_prior_by_name_loop name ps none = ps.find? (fun p => decide (name ∈ p.names)) := by
  induction ps with
  | nil => rfl
  | cons p rest ih =>
    obtain ⟨hp, hrest⟩ := List.pairwise_cons.1 hd
    simp only [log_prior_by_name_loop, log_prior_by_name_inner_eq]
    by_cases hg : name ∈ p.names
    · have hg1 : name ∈ p.descriptions.map (fun d => d.parameter.name) := hg
      rw [if_pos hg1, List.find?_cons_of_pos _ (by simpa using hg)]
      exact log_prior_by_name_loop_none name rest (some p) (fun q hq hn => hp q hq hg hn)
    · have hg1 : name ∉ p.descriptions.map (fun d => d.parameter.name) := hg
      rw [if_neg hg1, List.find?_cons_of_neg _ (by simpa using hg)]
      exact ih hrest

/-- Claim C13: `log_prior(name)` is a total function (it has no exceptional outcome); on
an analysis built by `add` calls it returns the first prior of `priors` that governs the
name, and it returns the null pointer exactly when no prior of `priors` governs the
name. -/
theorem log_prior_by_name_finds_governing_prior {R : Type} (l : LogLikelihood R)
    (calls : List (LogPrior R × Bool)) (name : String) :
    Analysis.log_prior_by_name (Analysis.add_all (Analysis.init l) calls) name =
      (Analysis.add_all (Analysis.init l) calls).priors.find?
        (fun p => decide (name ∈ p.names)) ∧
    (Analysis.log_prior_by_name (Analysis.add_all (Analysis.init l) calls) name = none ↔
      ∀ p ∈ (Analysis.add_all (Analysis.init l) calls).priors, name ∉ p.names) := by
  have hd := (add_all_consistent (Analysis.init l) calls (init_consistent l)).decoupled
  have hf := log_prior_by_name_loop_find name _ hd
  have he : Analysis.log_prior_by_name (Analysis.add_all (Analysis.init l) calls) name =
      (Analysis.add_all (Analysis.init l) calls).priors.find?
        (fun p => decide (name ∈ p.names)) := hf
  refine ⟨he, ?_⟩
  rw [he, List.find?_eq_none]
  simp

/-! ## Vectors of the wrong length -/

/-- Claim C14: for an initial guess whose length is not the size of
`parameter_descriptions`, `optimize` throws the dimension-mismatch error and leaves the
analysis and the heap as they were: no parameter value is written, and neither a prior
nor the likelihood is evaluated. -/
theorem optimize_rejects_wrong_dimension {R : Type} {S : Type} [Zero R] [Add R] [Neg R]
    [Sub R] [Mul R] [LE R] [DecidableRel (fun x y : R => x ≤ y)]
    (order : OperandOrder) (gsl : Minimizer R S)
    (a : Analysis R) (initial_guess : List R) (options : OptimizationOptions R) (h : Heap R)
    (hlen : initial_guess.length ≠ a.parameter_descriptions.length) :
    (Analysis.optimize order gsl a initial_guess options h).result =
      Except.error (optimize_dimension_error a.parameter_descriptions.length) ∧
    (Analysis.optimize order gsl a initial_guess options h).imp = a ∧
    (Analysis.optimize order gsl a initial_guess options h).heap = h := by
  have hne : a.parameter_descriptions.length ≠ initial_guess.length := fun e => hlen e.symm
  unfold Analysis.optimize Implementation.optimize
  rw [if_pos hne]
  exact ⟨rfl, rfl, rfl⟩

/-- Witness of C14: a guess of length 3 for the analysis with the two parameters "A" and
"B". -/
theorem optimize_rejects_wrong_dimension_witness :
    (Analysis.optimize OperandOrder.left_first
      example_minimizer analysis_with_A_B [0, 0, 0] example_options
      example_heap).result = Except.error (optimize_dimension_error 2) ∧
    (Analysis.optimize OperandOrder.left_first
      example_minimizer analysis_with_A_B [0, 0, 0] example_options
      example_heap).heap = example_heap :=
  have h := optimize_rejects_wrong_dimension OperandOrder.left_first
    example_minimizer analysis_with_A_B [0, 0, 0]
    example_options example_heap (by decide)
  ⟨h.1, h.2.2⟩

/-- Claim C15: for a vector whose length is not the size of `parameter_descriptions`,
`goodness_of_fit` throws the dimension-mismatch error and leaves the analysis and the heap
as they were: no parameter value is written and the likelihood is neither evaluated nor
bootstrapped. -/
theorem goodness_of_fit_rejects_wrong_dimension {R : Type} (gsl : ChiSquare R)
    (a : Analysis R) (parameter_values : List R) (simulated_datasets : Nat) (h : Heap R)
    (hlen : parameter_values.length ≠ a.parameter_descriptions.length) :
    (Analysis.goodness_of_fit gsl a parameter_values simulated_datasets h).result =
      Except.error (goodness_of_fit_dimension_error a.parameter_descriptions.length) ∧
    (Analysis.goodness_of_fit gsl a parameter_values simulated_datasets h).imp = a ∧
    (Analysis.goodness_of_fit gsl a parameter_values simulated_datasets h).heap = h := by
  have hne : a.parameter_descriptions.length ≠ parameter_values.length :=
    fun e => hlen e.symm
  unfold Analysis.goodness_of_fit Implementation.goodness_of_fit
  rw [if_pos hne]
  exact ⟨rfl, rfl, rfl⟩

/-- Witness of C15: a vector of length 1 for the analysis with the two parameters "A" and
"B". -/
theorem goodness_of_fit_rejects_wrong_dimension_witness :
    (Analysis.goodness_of_fit example_chi_square analysis_with_A_B [5] 10
      example_heap).result = Except.error (goodness_of_fit_dimension_error 2) ∧
    (Analysis.goodness_of_fit example_chi_square analysis_with_A_B [5] 10
      example_heap).heap = example_heap :=
  have h := goodness_of_fit_rejects_wrong_dimension example_chi_square analysis_with_A_B [5]
    10 example_heap (by decide)
  ⟨h.1, h.2.2⟩

/-! ## Optimization -/

theorem negative_log_posterior_eq_of_empty {R : Type} [Zero R] [Add R] [Neg R]
    (order : OperandOrder) (a : Implementation R) (pars : List R) (h : Heap R)
    (he : a.priors = []) :
    a.negative_log_posterior order pars h =
      { result := Except.error undefined_prior_error, imp := a,
        heap := match order with
          | OperandOrder.left_first => write_parameters a.parameter_descriptions pars h
          | OperandOrder.right_first =>
              (write_parameters a.parameter_descriptions pars h).record
                Event.likelihood_evaluated } := by
  unfold Implementation.negative_log_posterior
  simp only []
  rw [log_prior_plus_log_likelihood_of_empty order a _ he]

theorem negative_log_posterior_eq_of_priors {R : Type} [Zero R] [Add R] [Neg R]
    (order : OperandOrder) (a : Implementation R) (pars : List R) (h : Heap R)
    (hne : a.priors ≠ []) :
    a.negative_log_posterior order pars h =
      { result := Except.ok
          (-((log_prior_loop a.priors 0
                (write_parameters a.parameter_descriptions pars h)).1 +
              a.log_likelihood.evaluate (write_parameters a.parameter_descriptions pars h)))
        imp := a
        heap :=
          { values := (write_parameters a.parameter_descriptions pars h).values
            trace := (write_parameters a.parameter_descriptions pars h).trace ++
              evaluation_events order a.priors.length } } := by
  unfold Implementation.negative_log_posterior
  simp only []
  rw [log_prior_plus_log_likelihood_of_priors order a _ hne]

theorem negative_log_posterior_imp {R : Type} [Zero R] [Add R] [Neg R]
    (order : OperandOrder) (a : Implementation R) (pars : List R) (h : Heap R) :
    (a.negative_log_posterior order pars h).imp = a := by
  by_cases he : a.priors = []
  · rw [negative_log_posterior_eq_of_empty order a pars h he]
  · rw [negative_log_posterior_eq_of_priors order a pars h he]

theorem negative_log_posterior_of_empty {R : Type} [Zero R] [Add R] [Neg R]
    (order : OperandOrder) (a : Implementation R) (pars : List R) (h : Heap R)
    (he : a.priors = []) :
    (a.negative_log_posterior order pars h).result =
      Except.error undefined_prior_error := by
  rw [negative_log_posterior_eq_of_empty order a pars h he]

theorem negative_log_posterior_of_priors {R : Type} [Zero R] [Add R] [Neg R]
    (order : OperandOrder) (a : Implementation R) (pars : List R) (h : Heap R)
    (hne : a.priors ≠ []) :
    ∃ lp : R,
      (Analysis.log_posterior order a
        (write_parameters a.parameter_descriptions pars h)).result = Except.ok lp ∧
      (a.negative_log_posterior order pars h).result = Except.ok (-lp) := by
  refine ⟨(log_prior_loop a.priors 0 (write_parameters a.parameter_descriptions pars h)).1 +
    a.log_likelihood.evaluate (write_parameters a.parameter_descriptions pars h), ?_, ?_⟩
  · unfold Analysis.log_posterior
    rw [log_prior_plus_log_likelihood_of_priors order a _ hne]
  · rw [negative_log_posterior_eq_of_priors order a pars h hne]

theorem negative_log_posterior_ok {R : Type} [Zero R] [Add R] [InvolutiveNeg R]
    (order : OperandOrder) (a : Implementation R) (pars : List R) (h : Heap R) (y : R)
    (hy : (a.negative_log_posterior order pars h).result = Except.ok y) :
    (Analysis.log_posterior order a
      (write_parameters a.parameter_descriptions pars h)).result = Except.ok (-y) := by
  by_cases he : a.priors = []
  · rw [negative_log_posterior_of_empty order a pars h he] at hy
    exact Except.noConfusion hy
  · obtain ⟨lp, h1, h2⟩ := negative_log_posterior_of_priors order a pars h he
    rw [h2] at hy
    have hyl : -lp = y := by injection hy
    rw [h1, ← hyl, neg_neg]

theorem optimize_result {R : Type} {S : Type} [Zero R] [Add R] [Neg R] [Sub R] [Mul R]
    [LE R] [DecidableRel (fun x y : R => x ≤ y)] (order : OperandOrder) (gsl : Minimizer R S)
    (a : Implementation R) (initial_guess : List R) (options : OptimizationOptions R)
    (h : Heap R) (initial_minimum : R)
    (hlen : a.parameter_descriptions.length = initial_guess.length)
    (hfirst : (a.negative_log_posterior order initial_guess h).result = Except.ok initial_minimum) :
    (a.optimize order gsl initial_guess options h).result =
      if gsl.fval (a.minimizer_result order gsl initial_guess options h).minim ≥ initial_minimum
      then Except.ok (initial_guess, -initial_minimum)
      else Except.ok
        (read_parameters_at_mode initial_guess
          (gsl.x (a.minimizer_result order gsl initial_guess options h).minim),
        -(gsl.fval (a.minimizer_result order gsl initial_guess options h).minim)) := by
  have himp := negative_log_posterior_imp order a initial_guess h
  unfold Implementation.optimize Implementation.minimizer_result
  rw [if_neg (not_not.2 hlen)]
  simp only [hfirst, himp]
  split <;> rfl

theorem optimize_error {R : Type} {S : Type} [Zero R] [Add R] [Neg R] [Sub R] [Mul R]
    [LE R] [DecidableRel (fun x y : R => x ≤ y)] (order : OperandOrder) (gsl : Minimizer R S)
    (a : Implementation R) (initial_guess : List R) (options : OptimizationOptions R)
    (h : Heap R) (e : InternalError)
    (hlen : a.parameter_descriptions.length = initial_guess.length)
    (hfirst : (a.negative_log_posterior order initial_guess h).result = Except.error e) :
    (a.optimize order gsl initial_guess options h).result = Except.error e := by
  unfold Implementation.optimize
  rw [if_neg (not_not.2 hlen)]
  simp only [hfirst]

theorem optimize_rejects_dimension_aux {R : Type} {S : Type} [Zero R] [Add R] [Neg R]
    [Sub R] [Mul R] [LE R] [DecidableRel (fun x y : R => x ≤ y)]
    (order : OperandOrder) (gsl : Minimizer R S)
    (a : Analysis R) (initial_guess : List R) (options : OptimizationOptions R) (h : Heap R)
    (hlen : ¬ a.parameter_descriptions.length = initial_guess.length) :
    (Analysis.optimize order gsl a initial_guess options h).result =
      Except.error (optimize_dimension_error a.parameter_descriptions.length) := by
  unfold Analysis.optimize Implementation.optimize
  rw [if_pos hlen]

/-- Claim C16: for a linearly ordered carrier (no NaN) with `-(-x) = x` and with `-`
reversing the order, for every analysis, minimizer, options, initial guess and heap: a
log-posterior value that `optimize` returns is at least `log_posterior()` evaluated after
writing the initial guess; and `optimize` does return when a prior is registered and the
guess has the size of `parameter_descriptions`. -/
theorem optimize_never_below_initial_guess {R : Type} {S : Type} [Zero R] [Add R] [Sub R]
    [Mul R] [LinearOrder R] [InvolutiveNeg R] (hneg : ∀ x y : R, x < y → -y < -x)
    (order : OperandOrder) (gsl : Minimizer R S) (a : Analysis R) (initial_guess : List R)
    (options : OptimizationOptions R) (h : Heap R) :
    (∀ v p, (Analysis.optimize order gsl a initial_guess options h).result = Except.ok (v, p) →
      ∃ lp, (Analysis.log_posterior order a
          (write_parameters a.parameter_descriptions initial_guess h)).result = Except.ok lp ∧
        lp ≤ p) ∧
    (a.priors ≠ [] → a.parameter_descriptions.length = initial_guess.length →
      ∃ v p, (Analysis.optimize order gsl a initial_guess options h).result =
        Except.ok (v, p)) := by
  have main : ∀ hlen : a.parameter_descriptions.length = initial_guess.length,
      a.priors ≠ [] → ∃ v p lp,
        (Analysis.optimize order gsl a initial_guess options h).result = Except.ok (v, p) ∧
        (Analysis.log_posterior order a
          (write_parameters a.parameter_descriptions initial_guess h)).result = Except.ok lp ∧
        lp ≤ p := by
    intro hlen hne
    obtain ⟨lp, h1, h2⟩ := negative_log_posterior_of_priors order a initial_guess h hne
    have hr := optimize_result order gsl a initial_guess options h (-lp) hlen h2
    by_cases hm : gsl.fval (Implementation.minimizer_result order gsl a initial_guess options
        h).minim ≥ -lp
    · rw [if_pos hm] at hr
      exact ⟨_, _, lp, hr, h1, by rw [neg_neg]⟩
    · rw [if_neg hm] at hr
      refine ⟨_, _, lp, hr, h1, ?_⟩
      have hlt := hneg _ _ (not_le.1 hm)
      rw [neg_neg] at hlt
      exact le_of_lt hlt
  constructor
  · intro v p hvp
    by_cases hlen : a.parameter_descriptions.length = initial_guess.length
    · by_cases hne : a.priors = []
      · have he := optimize_error order gsl a initial_guess options h _ hlen
          (negative_log_posterior_of_empty order a initial_guess h hne)
        have hvp1 : (Implementation.optimize order gsl a initial_guess options h).result = _ := hvp
        rw [he] at hvp1
        exact Except.noConfusion hvp1
      · obtain ⟨v1, p1, lp, hr, hl, hle⟩ := main hlen hne
        rw [hr] at hvp
        have hpp : p1 = p := by
          injection hvp with hvp
          exact congrArg Prod.snd hvp
        exact ⟨lp, hl, hpp ▸ hle⟩
    · have he := (optimize_rejects_dimension_aux order gsl a initial_guess options h hlen)
      rw [he] at hvp
      exact Except.noConfusion hvp
  · intro hne hlen
    obtain ⟨v, p, _, hr, _⟩ := main hlen hne
    exact ⟨v, p, hr⟩

theorem analysis_with_A_B_has_priors : analysis_with_A_B.priors ≠ [] :=
  List.ne_nil_of_length_pos (by decide)

/-- Witness of C16: the analysis with flat priors over "A" and "B", started at (0, 0):
`optimize` returns, and the returned value is at least the log-posterior there. -/
theorem optimize_never_below_initial_guess_witness :
    (∃ v p, (Analysis.optimize OperandOrder.left_first
      example_minimizer analysis_with_A_B [0, 0] example_options
      example_heap).result = Except.ok (v, p)) ∧
    ∀ v p, (Analysis.optimize OperandOrder.left_first
      example_minimizer analysis_with_A_B [0, 0] example_options
      example_heap).result = Except.ok (v, p) →
      ∃ lp, (Analysis.log_posterior OperandOrder.left_first analysis_with_A_B
          (write_parameters analysis_with_A_B.parameter_descriptions [0, 0]
            example_heap)).result = Except.ok lp ∧ lp ≤ p :=
  have h := optimize_never_below_initial_guess (fun _ _ hxy => Int.neg_lt_neg hxy)
    OperandOrder.left_first example_minimizer analysis_with_A_B [0, 0] example_options example_heap
  ⟨h.2 analysis_with_A_B_has_priors (by decide), h.1⟩

theorem optimize_cases {R : Type} {S : Type} [Zero R] [Add R] [Sub R]
    [Mul R] [LinearOrder R] [InvolutiveNeg R]
    (order : OperandOrder) (gsl : Minimizer R S) (a : Analysis R)
    (initial_guess : List R) (options : OptimizationOptions R) (h : Heap R)
    (initial_minimum : R)
    (hlen : a.parameter_descriptions.length = initial_guess.length)
    (hfirst : (Implementation.negative_log_posterior order a initial_guess h).result =
      Except.ok initial_minimum) :
    (¬ gsl.fval (Implementation.minimizer_result order gsl a initial_guess options h).minim
        < initial_minimum →
      (Analysis.optimize order gsl a initial_guess options h).result =
        Except.ok (initial_guess, -initial_minimum)) ∧
    (initial_minimum ≤
        gsl.fval (Implementation.minimizer_result order gsl a initial_guess options h).minim →
      (Analysis.optimize order gsl a initial_guess options h).result =
        Except.ok (initial_guess, -initial_minimum)) ∧
    (Analysis.log_posterior order a
      (write_parameters a.parameter_descriptions initial_guess h)).result =
        Except.ok (-initial_minimum) ∧
    (gsl.fval (Implementation.minimizer_result order gsl a initial_guess options h).minim
        < initial_minimum →
      (Analysis.optimize order gsl a initial_guess options h).result =
        Except.ok
          (read_parameters_at_mode initial_guess
            (gsl.x (Implementation.minimizer_result order gsl a initial_guess options h).minim),
          -(gsl.fval (Implementation.minimizer_result order gsl a initial_guess options
            h).minim))) ∧
    (∀ v p, (Analysis.optimize order gsl a initial_guess options h).result = Except.ok (v, p) →
      v ≠ initial_guess →
      gsl.fval (Implementation.minimizer_result order gsl a initial_guess options h).minim
        < initial_minimum) := by
  have hr := optimize_result order gsl a initial_guess options h initial_minimum hlen hfirst
  have hle : initial_minimum ≤
      gsl.fval (Implementation.minimizer_result order gsl a initial_guess options h).minim →
      (Analysis.optimize order gsl a initial_guess options h).result =
        Except.ok (initial_guess, -initial_minimum) := by
    intro hm
    show (Implementation.optimize order gsl a initial_guess options h).result = _
    rw [hr, if_pos hm]
  refine ⟨fun hm => hle (not_lt.1 hm), hle,
    negative_log_posterior_ok order a initial_guess h initial_minimum hfirst, ?_, ?_⟩
  · intro hm
    show (Implementation.optimize order gsl a initial_guess options h).result = _
    rw [hr, if_neg (not_le.2 hm)]
  · intro v p hvp hv
    by_contra hm
    rw [hle (not_lt.1 hm)] at hvp
    injection hvp with hvp
    exact hv (congrArg Prod.fst hvp).symm

/-- Claim C17, refuted as stated: a likelihood that is 0 at "A" = 0 and NaN elsewhere,
with a flat prior over "A", started at (0), where the objective is 0.  The minimizer
steps to (1), where the objective is NaN: its final value is not strictly lower than 0,
and 0 is not at most that value either.  `optimize` returns the vertex (1) of the
minimizer with the value NaN, and not the initial guess (0) with the log-posterior 0, in
either order of evaluation of the operands of the objective's sum. -/
theorem optimize_returns_vertex_with_nan_value :
    nan_analysis.parameter_descriptions.length = [NanInt.num 0].length ∧
    (Implementation.negative_log_posterior OperandOrder.left_first nan_analysis
      [NanInt.num 0] nan_heap).result = Except.ok (NanInt.num 0) ∧
    wandering_minimizer.fval (Implementation.minimizer_result OperandOrder.left_first
      wandering_minimizer nan_analysis [NanInt.num 0] nan_options nan_heap).minim =
      NanInt.nan ∧
    ¬ wandering_minimizer.fval (Implementation.minimizer_result OperandOrder.left_first
      wandering_minimizer nan_analysis [NanInt.num 0] nan_options nan_heap).minim <
      NanInt.num 0 ∧
    (Analysis.optimize OperandOrder.left_first wandering_minimizer nan_analysis
      [NanInt.num 0] nan_options nan_heap).result =
      Except.ok ([NanInt.num 1], NanInt.nan) ∧
    (Analysis.optimize OperandOrder.left_first wandering_minimizer nan_analysis
      [NanInt.num 0] nan_options nan_heap).result ≠
      Except.ok ([NanInt.num 0], -NanInt.num 0) ∧
    (Implementation.negative_log_posterior OperandOrder.right_first nan_analysis
      [NanInt.num 0] nan_heap).result = Except.ok (NanInt.num 0) ∧
    ¬ wandering_minimizer.fval (Implementation.minimizer_result OperandOrder.right_first
      wandering_minimizer nan_analysis [NanInt.num 0] nan_options nan_heap).minim <
      NanInt.num 0 ∧
    (Analysis.optimize OperandOrder.right_first wandering_minimizer nan_analysis
      [NanInt.num 0] nan_options nan_heap).result =
      Except.ok ([NanInt.num 1], NanInt.nan) := by
  have key : ∀ order : OperandOrder,
      (Implementation.negative_log_posterior order nan_analysis
        [NanInt.num 0] nan_heap).result = Except.ok (NanInt.num 0) ∧
      wandering_minimizer.fval (Implementation.minimizer_result order
        wandering_minimizer nan_analysis [NanInt.num 0] nan_options nan_heap).minim =
        NanInt.nan ∧
      (Analysis.optimize order wandering_minimizer nan_analysis
        [NanInt.num 0] nan_options nan_heap).result =
        Except.ok ([NanInt.num 1], NanInt.nan) := by
    intro order
    have hfirst : (Implementation.negative_log_posterior order nan_analysis
        [NanInt.num 0] nan_heap).result = Except.ok (NanInt.num 0) := by
      cases order <;> rfl
    have hrun : (Implementation.minimizer_result order
        wandering_minimizer nan_analysis [NanInt.num 0] nan_options nan_heap).minim.2 =
        ([NanInt.num 1], NanInt.nan) := by
      unfold Implementation.minimizer_result Implementation.run_minimizer
      rw [optimize_loop]
      cases order <;> rfl
    have hfval : wandering_minimizer.fval (Implementation.minimizer_result
        order wandering_minimizer nan_analysis [NanInt.num 0] nan_options
        nan_heap).minim = NanInt.nan := congrArg Prod.snd hrun
    have hx : wandering_minimizer.x (Implementation.minimizer_result
        order wandering_minimizer nan_analysis [NanInt.num 0] nan_options
        nan_heap).minim = [NanInt.num 1] := congrArg Prod.fst hrun
    have hr := optimize_result order wandering_minimizer nan_analysis
      [NanInt.num 0] nan_options nan_heap (NanInt.num 0) (by decide) hfirst
    rw [hfval, hx] at hr
    exact ⟨hfirst, hfval, hr⟩
  obtain ⟨l1, l2, l3⟩ := key OperandOrder.left_first
  obtain ⟨r1, r2, r3⟩ := key OperandOrder.right_first
  refine ⟨by decide, l1, l2, ?_, l3, ?_, r1, ?_, r3⟩
  · rw [l2]
    decide
  · rw [l3]
    intro hc
    exact absurd (Except.ok.inj hc) (by decide)
  · rw [r2]
    decide

/-- Claim C17, amended: for a linearly ordered carrier (no NaN) with `-(-x) = x`, when
the objective has the value `initial_minimum` at the initial guess: if the final value of
the minimizer is not strictly lower than `initial_minimum`, in particular if
`initial_minimum` is at most that value, `optimize` returns the initial guess with
`-initial_minimum`, which is `log_posterior()` evaluated after writing the initial guess;
if the final value is strictly lower, `optimize` returns the vertex read from `minim->x`
with the negated final value; so a returned vector other than the initial guess means a
strictly lower final value. -/
theorem optimize_falls_back_to_initial_guess {R : Type} {S : Type} [Zero R] [Add R] [Sub R]
    [Mul R] [LinearOrder R] [InvolutiveNeg R]
    (order : OperandOrder) (gsl : Minimizer R S) (a : Analysis R)
    (initial_guess : List R) (options : OptimizationOptions R) (h : Heap R)
    (initial_minimum : R)
    (hlen : a.parameter_descriptions.length = initial_guess.length)
    (hfirst : (Implementation.negative_log_posterior order a initial_guess h).result =
      Except.ok initial_minimum) :
    (¬ gsl.fval (Implementation.minimizer_result order gsl a initial_guess options h).minim
        < initial_minimum →
      (Analysis.optimize order gsl a initial_guess options h).result =
        Except.ok (initial_guess, -initial_minimum)) ∧
    (initial_minimum ≤
        gsl.fval (Implementation.minimizer_result order gsl a initial_guess options h).minim →
      (Analysis.optimize order gsl a initial_guess options h).result =
        Except.ok (initial_guess, -initial_minimum)) ∧
    (Analysis.log_posterior order a
      (write_parameters a.parameter_descriptions initial_guess h)).result =
        Except.ok (-initial_minimum) ∧
    (gsl.fval (Implementation.minimizer_result order gsl a initial_guess options h).minim
        < initial_minimum →
      (Analysis.optimize order gsl a initial_guess options h).result =
        Except.ok
          (read_parameters_at_mode initial_guess
            (gsl.x (Implementation.minimizer_result order gsl a initial_guess options h).minim),
          -(gsl.fval (Implementation.minimizer_result order gsl a initial_guess options
            h).minim))) ∧
    (∀ v p, (Analysis.optimize order gsl a initial_guess options h).result = Except.ok (v, p) →
      v ≠ initial_guess →
      gsl.fval (Implementation.minimizer_result order gsl a initial_guess options h).minim
        < initial_minimum) :=
  optimize_cases order gsl a initial_guess options h initial_minimum hlen hfirst

/-- Witness of C17: the minimizer that stays at the starting point (0, 0) of the analysis
with flat priors over "A" and "B" does not reach a lower value, and `optimize` returns
the starting point with the log-posterior 0. -/
theorem optimize_falls_back_to_initial_guess_witness :
    (Analysis.optimize OperandOrder.left_first
      stalling_minimizer analysis_with_A_B [0, 0] example_options
      example_heap).result = Except.ok ([0, 0], -0) :=
  (optimize_falls_back_to_initial_guess OperandOrder.left_first
    stalling_minimizer analysis_with_A_B [0, 0]
    example_options example_heap 0 (by decide) (by rfl)).1
    (by
      unfold Implementation.minimizer_result Implementation.run_minimizer
      rw [optimize_loop]
      decide)

theorem write_parameters_trace {R : Type} (ds : List (ParameterDescription R))
    (vs : List R) (h : Heap R) (hlen : vs.length = ds.length) :
    (write_parameters ds vs h).trace =
      h.trace ++ ds.map (fun d => Event.parameter_written d.parameter) := by
  induction ds generalizing vs h with
  | nil =>
    cases vs with
    | nil => simp [write_parameters]
    | cons v rest => simp at hlen
  | cons d ds ih =>
    cases vs with
    | nil => simp at hlen
    | cons v rest =>
      simp only [write_parameters]
      rw [ih rest _ (by simpa using hlen)]
      simp [Heap.write]

theorem write_parameters_other {R : Type} (ds : List (ParameterDescription R))
    (vs : List R) (h : Heap R) (p : Parameter) (hp : p ∉ ds.map (fun d => d.parameter)) :
    (write_parameters ds vs h).values p.space p.name = h.values p.space p.name := by
  induction ds generalizing vs h with
  | nil => cases vs <;> rfl
  | cons d ds ih =>
    cases vs with
    | nil => rfl
    | cons v rest =>
      simp only [List.map_cons, List.mem_cons, not_or] at hp
      simp only [write_parameters]
      rw [ih rest _ hp.2]
      have hne : ¬ (p.space = d.parameter.space ∧ p.name = d.parameter.name) := by
        rintro ⟨h1, h2⟩
        apply hp.1
        cases p
        cases hd : d.parameter
        rw [hd] at h1 h2
        simp only at h1 h2
        rw [h1, h2]
      simp [Heap.write, hne]

theorem write_parameters_value {R : Type} (ds : List (ParameterDescription R))
    (vs : List R) (h : Heap R) (hnd : (ds.map (fun d => d.parameter)).Nodup)
    (i : Nat) (d : ParameterDescription R) (v : R) (hd : ds[i]? = some d)
    (hv : vs[i]? = some v) :
    (write_parameters ds vs h).values d.parameter.space d.parameter.name = v := by
  induction ds generalizing vs h i with
  | nil => simp at hd
  | cons d0 ds ih =>
    cases vs with
    | nil => simp at hv
    | cons v0 rest =>
      simp only [List.map_cons, List.nodup_cons] at hnd
      simp only [write_parameters]
      cases i with
      | zero =>
        simp only [List.getElem?_cons_zero, Option.some.injEq] at hd hv
        subst hd
        subst hv
        rw [write_parameters_other ds rest _ d0.parameter hnd.1]
        simp [Heap.write]
      | succ j =>
        simp only [List.getElem?_cons_succ] at hd hv
        exact ih rest _ hnd.2 j hd hv

theorem degrees_of_freedom_of_le {R : Type} (imp : Implementation R)
    (hle : imp.parameter_descriptions.length ≤ imp.log_likelihood.number_of_observations) :
    imp.degrees_of_freedom =
      imp.log_likelihood.number_of_observations - imp.parameter_descriptions.length := by
  have hN : imp.log_likelihood.number_of_observations < 4294967296 := by
    unfold LogLikelihood.number_of_observations
    omega
  unfold Implementation.degrees_of_freedom
  omega

theorem goodness_of_fit_of_length {R : Type} (gsl : ChiSquare R) (a : Implementation R)
    (parameter_values : List R) (simulated_datasets : Nat) (h : Heap R)
    (hlen : parameter_values.length = a.parameter_descriptions.length) :
    a.goodness_of_fit gsl parameter_values simulated_datasets h =
      { result := Except.ok
          ((a.log_likelihood.bootstrap simulated_datasets
              ((write_parameters a.parameter_descriptions parameter_values h).values
                a.log_likelihood.parameters)).1,
            gsl.gsl_cdf_chisq_Q
              (gsl.gsl_cdf_chisq_Qinv
                (a.log_likelihood.bootstrap simulated_datasets
                  ((write_parameters a.parameter_descriptions parameter_values h).values
                    a.log_likelihood.parameters)).1
                a.log_likelihood.number_of_observations)
              a.degrees_of_freedom)
        imp := a
        heap :=
          { values := (write_parameters a.parameter_descriptions parameter_values h).values
            trace := (write_parameters a.parameter_descriptions parameter_values h).trace ++
              [Event.likelihood_evaluated,
                Event.likelihood_bootstrapped simulated_datasets] } } := by
  unfold Implementation.goodness_of_fit
  rw [if_neg (not_not.2 hlen.symm)]
  simp [Implementation.call_log_likelihood, LogLikelihood.bootstrap_p_value, Heap.record]

/-- Claim C19, refuted as stated: the analysis with the parameters "A" and "B" and one
observation has N = 1 and k = 2, and for the values (5, 7) and 10 datasets
`goodness_of_fit` returns the empirical p-value 15 and Q(Qinv(15, 1), 4294967295): the
degrees of freedom it passes are 4294967295, which is not N - k = -1, and is not the
difference 0 of the natural numbers either. -/
theorem goodness_of_fit_with_more_parameters_than_observations :
    underdetermined_analysis.log_likelihood.number_of_observations = 1 ∧
    underdetermined_analysis.parameter_descriptions.length = 2 ∧
    (Analysis.goodness_of_fit example_chi_square underdetermined_analysis [5, 7] 10
      example_heap).result =
      Except.ok (15, example_chi_square.gsl_cdf_chisq_Q
        (example_chi_square.gsl_cdf_chisq_Qinv 15 1) 4294967295) ∧
    ((4294967295 : Nat) : Int) ≠
      (underdetermined_analysis.log_likelihood.number_of_observations : Int)
        - (underdetermined_analysis.parameter_descriptions.length : Int) ∧
    (Analysis.goodness_of_fit example_chi_square underdetermined_analysis [5, 7] 10
      example_heap).result ≠
      Except.ok (15, example_chi_square.gsl_cdf_chisq_Q
        (example_chi_square.gsl_cdf_chisq_Qinv 15 1)
        (underdetermined_analysis.log_likelihood.number_of_observations
          - underdetermined_analysis.parameter_descriptions.length)) := by
  have hr : (Analysis.goodness_of_fit example_chi_square underdetermined_analysis [5, 7] 10
      example_heap).result = Except.ok (15, 4294967309) := by rfl
  refine ⟨by decide, by decide, hr, by decide, ?_⟩
  rw [hr]
  intro hc
  exact absurd (Except.ok.inj hc) (by decide)

/-- Claim C19, amended: for a vector of the size of `parameter_descriptions`,
`goodness_of_fit` writes the parameters of the descriptions in their order, then
evaluates the likelihood once, then calls its bootstrap with `n`, and nothing else; the
heap holds the values that the writes leave, which is the i-th value for the parameter of
the i-th description when the parameters are distinct.  It returns the pair of the first
component of what the bootstrap returned and of Q(Qinv(that, N), dof), with N the number
of observations and dof the value of the `unsigned` difference of N and the size k: dof
is (N - k) modulo 2^32, which is N - k when k is at most N. -/
theorem goodness_of_fit_steps {R : Type} (gsl : ChiSquare R) (a : Analysis R)
    (parameter_values : List R) (n : Nat) (h : Heap R)
    (hlen : parameter_values.length = a.parameter_descriptions.length) :
    (Analysis.goodness_of_fit gsl a parameter_values n h).result =
      Except.ok
        ((a.log_likelihood.bootstrap n
            ((write_parameters a.parameter_descriptions parameter_values h).values
              a.log_likelihood.parameters)).1,
          gsl.gsl_cdf_chisq_Q
            (gsl.gsl_cdf_chisq_Qinv
              (a.log_likelihood.bootstrap n
                ((write_parameters a.parameter_descriptions parameter_values h).values
                  a.log_likelihood.parameters)).1
              a.log_likelihood.number_of_observations)
            (Implementation.degrees_of_freedom a)) ∧
    ((Implementation.degrees_of_freedom a : Nat) : Int) =
      ((a.log_likelihood.number_of_observations : Int)
        - (a.parameter_descriptions.length : Int)) % 4294967296 ∧
    (a.parameter_descriptions.length ≤ a.log_likelihood.number_of_observations →
      ((Implementation.degrees_of_freedom a : Nat) : Int) =
        (a.log_likelihood.number_of_observations : Int)
          - (a.parameter_descriptions.length : Int) ∧
      Implementation.degrees_of_freedom a =
        a.log_likelihood.number_of_observations - a.parameter_descriptions.length) ∧
    (Analysis.goodness_of_fit gsl a parameter_values n h).heap.trace =
      h.trace ++ a.parameter_descriptions.map (fun d => Event.parameter_written d.parameter)
        ++ [Event.likelihood_evaluated, Event.likelihood_bootstrapped n] ∧
    (Analysis.goodness_of_fit gsl a parameter_values n h).heap.values =
      (write_parameters a.parameter_descriptions parameter_values h).values ∧
    ((a.parameter_descriptions.map (fun d => d.parameter)).Nodup →
      ∀ (i : Nat) (d : ParameterDescription R) (v : R),
        a.parameter_descriptions[i]? = some d → parameter_values[i]? = some v →
        (Analysis.goodness_of_fit gsl a parameter_values n h).heap.values
          d.parameter.space d.parameter.name = v) ∧
    (Analysis.goodness_of_fit gsl a parameter_values n h).imp = a := by
  have hg := goodness_of_fit_of_length gsl a parameter_values n h hlen
  have hg1 : Analysis.goodness_of_fit gsl a parameter_values n h = _ := hg
  rw [hg1]
  refine ⟨rfl, ?_, ?_, ?_, rfl, ?_, rfl⟩
  · unfold Implementation.degrees_of_freedom
    omega
  · intro hle
    have hd := degrees_of_freedom_of_le a hle
    exact ⟨by omega, hd⟩
  · show (write_parameters a.parameter_descriptions parameter_values h).trace ++ _ = _
    rw [write_parameters_trace _ _ _ hlen]
  · intro hnd i d v hd hv
    exact write_parameters_value _ _ h hnd i d v hd hv

/-- Witness of C19: the values (5, 7) for the analysis with the parameters "A" and "B",
with 10 datasets: the bootstrap of the example returns 5 + 10, there are 2 observations
and 0 degrees of freedom. -/
theorem goodness_of_fit_steps_witness :
    (Analysis.goodness_of_fit example_chi_square analysis_with_A_B [5, 7] 10
      example_heap).result =
      Except.ok (15, example_chi_square.gsl_cdf_chisq_Q
        (example_chi_square.gsl_cdf_chisq_Qinv 15 2) 0) ∧
    (Analysis.goodness_of_fit example_chi_square analysis_with_A_B [5, 7] 10
      example_heap).heap.trace =
      [Event.parameter_written { space := 0, name := "A" },
        Event.parameter_written { space := 0, name := "B" },
        Event.likelihood_evaluated, Event.likelihood_bootstrapped 10] :=
  have h := goodness_of_fit_steps example_chi_square analysis_with_A_B [5, 7] 10
    example_heap (by decide)
  ⟨h.1, h.2.2.2.1⟩

/-- Claim C20: for a vector of the size of `parameter_descriptions`: when the number of
observations equals that size, the degrees of freedom that `goodness_of_fit` computes and
passes to the upper-tail chi-square probability are 0; when the number of observations is
at least that size, they are the number of observations less the size. -/
theorem goodness_of_fit_degrees_of_freedom {R : Type} (gsl : ChiSquare R) (a : Analysis R)
    (parameter_values : List R) (n : Nat) (h : Heap R)
    (hlen : parameter_values.length = a.parameter_descriptions.length) :
    (a.log_likelihood.number_of_observations = a.parameter_descriptions.length →
      Implementation.degrees_of_freedom a = 0 ∧
      ∃ p, (Analysis.goodness_of_fit gsl a parameter_values n h).result =
        Except.ok (p, gsl.gsl_cdf_chisq_Q
          (gsl.gsl_cdf_chisq_Qinv p a.log_likelihood.number_of_observations) 0)) ∧
    (a.parameter_descriptions.length ≤ a.log_likelihood.number_of_observations →
      Implementation.degrees_of_freedom a =
        a.log_likelihood.number_of_observations - a.parameter_descriptions.length ∧
      ∃ p, (Analysis.goodness_of_fit gsl a parameter_values n h).result =
        Except.ok (p, gsl.gsl_cdf_chisq_Q
          (gsl.gsl_cdf_chisq_Qinv p a.log_likelihood.number_of_observations)
          (a.log_likelihood.number_of_observations - a.parameter_descriptions.length))) := by
  have hg := goodness_of_fit_of_length gsl a parameter_values n h hlen
  have hg1 : Analysis.goodness_of_fit gsl a parameter_values n h = _ := hg
  have hle : a.parameter_descriptions.length ≤ a.log_likelihood.number_of_observations →
      Implementation.degrees_of_freedom a =
        a.log_likelihood.number_of_observations - a.parameter_descriptions.length ∧
      ∃ p, (Analysis.goodness_of_fit gsl a parameter_values n h).result =
        Except.ok (p, gsl.gsl_cdf_chisq_Q
          (gsl.gsl_cdf_chisq_Qinv p a.log_likelihood.number_of_observations)
          (a.log_likelihood.number_of_observations - a.parameter_descriptions.length)) := by
    intro hk
    have hd := degrees_of_freedom_of_le a hk
    refine ⟨hd, (a.log_likelihood.bootstrap n
      ((write_parameters a.parameter_descriptions parameter_values h).values
        a.log_likelihood.parameters)).1, ?_⟩
    rw [hg1, ← hd]
  refine ⟨?_, hle⟩
  intro heq
  obtain ⟨hd, p, hp⟩ := hle (le_of_eq heq.symm)
  rw [heq, Nat.sub_self] at hd
  refine ⟨hd, p, ?_⟩
  rw [hp]
  congr 4
  rw [heq, Nat.sub_self]

/-- Witness of C20: the analysis with the parameters "A" and "B" and the likelihood with
two observations. -/
theorem goodness_of_fit_degrees_of_freedom_witness :
    Implementation.degrees_of_freedom analysis_with_A_B = 0 ∧
    ∃ p, (Analysis.goodness_of_fit example_chi_square analysis_with_A_B [5, 7] 10
      example_heap).result =
      Except.ok (p, example_chi_square.gsl_cdf_chisq_Q
        (example_chi_square.gsl_cdf_chisq_Qinv p
          analysis_with_A_B.log_likelihood.number_of_observations) 0) :=
  (goodness_of_fit_degrees_of_freedom example_chi_square analysis_with_A_B [5, 7] 10
    example_heap (by decide)).1 (by decide)

/-! ## The documented result of `index` -/

/-- Claim C26, evaluated at the failing input: on the analysis that holds only "B",
`index("A")` does not return the size of `parameter_descriptions`, which is 1: it throws
the no-such-parameter error. -/
theorem index_of_unknown_name_throws :
    (∀ d ∈ analysis_with_B.parameter_descriptions, d.parameter.name ≠ "A") ∧
    analysis_with_B.parameter_descriptions.length = 1 ∧
    (Implementation.index analysis_with_B "A" example_heap).result =
      Except.error (no_such_parameter_error "A") ∧
    (Implementation.index analysis_with_B "A" example_heap).result ≠
      Except.ok analysis_with_B.parameter_descriptions.length := by
  have hn : ∀ d ∈ analysis_with_B.parameter_descriptions, d.parameter.name ≠ "A" := by
    decide
  have hi := (index_loop_none_iff "A" analysis_with_B.parameter_descriptions 0).2 hn
  have he : (Implementation.index analysis_with_B "A" example_heap).result =
      Except.error (no_such_parameter_error "A") := by
    unfold Implementation.index
    rw [hi]
  refine ⟨hn, by decide, he, ?_⟩
  rw [he]
  exact fun hc => Except.noConfusion hc

/-! ## Degrees of freedom in `unsigned` arithmetic -/

/-- Claim C27: with N the number of observations and k the size of
`parameter_descriptions`, the degrees of freedom of `goodness_of_fit` are (N - k) modulo
2^32, a natural number below 2^32; when k exceeds N (by at most 2^32) they are
2^32 - (k - N); and for a vector of the size k, `goodness_of_fit` returns a pair computed
with these degrees of freedom, whatever N and k are: it throws no error. -/
theorem degrees_of_freedom_wrap {R : Type} (a : Analysis R) :
    ((Implementation.degrees_of_freedom a : Nat) : Int) =
      ((a.log_likelihood.number_of_observations : Int)
        - (a.parameter_descriptions.length : Int)) % 4294967296 ∧
    Implementation.degrees_of_freedom a < 4294967296 ∧
    (a.log_likelihood.number_of_observations < a.parameter_descriptions.length →
      a.parameter_descriptions.length ≤ a.log_likelihood.number_of_observations + 4294967296 →
      ((Implementation.degrees_of_freedom a : Nat) : Int) =
        4294967296 - ((a.parameter_descriptions.length : Int)
          - (a.log_likelihood.number_of_observations : Int))) ∧
    (∀ (gsl : ChiSquare R) (parameter_values : List R) (n : Nat) (h : Heap R),
      parameter_values.length = a.parameter_descriptions.length →
      ∃ p, (Analysis.goodness_of_fit gsl a parameter_values n h).result =
        Except.ok (p, gsl.gsl_cdf_chisq_Q
          (gsl.gsl_cdf_chisq_Qinv p a.log_likelihood.number_of_observations)
          (Implementation.degrees_of_freedom a))) := by
  refine ⟨?_, ?_, ?_, ?_⟩
  · unfold Implementation.degrees_of_freedom
    omega
  · unfold Implementation.degrees_of_freedom
    omega
  · intro h1 h2
    unfold Implementation.degrees_of_freedom
    omega
  · intro gsl parameter_values n h hlen
    have hg : Analysis.goodness_of_fit gsl a parameter_values n h = _ :=
      goodness_of_fit_of_length gsl a parameter_values n h hlen
    exact ⟨_, by rw [hg]⟩

/-- Witness of C27: two parameters and one observation give 2^32 - 1 degrees of freedom,
and `goodness_of_fit` returns. -/
theorem degrees_of_freedom_wrap_witness :
    Implementation.degrees_of_freedom
      (Analysis.add_all (Analysis.init small_likelihood)
        [(flat_prior 0 "A" 0 1, false), (flat_prior 0 "B" 0 1, false)]) = 4294967295 ∧
    ∃ p, (Analysis.goodness_of_fit example_chi_square
      (Analysis.add_all (Analysis.init small_likelihood)
        [(flat_prior 0 "A" 0 1, false), (flat_prior 0 "B" 0 1, false)]) [5, 7] 10
      example_heap).result =
      Except.ok (p, example_chi_square.gsl_cdf_chisq_Q
        (example_chi_square.gsl_cdf_chisq_Qinv p 1) 4294967295) :=
  have h := degrees_of_freedom_wrap
    (Analysis.add_all (Analysis.init small_likelihood)
      [(flat_prior 0 "A" 0 1, false), (flat_prior 0 "B" 0 1, false)])
  ⟨by decide, h.2.2.2 example_chi_square [5, 7] 10 example_heap (by decide)⟩

/-! ## The `Parameters` object behind the registered descriptions -/

/-- Claim C25, evaluated at the failing input: a prior over "B" that is bound to the
`Parameters` object 1 is registered on an analysis whose own object, shared with the
likelihood, is 0.  `add` succeeds; the registered clone is bound to the object 0, but the
appended description refers to "B" of the object 1.  The objective then writes its
argument 7 to "B" of the object 1 and leaves "B" of the object 0 at 0, which is what the
registered prior reads: the objective returns 0 and not -7, in either order of evaluation
of the operands of its sum. -/
theorem registered_description_keeps_foreign_space :
    (Analysis.add (Analysis.init example_likelihood) (value_prior 1 "B") false).value = true ∧
    (Analysis.add (Analysis.init example_likelihood) (value_prior 1 "B") false).imp.parameters
      = 0 ∧
    (Analysis.add (Analysis.init example_likelihood)
      (value_prior 1 "B") false).imp.log_likelihood.parameters = 0 ∧
    (Analysis.add (Analysis.init example_likelihood)
      (value_prior 1 "B") false).imp.priors.map (fun p => p.parameters) = [0] ∧
    (Analysis.add (Analysis.init example_likelihood)
      (value_prior 1 "B") false).imp.parameter_descriptions.map (fun d => d.parameter)
      = [{ space := 1, name := "B" }] ∧
    (Implementation.negative_log_posterior OperandOrder.left_first
      (Analysis.add (Analysis.init example_likelihood) (value_prior 1 "B") false).imp
      [7] example_heap).heap.values 1 "B" = 7 ∧
    (Implementation.negative_log_posterior OperandOrder.left_first
      (Analysis.add (Analysis.init example_likelihood) (value_prior 1 "B") false).imp
      [7] example_heap).heap.values 0 "B" = 0 ∧
    (Implementation.negative_log_posterior OperandOrder.left_first
      (Analysis.add (Analysis.init example_likelihood) (value_prior 1 "B") false).imp
      [7] example_heap).result = Except.ok 0 ∧
    (Implementation.negative_log_posterior OperandOrder.right_first
      (Analysis.add (Analysis.init example_likelihood) (value_prior 1 "B") false).imp
      [7] example_heap).heap.values 1 "B" = 7 ∧
    (Implementation.negative_log_posterior OperandOrder.right_first
      (Analysis.add (Analysis.init example_likelihood) (value_prior 1 "B") false).imp
      [7] example_heap).heap.values 0 "B" = 0 ∧
    (Implementation.negative_log_posterior OperandOrder.right_first
      (Analysis.add (Analysis.init example_likelihood) (value_prior 1 "B") false).imp
      [7] example_heap).result = Except.ok 0 := by
  refine ⟨by decide, by decide, by decide, by decide, by decide, by decide, by decide, ?_,
    by decide, by decide, ?_⟩
  · rfl
  · rfl

/-! ## Cloning -/

theorem add_parameter_loop_forall {R : Type} (P : ParameterDescription R → Prop)
    (nuisance : Bool) (ds : List (ParameterDescription R)) (names : Finset String)
    (descriptions : List (ParameterDescription R)) (hd : ∀ d ∈ descriptions, P d)
    (hp : ∀ d ∈ ds, P { d with nuisance := nuisance }) :
    ∀ d ∈ (add_parameter_loop nuisance ds names descriptions).parameter_descriptions,
      P d := by
  induction ds generalizing names descriptions with
  | nil => simpa [add_parameter_loop] using hd
  | cons d0 rest ih =>
    by_cases hn : d0.parameter.name ∈ names
    · simpa [add_parameter_loop, set_insert, hn] using hd
    · simp only [add_parameter_loop, set_insert, hn, not_false_eq_true, decide_True,
        Bool.true_eq_false, if_false]
      apply ih
      · intro d hdm
        rw [List.mem_append, List.mem_singleton] at hdm
        rcases hdm with hdm | hdm
        · exact hd d hdm
        · rw [hdm]
          exact hp d0 (List.mem_cons_self _ _)
      · exact fun d hdm => hp d (List.mem_cons_of_mem _ hdm)

theorem add_parameter_keeps_likelihood {R : Type} (imp : Implementation R)
    (prior : LogPrior R) (nuisance : Bool) :
    (imp.add_parameter prior nuisance).imp.parameters = imp.parameters ∧
      (imp.add_parameter prior nuisance).imp.log_likelihood = imp.log_likelihood := by
  unfold Implementation.add_parameter
  cases hc : (add_parameter_loop nuisance prior.descriptions imp.parameter_names
    imp.parameter_descriptions).completed <;> simp [hc]

theorem clone_loop_descriptions {R : Type} (default_nuisance : Bool) (fresh : Nat)
    (ps : List (LogPrior R)) (result : Analysis R) (hf : result.parameters = fresh)
    (hr : ∀ d ∈ result.parameter_descriptions,
      d.nuisance = default_nuisance ∧ d.parameter.space = fresh) :
    (clone_loop default_nuisance ps result).parameters = fresh ∧
      (clone_loop default_nuisance ps result).log_likelihood = result.log_likelihood ∧
      ∀ d ∈ (clone_loop default_nuisance ps result).parameter_descriptions,
        d.nuisance = default_nuisance ∧ d.parameter.space = fresh := by
  induction ps generalizing result with
  | nil => exact ⟨hf, rfl, hr⟩
  | cons p rest ih =>
    obtain ⟨k1, k2⟩ := add_parameter_keeps_likelihood result (p.clone result.parameters)
      default_nuisance
    have hstep : ∀ d ∈ (Analysis.add result (p.clone result.parameters)
        default_nuisance).imp.parameter_descriptions,
        d.nuisance = default_nuisance ∧ d.parameter.space = fresh := by
      show ∀ d ∈ (Implementation.add_parameter result (p.clone result.parameters)
        default_nuisance).imp.parameter_descriptions, _
      rw [add_parameter_descriptions_eq]
      apply add_parameter_loop_forall _ _ _ _ _ hr
      intro d hdm
      obtain ⟨d0, _, hd0⟩ := List.mem_map.1 hdm
      rw [← hd0]
      exact ⟨rfl, hf⟩
    obtain ⟨i1, i2, i3⟩ := ih (Analysis.add result (p.clone result.parameters)
      default_nuisance).imp (k1.trans hf) hstep
    exact ⟨i1, i2.trans k2, i3⟩

theorem clone_result {R : Type} (default_nuisance : Bool) (fresh : Nat)
    (imp : Implementation R) (h : Heap R) :
    (imp.clone default_nuisance fresh h).result.parameters = fresh ∧
      (imp.clone default_nuisance fresh h).result.log_likelihood.parameters = fresh ∧
      ∀ d ∈ (imp.clone default_nuisance fresh h).result.parameter_descriptions,
        d.nuisance = default_nuisance ∧ d.parameter.space = fresh := by
  obtain ⟨h1, h2, h3⟩ := clone_loop_descriptions default_nuisance fresh imp.priors
    (Analysis.init (imp.log_likelihood.clone fresh h).1) rfl
    (by simp [Analysis.init, Implementation.init])
  refine ⟨h1, ?_, h3⟩
  show (clone_loop default_nuisance imp.priors
    (Analysis.init (imp.log_likelihood.clone fresh h).1)).log_likelihood.parameters = fresh
  rw [h2]
  rfl

theorem nuisance_of_flag {R : Type} (imp : Implementation R) (name : String) (h : Heap R)
    (flag : Bool) (hex : ∃ d ∈ imp.parameter_descriptions, d.parameter.name = name)
    (hflag : ∀ d ∈ imp.parameter_descriptions, d.parameter.name = name → d.nuisance = flag) :
    (imp.nuisance name h).result = Except.ok flag := by
  cases hi : index_loop name imp.parameter_descriptions 0 with
  | none =>
    obtain ⟨d, hd, hdn⟩ := hex
    exact absurd hdn ((index_loop_none_iff _ _ _).1 hi d hd)
  | some i =>
    obtain ⟨d, hdi, hdn, _, hnu⟩ := nuisance_of_index imp name h i hi
    rw [hnu, hflag d (List.getElem?_mem hdi) hdn]

/-- Claim C28: `clone()` registers every prior through `add` with the default argument for
`nuisance`: every description of the clone carries that default flag, whatever flag the
name has in the original, and `nuisance(name)` on the clone returns the default for every
name the clone holds. -/
theorem clone_registers_with_default_flag {R : Type} (default_nuisance : Bool) (fresh : Nat)
    (a : Analysis R) (h : Heap R) :
    (∀ d ∈ (Analysis.clone default_nuisance fresh a h).result.parameter_descriptions,
      d.nuisance = default_nuisance) ∧
    (∀ (name : String) (h2 : Heap R),
      (∃ d ∈ (Analysis.clone default_nuisance fresh a h).result.parameter_descriptions,
        d.parameter.name = name) →
      (Analysis.nuisance (Analysis.clone default_nuisance fresh a h).result name h2).result
        = Except.ok default_nuisance) := by
  have hc := (clone_result default_nuisance fresh a h).2.2
  have hall : ∀ d ∈ (Analysis.clone default_nuisance fresh a h).result.parameter_descriptions,
      d.nuisance = default_nuisance := fun d hd => (hc d hd).1
  refine ⟨hall, ?_⟩
  intro name h2 hex
  exact nuisance_of_flag _ name h2 default_nuisance hex (fun d hd _ => hall d hd)

/-- Witness of C28: "A" is registered with the flag true; with the default false, the
original answers true for "A" and its clone answers false. -/
theorem clone_registers_with_default_flag_witness :
    (Analysis.nuisance
      (Analysis.add (Analysis.init example_likelihood) (flat_prior 0 "A" 0 1) true).imp
      "A" example_heap).result = Except.ok true ∧
    (Analysis.nuisance (Analysis.clone false 1
      (Analysis.add (Analysis.init example_likelihood) (flat_prior 0 "A" 0 1) true).imp
      example_heap).result "A" example_heap).result = Except.ok false :=
  ⟨nuisance_of_flag _ "A" example_heap true (by decide) (by decide),
    (clone_registers_with_default_flag false 1
      (Analysis.add (Analysis.init example_likelihood) (flat_prior 0 "A" 0 1) true).imp
      example_heap).2 "A" example_heap (by decide)⟩

theorem add_all_priors_nodup {R : Type} (a : Analysis R) (calls : List (LogPrior R × Bool))
    (h : ∀ p ∈ a.priors, p.names.Nodup) :
    ∀ p ∈ (Analysis.add_all a calls).priors, p.names.Nodup := by
  induction calls generalizing a with
  | nil => exact h
  | cons c rest ih =>
    apply ih
    intro p hp
    have hpriors := add_parameter_priors_eq a c.1 c.2
    have hp1 : p ∈ (Implementation.add_parameter a c.1 c.2).imp.priors := hp
    by_cases hv : (Implementation.add_parameter a c.1 c.2).value = true
    · rw [hpriors, if_pos hv, List.mem_append, List.mem_singleton] at hp1
      rcases hp1 with hp1 | hp1
      · exact h p hp1
      · rw [hp1, clone_names]
        exact ((add_parameter_true_iff a c.1 c.2).1 hv).2
    · rw [hpriors, if_neg hv] at hp1
      exact h p hp1

theorem clone_loop_replays {R : Type} (default_nuisance : Bool) (ps : List (LogPrior R))
    (result : Analysis R)
    (hr : result.parameter_names = (Implementation.names result).toFinset)
    (hnd : ∀ p ∈ ps, p.names.Nodup)
    (hpw : ps.Pairwise (fun p q => List.Disjoint p.names q.names))
    (hnew : ∀ p ∈ ps, ∀ n ∈ p.names, n ∉ result.parameter_names) :
    Implementation.names (clone_loop default_nuisance ps result) =
        Implementation.names result ++ (ps.map LogPrior.names).flatten ∧
      (clone_loop default_nuisance ps result).priors.length =
        result.priors.length + ps.length := by
  induction ps generalizing result with
  | nil => simp [clone_loop]
  | cons p rest ih =>
    obtain ⟨hp, hrest⟩ := List.pairwise_cons.1 hpw
    have hpn : (p.clone result.parameters).names = p.names := clone_names p _
    have hv : (Implementation.add_parameter result (p.clone result.parameters)
        default_nuisance).value = true := by
      rw [add_parameter_true_iff, hpn]
      exact ⟨hnew p (List.mem_cons_self _ _), hnd p (List.mem_cons_self _ _)⟩
    obtain ⟨s1, _, s3, s4⟩ := add_parameter_success result (p.clone result.parameters)
      default_nuisance hv
    have hnames : Implementation.names (Analysis.add result (p.clone result.parameters)
        default_nuisance).imp = Implementation.names result ++ p.names := by
      show List.map _ (Implementation.add_parameter result (p.clone result.parameters)
        default_nuisance).imp.parameter_descriptions = _
      rw [s1, List.map_append, List.map_map]
      show _ ++ (p.clone result.parameters).names = _
      rw [hpn]
      rfl
    have hset : (Analysis.add result (p.clone result.parameters)
        default_nuisance).imp.parameter_names =
        (Implementation.names (Analysis.add result (p.clone result.parameters)
          default_nuisance).imp).toFinset := by
      rw [hnames, List.toFinset_append, ← hr]
      show (Implementation.add_parameter result (p.clone result.parameters)
        default_nuisance).imp.parameter_names = _
      rw [s3, hpn]
    obtain ⟨i1, i2⟩ := ih (Analysis.add result (p.clone result.parameters)
        default_nuisance).imp hset
      (fun q hq => hnd q (List.mem_cons_of_mem _ hq)) hrest
      (by
        intro q hq n hn
        show n ∉ (Implementation.add_parameter result (p.clone result.parameters)
          default_nuisance).imp.parameter_names
        rw [s3, hpn, Finset.mem_union, List.mem_toFinset, not_or]
        exact ⟨hnew q (List.mem_cons_of_mem _ hq) n hn, fun hnp => hp q hq hnp hn⟩)
    constructor
    · show Implementation.names (clone_loop default_nuisance rest _) = _
      rw [i1, hnames, List.map_cons, List.flatten_cons, List.append_assoc]
    · have s4a : (Analysis.add result (p.clone result.parameters)
          default_nuisance).imp.priors.length = result.priors.length + 1 := by
        show (Implementation.add_parameter result (p.clone result.parameters)
          default_nuisance).imp.priors.length = _
        rw [s4, List.length_append, List.length_singleton]
      show (clone_loop default_nuisance rest _).priors.length = _
      rw [i2, s4a, List.length_cons]
      omega

/-- On an analysis built by `add` calls, `clone()` leaves the original as it was and
returns an analysis with as many priors, whose descriptions name the parameters that the
registered priors govern, prior by prior; these are the names of the original when every
description of the original belongs to a registered prior. -/
theorem clone_replays_registered_priors {R : Type} (l : LogLikelihood R)
    (calls : List (LogPrior R × Bool)) (default_nuisance : Bool) (fresh : Nat) (h : Heap R) :
    (Analysis.clone default_nuisance fresh (Analysis.add_all (Analysis.init l) calls)
      h).original = Analysis.add_all (Analysis.init l) calls ∧
    (Analysis.clone default_nuisance fresh (Analysis.add_all (Analysis.init l) calls)
      h).result.priors.length = (Analysis.add_all (Analysis.init l) calls).priors.length ∧
    Implementation.names (Analysis.clone default_nuisance fresh
      (Analysis.add_all (Analysis.init l) calls) h).result =
      ((Analysis.add_all (Analysis.init l) calls).priors.map LogPrior.names).flatten ∧
    (Implementation.names (Analysis.add_all (Analysis.init l) calls) =
        ((Analysis.add_all (Analysis.init l) calls).priors.map LogPrior.names).flatten →
      Implementation.names (Analysis.clone default_nuisance fresh
        (Analysis.add_all (Analysis.init l) calls) h).result =
        Implementation.names (Analysis.add_all (Analysis.init l) calls)) := by
  have hc := add_all_consistent (Analysis.init l) calls (init_consistent l)
  have hn := add_all_priors_nodup (Analysis.init l) calls
    (by simp [Analysis.init, Implementation.init])
  obtain ⟨r1, r2⟩ := clone_loop_replays default_nuisance
    (Analysis.add_all (Analysis.init l) calls).priors
    (Analysis.init ((Analysis.add_all (Analysis.init l) calls).log_likelihood.clone fresh h).1)
    (by simp [Analysis.init, Implementation.init, Implementation.names])
    hn hc.decoupled (by simp [Analysis.init, Implementation.init])
  have e1 : Implementation.names (Analysis.clone default_nuisance fresh
      (Analysis.add_all (Analysis.init l) calls) h).result =
      ((Analysis.add_all (Analysis.init l) calls).priors.map LogPrior.names).flatten := by
    show Implementation.names (clone_loop default_nuisance _ _) = _
    rw [r1]
    simp [Analysis.init, Implementation.init, Implementation.names]
  refine ⟨rfl, ?_, e1, fun hclean => by rw [e1, hclean]⟩
  show (clone_loop default_nuisance _ _).priors.length = _
  rw [r2]
  simp [Analysis.init, Implementation.init]

/-- Claim C21, evaluated at the failing input: the analysis on which a prior over "B" is
registered and a prior over "A" and "B" was refused holds the names "B", "A" and one
prior.  Its clone holds one prior as well, but only the name "B": `clone()` replays
`priors`, and no prior stands behind the description of "A" that the refused `add` left.
The original is unchanged. -/
theorem clone_drops_description_of_refused_prior :
    Implementation.names analysis_after_refusal = ["B", "A"] ∧
    analysis_after_refusal.priors.length = 1 ∧
    Implementation.names (Analysis.clone false 2 analysis_after_refusal example_heap).result
      = ["B"] ∧
    (Analysis.clone false 2 analysis_after_refusal example_heap).result.priors.length = 1 ∧
    (Analysis.clone false 2 analysis_after_refusal example_heap).original
      = analysis_after_refusal := by
  refine ⟨by decide, by decide, by decide, by decide, rfl⟩

theorem write_parameters_space {R : Type} (ds : List (ParameterDescription R))
    (vs : List R) (h : Heap R) (space : Nat) (name : String)
    (hs : ∀ d ∈ ds, d.parameter.space ≠ space) :
    (write_parameters ds vs h).values space name = h.values space name := by
  have hp : ({ space := space, name := name } : Parameter) ∉
      ds.map (fun d => d.parameter) := by
    intro hm
    obtain ⟨d, hd, hdp⟩ := List.mem_map.1 hm
    exact hs d hd (by rw [hdp])
  exact write_parameters_other ds vs h { space := space, name := name } hp

theorem negative_log_posterior_values {R : Type} [Zero R] [Add R] [Neg R]
    (order : OperandOrder) (a : Implementation R) (pars : List R) (h : Heap R) :
    (a.negative_log_posterior order pars h).heap.values =
      (write_parameters a.parameter_descriptions pars h).values := by
  by_cases he : a.priors = []
  · rw [negative_log_posterior_eq_of_empty order a pars h he]
    cases order <;> rfl
  · rw [negative_log_posterior_eq_of_priors order a pars h he]

theorem goodness_of_fit_values {R : Type} (gsl : ChiSquare R) (a : Implementation R)
    (parameter_values : List R) (n : Nat) (h : Heap R) (space : Nat) (name : String)
    (hs : ∀ d ∈ a.parameter_descriptions, d.parameter.space ≠ space) :
    (a.goodness_of_fit gsl parameter_values n h).heap.values space name =
      h.values space name := by
  by_cases hlen : parameter_values.length = a.parameter_descriptions.length
  · rw [goodness_of_fit_of_length gsl a parameter_values n h hlen]
    exact write_parameters_space _ _ h space name hs
  · unfold Implementation.goodness_of_fit
    rw [if_pos (fun e => hlen e.symm)]

/-- Claim C22: let the clone of the likelihood be bound to a `Parameters` object `fresh`
that is neither the object of the original analysis nor an object one of its descriptions
refers to.  Then the clone and its likelihood are bound to `fresh`, and cloning leaves
every value of every other object.  Every write through the clone (an assignment to a
parameter of its object, the writes of the optimizer's objective and of
`goodness_of_fit`) leaves every value of every object other than `fresh`, the object of
the original among them; and every such write through the original leaves every value of
`fresh`. -/
theorem clone_is_independent {R : Type} [Zero R] [Add R] [Neg R] (default_nuisance : Bool)
    (fresh : Nat) (a : Analysis R) (h : Heap R) (hfresh : fresh ≠ a.parameters)
    (hdesc : ∀ d ∈ a.parameter_descriptions, d.parameter.space ≠ fresh) :
    ((Analysis.clone default_nuisance fresh a h).result.parameters = fresh ∧
      (Analysis.clone default_nuisance fresh a h).result.log_likelihood.parameters = fresh) ∧
    (∀ (space : Nat) (name : String), space ≠ fresh →
      (Analysis.clone default_nuisance fresh a h).heap.values space name =
        h.values space name) ∧
    (∀ (h2 : Heap R) (space : Nat) (name : String), space ≠ fresh →
      (∀ (n : String) (v : R),
        (h2.write { space := (Analysis.clone default_nuisance fresh a h).result.parameters,
                    name := n } v).values space name = h2.values space name) ∧
      (∀ (order : OperandOrder) (vs : List R),
        (Implementation.negative_log_posterior order
          (Analysis.clone default_nuisance fresh a h).result vs h2).heap.values space name
          = h2.values space name) ∧
      (∀ (gsl : ChiSquare R) (vs : List R) (n : Nat),
        (Analysis.goodness_of_fit gsl
          (Analysis.clone default_nuisance fresh a h).result vs n h2).heap.values space name
          = h2.values space name)) ∧
    (∀ (h2 : Heap R) (name : String),
      (∀ (n : String) (v : R),
        (h2.write { space := a.parameters, name := n } v).values fresh name =
          h2.values fresh name) ∧
      (∀ (order : OperandOrder) (vs : List R),
        (Implementation.negative_log_posterior order a vs h2).heap.values fresh name =
          h2.values fresh name) ∧
      (∀ (gsl : ChiSquare R) (vs : List R) (n : Nat),
        (Analysis.goodness_of_fit gsl a vs n h2).heap.values fresh name =
          h2.values fresh name)) := by
  obtain ⟨c1, c2, c3⟩ := clone_result default_nuisance fresh a h
  have c1a : (Analysis.clone default_nuisance fresh a h).result.parameters = fresh := c1
  have hcd : ∀ space : Nat, space ≠ fresh →
      ∀ d ∈ (Analysis.clone default_nuisance fresh a h).result.parameter_descriptions,
        d.parameter.space ≠ space := by
    intro space hs d hd hds
    exact hs (hds ▸ (c3 d hd).2)
  refine ⟨⟨c1, c2⟩, ?_, ?_, ?_⟩
  · intro space name hs
    simp [Analysis.clone, Implementation.clone, LogLikelihood.clone, hs]
  · intro h2 space name hs
    refine ⟨?_, ?_, ?_⟩
    · intro n v
      rw [c1a]
      simp [Heap.write, hs]
    · intro order vs
      rw [negative_log_posterior_values]
      exact write_parameters_space _ _ h2 space name (hcd space hs)
    · intro gsl vs n
      exact goodness_of_fit_values gsl _ vs n h2 space name (hcd space hs)
  · intro h2 name
    refine ⟨?_, ?_, ?_⟩
    · intro n v
      simp [Heap.write, hfresh]
    · intro order vs
      rw [negative_log_posterior_values]
      exact write_parameters_space _ _ h2 fresh name hdesc
    · intro gsl vs n
      exact goodness_of_fit_values gsl a vs n h2 fresh name hdesc

/-- Witness of C22: the analysis with a prior over "A" on the object 0 is cloned to the
object 1; setting "A" to 7 on the clone leaves the value 0 of "A" on the object 0. -/
theorem clone_is_independent_witness :
    ((Analysis.clone false 1
        (Analysis.add (Analysis.init example_likelihood) (flat_prior 0 "A" 0 1) false).imp
        example_heap).heap.write
      { space := (Analysis.clone false 1
          (Analysis.add (Analysis.init example_likelihood) (flat_prior 0 "A" 0 1) false).imp
          example_heap).result.parameters, name := "A" } 7).values 0 "A" =
    (Analysis.clone false 1
        (Analysis.add (Analysis.init example_likelihood) (flat_prior 0 "A" 0 1) false).imp
        example_heap).heap.values 0 "A" :=
  ((clone_is_independent false 1
      (Analysis.add (Analysis.init example_likelihood) (flat_prior 0 "A" 0 1) false).imp
      example_heap (by decide) (by decide)).2.2.1 _ 0 "A" (by decide)).1 "A" 7

/-! ## The objective of the optimizer -/

theorem write_parameters_agree {R : Type} (ds : List (ParameterDescription R))
    (vs : List R) (h1 h2 : Heap R) (hlen : ds.length ≤ vs.length)
    (hv : ∀ (space : Nat) (name : String),
      ({ space := space, name := name } : Parameter) ∉ ds.map (fun d => d.parameter) →
      h1.values space name = h2.values space name) :
    (write_parameters ds vs h1).values = (write_parameters ds vs h2).values := by
  induction ds generalizing vs h1 h2 with
  | nil =>
    have hw : ∀ h : Heap R, write_parameters [] vs h = h := by
      intro h
      cases vs <;> rfl
    rw [hw, hw]
    funext space name
    exact hv space name (by simp)
  | cons d ds ih =>
    cases vs with
    | nil => simp at hlen
    | cons v rest =>
      simp only [write_parameters]
      apply ih rest _ _ (by simpa using hlen)
      intro space name hn
      by_cases hd : space = d.parameter.space ∧ name = d.parameter.name
      · simp [Heap.write, hd]
      · have hne : ({ space := space, name := name } : Parameter) ∉
            (d :: ds).map (fun d => d.parameter) := by
          simp only [List.map_cons, List.mem_cons, not_or]
          refine ⟨?_, hn⟩
          intro he
          apply hd
          rw [← he]
          exact ⟨rfl, rfl⟩
        simp [Heap.write, hd, hv space name hne]

theorem negative_log_posterior_closed {R : Type} [Zero R] [Add R] [Neg R]
    (order : OperandOrder) (a : Implementation R) (pars : List R) (h : Heap R)
    (hne : a.priors ≠ []) :
    (a.negative_log_posterior order pars h).result =
      Except.ok (-((a.priors.map (fun p => p.density
          ((write_parameters a.parameter_descriptions pars h).values p.parameters))).foldl
            (fun s y => s + y) 0 +
        a.log_likelihood.density
          ((write_parameters a.parameter_descriptions pars h).values
            a.log_likelihood.parameters))) ∧
    (a.negative_log_posterior order pars h).heap.trace =
      (write_parameters a.parameter_descriptions pars h).trace ++
        evaluation_events order a.priors.length := by
  obtain ⟨l1, _, _⟩ :=
    log_prior_loop_eq a.priors 0 (write_parameters a.parameter_descriptions pars h)
  rw [negative_log_posterior_eq_of_priors order a pars h hne]
  constructor
  · show Except.ok (-(_ + _)) = _
    rw [l1]
    rfl
  · rfl

theorem negative_log_posterior_of_values {R : Type} [Zero R] [Add R] [Neg R]
    (order : OperandOrder) (a : Implementation R) (pars : List R) (h1 h2 : Heap R)
    (hv : (write_parameters a.parameter_descriptions pars h1).values =
      (write_parameters a.parameter_descriptions pars h2).values) :
    (a.negative_log_posterior order pars h1).result =
      (a.negative_log_posterior order pars h2).result := by
  by_cases he : a.priors = []
  · rw [negative_log_posterior_of_empty order a pars h1 he,
      negative_log_posterior_of_empty order a pars h2 he]
  · rw [(negative_log_posterior_closed order a pars h1 he).1,
      (negative_log_posterior_closed order a pars h2 he).1, hv]

theorem negative_log_posterior_after_writes {R : Type} [Zero R] [Add R] [Neg R]
    (order : OperandOrder) (a : Implementation R) (pars : List R) (h : Heap R) :
    (a.negative_log_posterior order pars h).heap =
        (Analysis.log_posterior order a
          (write_parameters a.parameter_descriptions pars h)).heap ∧
      (a.negative_log_posterior order pars h).result =
        Except.map (fun lp => -lp)
          (Analysis.log_posterior order a
            (write_parameters a.parameter_descriptions pars h)).result := by
  unfold Implementation.negative_log_posterior Analysis.log_posterior
  simp only []
  cases (Implementation.log_prior_plus_log_likelihood order a
    (write_parameters a.parameter_descriptions pars h)).result <;> exact ⟨rfl, rfl⟩

theorem evaluation_events_mem (order : OperandOrder) (priors : Nat) :
    ∀ e ∈ evaluation_events order priors,
      e = Event.prior_evaluated ∨ e = Event.likelihood_evaluated := by
  intro e he
  cases order
  · simp only [evaluation_events, List.mem_append, List.mem_replicate,
      List.mem_singleton] at he
    rcases he with he | he
    · exact Or.inl he.2
    · exact Or.inr he
  · simp only [evaluation_events, List.mem_cons, List.mem_replicate] at he
    rcases he with he | he
    · exact Or.inr he
    · exact Or.inl he.2

/-- Claim C23 as stated fails.  On the analysis that holds only "B", whose likelihood
reads "A", the objective at the vector (3) returns 0 in the heap where "A" is 0 and -5 in
the heap where "A" is 5: its value depends on a value held before the call.  And on the
analysis that refused a prior over "A" and "A", which holds the description of "A" and no
prior, the objective at the vector (3) writes 3 to "A" and then throws the
undefined-prior error: it returns no value.  Both in either order of evaluation of the
operands of the sum. -/
theorem objective_depends_on_unregistered_parameter :
    ([3] : List Int).length =
      (Analysis.add_all (Analysis.init example_likelihood)
        [(flat_prior 0 "B" 0 1, false)]).parameter_descriptions.length ∧
    ((Implementation.negative_log_posterior OperandOrder.left_first
      (Analysis.add_all (Analysis.init example_likelihood) [(flat_prior 0 "B" 0 1, false)])
      [3] example_heap).result = Except.ok 0 ∧
    (Implementation.negative_log_posterior OperandOrder.left_first
      (Analysis.add_all (Analysis.init example_likelihood) [(flat_prior 0 "B" 0 1, false)])
      [3] other_heap).result = Except.ok (-5)) ∧
    ((Implementation.negative_log_posterior OperandOrder.right_first
      (Analysis.add_all (Analysis.init example_likelihood) [(flat_prior 0 "B" 0 1, false)])
      [3] example_heap).result = Except.ok 0 ∧
    (Implementation.negative_log_posterior OperandOrder.right_first
      (Analysis.add_all (Analysis.init example_likelihood) [(flat_prior 0 "B" 0 1, false)])
      [3] other_heap).result = Except.ok (-5)) ∧
    (Analysis.add (Analysis.init example_likelihood) (pair_prior 0 "A" "A") false).value
      = false ∧
    ([3] : List Int).length =
      (Analysis.add (Analysis.init example_likelihood)
        (pair_prior 0 "A" "A") false).imp.parameter_descriptions.length ∧
    (Implementation.negative_log_posterior OperandOrder.left_first
      (Analysis.add (Analysis.init example_likelihood) (pair_prior 0 "A" "A") false).imp
      [3] example_heap).result = Except.error undefined_prior_error ∧
    (Implementation.negative_log_posterior OperandOrder.right_first
      (Analysis.add (Analysis.init example_likelihood) (pair_prior 0 "A" "A") false).imp
      [3] example_heap).result = Except.error undefined_prior_error ∧
    (Implementation.negative_log_posterior OperandOrder.left_first
      (Analysis.add (Analysis.init example_likelihood) (pair_prior 0 "A" "A") false).imp
      [3] example_heap).heap.values 0 "A" = 3 := by
  refine ⟨by decide, ⟨?_, ?_⟩, ⟨?_, ?_⟩, by decide, by decide, ?_, ?_, by decide⟩ <;> rfl

/-- Claim C23, amended: for a vector v of the size of `parameter_descriptions` and in
either order of evaluation of the operands of `log_prior() + log_likelihood()`: the
objective writes the parameters of the descriptions in their order and only then
evaluates `log_posterior()`, that is, the sum: its heap is the heap `log_posterior()`
leaves when called after the writes, in which the writes are followed by evaluations of
priors and of the likelihood only (with a prior registered: every prior once and the
likelihood once, in the order of the operands), and which holds the values the writes
leave, v[i] for the parameter of the i-th description when the parameters are distinct.
Its result is that of `log_posterior()` after the writes with the value negated: with a
prior registered it returns the negated sum, with no prior it throws the undefined-prior
error.  The result is the same in two heaps that agree on every parameter that no
description refers to: it depends on v and on those parameters only. -/
theorem objective_writes_then_evaluates {R : Type} [Zero R] [Add R] [Neg R]
    (order : OperandOrder) (a : Implementation R) (v : List R) (h : Heap R)
    (hlen : v.length = a.parameter_descriptions.length) :
    (write_parameters a.parameter_descriptions v h).trace =
      h.trace ++
        a.parameter_descriptions.map (fun d => Event.parameter_written d.parameter) ∧
    (a.negative_log_posterior order v h).heap =
      (Analysis.log_posterior order a (write_parameters a.parameter_descriptions v h)).heap ∧
    (∃ evaluations : List Event,
      (a.negative_log_posterior order v h).heap.trace =
        h.trace ++
          a.parameter_descriptions.map (fun d => Event.parameter_written d.parameter) ++
          evaluations ∧
      (∀ e ∈ evaluations, e = Event.prior_evaluated ∨ e = Event.likelihood_evaluated) ∧
      (a.priors ≠ [] → evaluations = evaluation_events order a.priors.length)) ∧
    ((a.parameter_descriptions.map (fun d => d.parameter)).Nodup →
      ∀ (i : Nat) (d : ParameterDescription R) (x : R),
        a.parameter_descriptions[i]? = some d → v[i]? = some x →
        (a.negative_log_posterior order v h).heap.values
          d.parameter.space d.parameter.name = x) ∧
    (a.negative_log_posterior order v h).result =
      Except.map (fun lp => -lp)
        (Analysis.log_posterior order a
          (write_parameters a.parameter_descriptions v h)).result ∧
    (a.priors ≠ [] → ∃ lp : R,
      (Analysis.log_posterior order a
        (write_parameters a.parameter_descriptions v h)).result = Except.ok lp ∧
      (a.negative_log_posterior order v h).result = Except.ok (-lp)) ∧
    (a.priors = [] →
      (a.negative_log_posterior order v h).result = Except.error undefined_prior_error) ∧
    (∀ h2 : Heap R,
      (∀ (space : Nat) (name : String),
        ({ space := space, name := name } : Parameter) ∉
          a.parameter_descriptions.map (fun d => d.parameter) →
        h2.values space name = h.values space name) →
      (a.negative_log_posterior order v h2).result =
        (a.negative_log_posterior order v h).result) := by
  refine ⟨write_parameters_trace _ _ _ hlen,
    (negative_log_posterior_after_writes order a v h).1, ?_, ?_,
    (negative_log_posterior_after_writes order a v h).2,
    negative_log_posterior_of_priors order a v h,
    negative_log_posterior_of_empty order a v h, ?_⟩
  · by_cases he : a.priors = []
    · rw [negative_log_posterior_eq_of_empty order a v h he]
      cases order
      · refine ⟨[], ?_, ?_, fun hne => absurd he hne⟩
        · show (write_parameters a.parameter_descriptions v h).trace = _
          rw [write_parameters_trace _ _ _ hlen, List.append_nil]
        · intro e hm
          exact absurd hm (List.not_mem_nil e)
      · refine ⟨[Event.likelihood_evaluated], ?_, ?_, fun hne => absurd he hne⟩
        · show (write_parameters a.parameter_descriptions v h).trace ++ _ = _
          rw [write_parameters_trace _ _ _ hlen]
        · intro e hm
          exact Or.inr (List.mem_singleton.1 hm)
    · refine ⟨evaluation_events order a.priors.length, ?_,
        evaluation_events_mem order _, fun _ => rfl⟩
      rw [(negative_log_posterior_closed order a v h he).2,
        write_parameters_trace _ _ _ hlen]
  · intro hnd i d x hd hx
    rw [negative_log_posterior_values]
    exact write_parameters_value _ _ h hnd i d x hd hx
  · intro h2 hv
    exact negative_log_posterior_of_values order a v h2 h
      (write_parameters_agree _ _ h2 h (le_of_eq hlen.symm) hv)

/-- Witness of the amended C23: the analysis with flat priors over "A" and "B" at the
vector (3, 4), the right operand evaluated first: the objective writes "A" and "B", then
evaluates the likelihood and the two priors, and its result is the same in a heap that
differs in "A" and "B" only. -/
theorem objective_writes_then_evaluates_witness :
    (∃ evaluations : List Event,
      (Implementation.negative_log_posterior OperandOrder.right_first analysis_with_A_B
        [3, 4] example_heap).heap.trace =
        example_heap.trace ++
          analysis_with_A_B.parameter_descriptions.map
            (fun d => Event.parameter_written d.parameter) ++ evaluations ∧
      (∀ e ∈ evaluations, e = Event.prior_evaluated ∨ e = Event.likelihood_evaluated) ∧
      (analysis_with_A_B.priors ≠ [] → evaluations =
        evaluation_events OperandOrder.right_first analysis_with_A_B.priors.length)) ∧
    (Implementation.negative_log_posterior OperandOrder.right_first analysis_with_A_B
      [3, 4] prepared_heap).result =
      (Implementation.negative_log_posterior OperandOrder.right_first analysis_with_A_B
        [3, 4] example_heap).result :=
  have h := objective_writes_then_evaluates OperandOrder.right_first analysis_with_A_B
    [3, 4] example_heap (by decide)
  ⟨h.2.2.1, h.2.2.2.2.2.2.2 prepared_heap (by
    intro space name hn
    have hd : analysis_with_A_B.parameter_descriptions.map (fun d => d.parameter) =
        [{ space := 0, name := "A" }, { space := 0, name := "B" }] := by decide
    rw [hd] at hn
    simp only [List.mem_cons, Parameter.mk.injEq, List.mem_singleton, List.not_mem_nil,
      or_false, not_or, not_and] at hn
    show (if space = 0 ∧ (name = "A" ∨ name = "B") then (5 : Int) else 0) = 0
    rw [if_neg]
    rintro ⟨h0, hA | hB⟩
    · exact hn.1 h0 hA
    · exact hn.2 h0 hB)⟩

/-! ## The iteration loop of `optimize` -/

theorem optimize_loop_error {R : Type} {S : Type} (gsl : Minimizer R S)
    (options : OptimizationOptions R) (iter : Nat) (simplex_size : R) (minim : S)
    (h : Heap R) (he : (gsl.iterate minim h).1 ≠ 0) :
    optimize_loop gsl options iter simplex_size minim h =
      { iter := iter + 1, status := (gsl.iterate minim h).1, simplex_size := simplex_size,
        minim := (gsl.iterate minim h).2.1, heap := (gsl.iterate minim h).2.2 } := by
  rw [optimize_loop]
  simp only [he, ne_eq, not_false_eq_true, if_true]

theorem optimize_loop_stop {R : Type} {S : Type} (gsl : Minimizer R S)
    (options : OptimizationOptions R) (iter : Nat) (simplex_size : R) (minim : S)
    (h : Heap R) (he : (gsl.iterate minim h).1 = 0)
    (hs : ¬ (gsl.test_size (gsl.size (gsl.iterate minim h).2.1) options.maximum_simplex_size
      = GSL_CONTINUE ∧ iter + 1 < options.maximum_iterations)) :
    optimize_loop gsl options iter simplex_size minim h =
      { iter := iter + 1
        status := gsl.test_size (gsl.size (gsl.iterate minim h).2.1)
          options.maximum_simplex_size
        simplex_size := gsl.size (gsl.iterate minim h).2.1
        minim := (gsl.iterate minim h).2.1, heap := (gsl.iterate minim h).2.2 } := by
  rw [optimize_loop]
  simp only [he, ne_eq, not_true_eq_false, if_false]
  rw [dif_neg hs]

theorem optimize_loop_continue {R : Type} {S : Type} (gsl : Minimizer R S)
    (options : OptimizationOptions R) (iter : Nat) (simplex_size : R) (minim : S)
    (h : Heap R) (he : (gsl.iterate minim h).1 = 0)
    (hc : gsl.test_size (gsl.size (gsl.iterate minim h).2.1) options.maximum_simplex_size
      = GSL_CONTINUE)
    (hi : iter + 1 < options.maximum_iterations) :
    optimize_loop gsl options iter simplex_size minim h =
      optimize_loop gsl options (iter + 1) (gsl.size (gsl.iterate minim h).2.1)
        (gsl.iterate minim h).2.1 (gsl.iterate minim h).2.2 := by
  rw [optimize_loop]
  simp only [he, ne_eq, not_true_eq_false, if_false]
  rw [dif_pos ⟨hc, hi⟩]

theorem optimize_loop_iter {R : Type} {S : Type} (gsl : Minimizer R S)
    (options : OptimizationOptions R) (iter : Nat) (simplex_size : R) (minim : S)
    (h : Heap R) :
    iter + 1 ≤ (optimize_loop gsl options iter simplex_size minim h).iter ∧
      (optimize_loop gsl options iter simplex_size minim h).iter ≤
        max (iter + 1) options.maximum_iterations := by
  have key : ∀ (n iter : Nat) (simplex_size : R) (minim : S) (h : Heap R),
      options.maximum_iterations - iter = n →
      iter + 1 ≤ (optimize_loop gsl options iter simplex_size minim h).iter ∧
        (optimize_loop gsl options iter simplex_size minim h).iter ≤
          max (iter + 1) options.maximum_iterations := by
    intro n
    induction n using Nat.strong_induction_on with
    | _ n ih =>
    intro iter simplex_size minim h hn
    by_cases he : (gsl.iterate minim h).1 = 0
    · by_cases hs : gsl.test_size (gsl.size (gsl.iterate minim h).2.1)
          options.maximum_simplex_size = GSL_CONTINUE ∧ iter + 1 < options.maximum_iterations
      · rw [optimize_loop_continue gsl options iter simplex_size minim h he hs.1 hs.2]
        have hlt : options.maximum_iterations - (iter + 1) < n := by omega
        obtain ⟨h1, h2⟩ := ih _ hlt (iter + 1) (gsl.size (gsl.iterate minim h).2.1)
          (gsl.iterate minim h).2.1 (gsl.iterate minim h).2.2 rfl
        refine ⟨by omega, ?_⟩
        have hm : max (iter + 1 + 1) options.maximum_iterations ≤
            max (iter + 1) options.maximum_iterations := by
          have := hs.2
          rw [Nat.max_def, Nat.max_def]
          split <;> split <;> omega
        exact h2.trans hm
      · rw [optimize_loop_stop gsl options iter simplex_size minim h he hs]
        exact ⟨le_refl _, le_max_left _ _⟩
    · rw [optimize_loop_error gsl options iter simplex_size minim h he]
      exact ⟨le_refl _, le_max_left _ _⟩
  exact key _ iter simplex_size minim h rfl

theorem optimize_returns {R : Type} {S : Type} [Zero R] [Add R] [Neg R] [Sub R] [Mul R]
    [LE R] [DecidableRel (fun x y : R => x ≤ y)] (order : OperandOrder) (gsl : Minimizer R S)
    (a : Implementation R) (initial_guess : List R) (options : OptimizationOptions R)
    (h : Heap R) (hne : a.priors ≠ [])
    (hlen : a.parameter_descriptions.length = initial_guess.length) :
    ∃ v p, (a.optimize order gsl initial_guess options h).result = Except.ok (v, p) := by
  obtain ⟨lp, _, h2⟩ := negative_log_posterior_of_priors order a initial_guess h hne
  have hr := optimize_result order gsl a initial_guess options h (-lp) hlen h2
  by_cases hm : gsl.fval (a.minimizer_result order gsl initial_guess options h).minim ≥ -lp
  · rw [if_pos hm] at hr
    exact ⟨_, _, hr⟩
  · rw [if_neg hm] at hr
    exact ⟨_, _, hr⟩

/-- Claim C24: the loop of `optimize` is a total function of the minimizer, so it
terminates for every behaviour of the minimizer.  Entered with `iter = 0` it leaves with
`iter`, the number of simplex steps, at least 1 and at most the maximum of 1 and
`maximum_iterations`.  It stops after the step at hand when that step reports an error,
or when the size test does not report `GSL_CONTINUE`, or when `iter` has reached
`maximum_iterations`, and it goes on to the next step in every other case.  Whatever
status the loop ends with, `optimize` returns a pair when a prior is registered and the
guess has the size of `parameter_descriptions`. -/
theorem optimize_loop_terminates {R : Type} {S : Type} [Zero R] [Add R] [Neg R] [Sub R]
    [Mul R] [LE R] [DecidableRel (fun x y : R => x ≤ y)] (gsl : Minimizer R S)
    (options : OptimizationOptions R) :
    (∀ (minim : S) (h : Heap R),
      1 ≤ (optimize_loop gsl options 0 0 minim h).iter ∧
      (optimize_loop gsl options 0 0 minim h).iter ≤ max 1 options.maximum_iterations) ∧
    (∀ (iter : Nat) (simplex_size : R) (minim : S) (h : Heap R),
      ((gsl.iterate minim h).1 ≠ 0 →
        optimize_loop gsl options iter simplex_size minim h =
          { iter := iter + 1, status := (gsl.iterate minim h).1,
            simplex_size := simplex_size, minim := (gsl.iterate minim h).2.1,
            heap := (gsl.iterate minim h).2.2 }) ∧
      ((gsl.iterate minim h).1 = 0 →
        (gsl.test_size (gsl.size (gsl.iterate minim h).2.1) options.maximum_simplex_size
            ≠ GSL_CONTINUE ∨ options.maximum_iterations ≤ iter + 1) →
        optimize_loop gsl options iter simplex_size minim h =
          { iter := iter + 1
            status := gsl.test_size (gsl.size (gsl.iterate minim h).2.1)
              options.maximum_simplex_size
            simplex_size := gsl.size (gsl.iterate minim h).2.1
            minim := (gsl.iterate minim h).2.1, heap := (gsl.iterate minim h).2.2 }) ∧
      ((gsl.iterate minim h).1 = 0 →
        gsl.test_size (gsl.size (gsl.iterate minim h).2.1) options.maximum_simplex_size
          = GSL_CONTINUE →
        iter + 1 < options.maximum_iterations →
        optimize_loop gsl options iter simplex_size minim h =
          optimize_loop gsl options (iter + 1) (gsl.size (gsl.iterate minim h).2.1)
            (gsl.iterate minim h).2.1 (gsl.iterate minim h).2.2)) ∧
    (∀ (order : OperandOrder) (a : Analysis R) (initial_guess : List R) (h : Heap R),
      a.priors ≠ [] → a.parameter_descriptions.length = initial_guess.length →
      ∃ v p, (Analysis.optimize order gsl a initial_guess options h).result =
        Except.ok (v, p)) := by
  refine ⟨?_, ?_, ?_⟩
  · intro minim h
    have hb := optimize_loop_iter gsl options 0 0 minim h
    simpa using hb
  · intro iter simplex_size minim h
    refine ⟨optimize_loop_error gsl options iter simplex_size minim h, ?_,
      optimize_loop_continue gsl options iter simplex_size minim h⟩
    intro he hs
    apply optimize_loop_stop gsl options iter simplex_size minim h he
    rintro ⟨hc, hi⟩
    rcases hs with hs | hs
    · exact hs hc
    · omega
  · intro order a initial_guess h hne hlen
    exact optimize_returns order gsl a initial_guess options h hne hlen

/-- Witness of C24: with the example minimizer, whose size test reports success after
the first step, the loop ends with `iter = 1`; with the budget of 1000 steps, 1 is within
the bounds. -/
theorem optimize_loop_terminates_witness :
    (optimize_loop example_minimizer example_options 0 0 ([0, 0], 0) example_heap).iter = 1 ∧
    1 ≤ (optimize_loop example_minimizer example_options 0 0 ([0, 0], 0) example_heap).iter ∧
    (optimize_loop example_minimizer example_options 0 0 ([0, 0], 0) example_heap).iter
      ≤ max 1 example_options.maximum_iterations :=
  have h := optimize_loop_terminates example_minimizer example_options
  ⟨congrArg SimplexRun.iter
      ((h.2.1 0 0 ([0, 0], 0) example_heap).2.1 (by decide) (Or.inl (by decide))),
    (h.1 ([0, 0], 0) example_heap).1, (h.1 ([0, 0], 0) example_heap).2⟩

end eos

namespace wf

/-! ## `CharmLoops::B0` and `CharmLoops::h` -/

/-- Claim C29: `B0(s, m_q)` throws exactly when `s` and `m_q` are both 0, and then the
`InternalError` of its `throw`; for `s = 0` and `m_q ≠ 0` it returns the complex number
with the real part -2 and the imaginary part 0; and whenever 4 m_q^2 / s exceeds 1 it
returns a complex number whose imaginary part is 0. -/
theorem B0_throws_iff_both_zero {R : Type} [LinearOrderedField R] (m : Cmath R)
    (s m_q : R) :
    ((∃ e, CharmLoops.B0 m s m_q = Except.error e) ↔ s = 0 ∧ m_q = 0) ∧
    (s = 0 ∧ m_q = 0 → CharmLoops.B0 m s m_q = Except.error B0_error) ∧
    (s = 0 → m_q ≠ 0 → CharmLoops.B0 m s m_q = Except.ok { re := -2, im := 0 }) ∧
    (4 * m_q * m_q / s > 1 →
      ∃ c, CharmLoops.B0 m s m_q = Except.ok c ∧ c.im = 0) := by
  have hthrow : s = 0 ∧ m_q = 0 → CharmLoops.B0 m s m_q = Except.error B0_error := by
    rintro ⟨hs, hm⟩
    unfold CharmLoops.B0
    rw [if_pos ⟨hm.symm, hs.symm⟩]
  have hzero : s = 0 → m_q ≠ 0 → CharmLoops.B0 m s m_q = Except.ok { re := -2, im := 0 } := by
    intro hs hm
    unfold CharmLoops.B0
    rw [if_neg (fun hc => hm hc.1.symm), if_pos hs.symm]
  refine ⟨⟨?_, fun hb => ⟨_, hthrow hb⟩⟩, hthrow, hzero, ?_⟩
  · rintro ⟨e, he⟩
    by_contra hn
    by_cases hs : s = 0
    · have hm : m_q ≠ 0 := fun hm => hn ⟨hs, hm⟩
      rw [hzero hs hm] at he
      exact Except.noConfusion he
    · unfold CharmLoops.B0 at he
      rw [if_neg (fun hc => hs hc.2.symm), if_neg (fun hc => hs hc.symm)] at he
      simp only [] at he
      split at he <;> exact Except.noConfusion he
  · intro hz
    have hs : s ≠ 0 := by
      intro hs
      rw [hs, div_zero] at hz
      exact absurd hz (by norm_num)
    unfold CharmLoops.B0
    rw [if_neg (fun hc => hs hc.2.symm), if_neg (fun hc => hs hc.symm)]
    simp only []
    rw [if_pos hz]
    exact ⟨_, rfl, rfl⟩

/-- Witness of C29 over the rationals: `B0(0, 0)` throws, `B0(0, 1)` is -2, and
`B0(1, 1)`, where 4 m_q^2 / s is 4, has the imaginary part 0. -/
theorem B0_throws_iff_both_zero_witness :
    CharmLoops.B0 example_cmath 0 0 = Except.error B0_error ∧
    CharmLoops.B0 example_cmath 0 1 = Except.ok { re := -2, im := 0 } ∧
    ∃ c, CharmLoops.B0 example_cmath 1 1 = Except.ok c ∧ c.im = 0 :=
  have h0 := B0_throws_iff_both_zero example_cmath 0 0
  have h1 := B0_throws_iff_both_zero example_cmath 0 1
  have h2 := B0_throws_iff_both_zero example_cmath 1 1
  ⟨h0.2.1 ⟨rfl, rfl⟩, h1.2.2.1 rfl (by norm_num), h2.2.2.2 (by norm_num)⟩

/-- Claim C30: for `mu > 0`: for `m_q < 1e-4`, `h(mu, s, m_q)` is `h(mu, s)`, which is
4/9 times the complex number with the real part 2/3 + 2 log mu - log s and the imaginary
part pi; for `m_q ≥ 1e-4`, `s ≠ 0` and z = 4 m_q^2 / s above 1, which is the case for
0 < s < 4 m_q^2, the function returns a number whose imaginary part is 0; for
`m_q ≥ 1e-4`, `s ≠ 0` and z below 1e-10, which is the case for every s < 0, it returns
the real number -4/9 (2 log(m_q / mu) + 1), in which s does not occur.  For `m_q ≥ 1e-4`
and `s = 0`, where z is no real number, the function returns none. -/
theorem h_by_mass_and_threshold {R : Type} [LinearOrderedField R] (m : Cmath R)
    (mu s m_q : R) (hmu : 0 < mu) :
    (m_q < 1 / 10000 → CharmLoops.h m mu s m_q = some (CharmLoops.h_massless m mu s)) ∧
    CharmLoops.h_massless m mu s =
      { re := 4 / 9 * (2 / 3 + 2 * m.log mu - m.log s), im := 4 / 9 * m.M_PI } ∧
    (1 / 10000 ≤ m_q → s ≠ 0 → 4 * m_q * m_q / s > 1 →
      ∃ c, CharmLoops.h m mu s m_q = some c ∧ c.im = 0) ∧
    (1 / 10000 ≤ m_q → 0 < s → s < 4 * m_q * m_q → s ≠ 0 ∧ 4 * m_q * m_q / s > 1) ∧
    (1 / 10000 ≤ m_q → s ≠ 0 → 4 * m_q * m_q / s < 1 / 10000000000 →
      CharmLoops.h m mu s m_q =
        some { re := (-4) / 9 * (2 * m.log (m_q / mu) + 1), im := 0 }) ∧
    (1 / 10000 ≤ m_q → s < 0 → s ≠ 0 ∧ 4 * m_q * m_q / s < 1 / 10000000000) ∧
    (1 / 10000 ≤ m_q → s = 0 → CharmLoops.h m mu s m_q = none) := by
  have hmu0 : mu ≠ 0 := ne_of_gt hmu
  refine ⟨?_, rfl, ?_, ?_, ?_, ?_, ?_⟩
  · intro hm
    unfold CharmLoops.h
    rw [if_pos hm]
  · intro hm hs hz
    have hz2 : ¬ 4 * m_q * m_q / s < 1 / 10000000000 := by
      intro hc
      have : (1 : R) / 10000000000 < 1 := by norm_num
      exact absurd (lt_trans hz (lt_trans hc this)) (lt_irrefl _)
    unfold CharmLoops.h quotient
    rw [if_neg (not_lt.2 hm), if_neg hs, if_neg hmu0]
    simp only [Option.some_bind, if_neg hz2, if_pos hz]
    exact ⟨_, rfl, by simp [complex.scale, complex.shift]⟩
  · intro _ hs hlt
    refine ⟨ne_of_gt hs, ?_⟩
    rw [gt_iff_lt, lt_div_iff₀ hs]
    simpa using hlt
  · intro hm hs hz
    unfold CharmLoops.h quotient
    rw [if_neg (not_lt.2 hm), if_neg hs, if_neg hmu0]
    simp only [Option.some_bind, if_pos hz]
  · intro hm hs
    have hmq : 0 < m_q := lt_of_lt_of_le (by norm_num) hm
    have hnum : 0 < 4 * m_q * m_q := by positivity
    have hneg : 4 * m_q * m_q / s < 0 := div_neg_of_pos_of_neg hnum hs
    exact ⟨ne_of_lt hs, lt_trans hneg (by norm_num)⟩
  · intro hm hs
    unfold CharmLoops.h quotient
    rw [if_neg (not_lt.2 hm), if_pos hs]
    rfl

/-- Witness of C30 over the rationals, with `mu` = 1: a light quark, a heavy quark below
the threshold, a heavy quark at negative s and a heavy quark at s = 0. -/
theorem h_by_mass_and_threshold_witness :
    CharmLoops.h example_cmath 1 1 0 = some (CharmLoops.h_massless example_cmath 1 1) ∧
    (∃ c, CharmLoops.h example_cmath 1 1 1 = some c ∧ c.im = 0) ∧
    CharmLoops.h example_cmath 1 (-1) 1 =
      some { re := (-4) / 9 * (2 * example_cmath.log (1 / 1) + 1), im := 0 } ∧
    CharmLoops.h example_cmath 1 0 1 = none :=
  have h0 := h_by_mass_and_threshold example_cmath 1 1 0 (by norm_num)
  have h1 := h_by_mass_and_threshold example_cmath 1 1 1 (by norm_num)
  have h2 := h_by_mass_and_threshold example_cmath 1 (-1) 1 (by norm_num)
  have h3 := h_by_mass_and_threshold example_cmath 1 0 1 (by norm_num)
  ⟨h0.1 (by norm_num), h1.2.2.1 (by norm_num) (by norm_num) (by norm_num),
    h2.2.2.2.2.1 (by norm_num) (by norm_num) (by norm_num),
    h3.2.2.2.2.2.2 (by norm_num) rfl⟩

end wf
